import Mathlib

/-!
Deadlock detection (Banker's safety check): embedding and verification.

Shallow embedding of `deadlock_detector.c`, of `rag.c`, and of the request
simulation and the resolution command of `api_worker.c`.

Modelling conventions.

* A C `int` is an `Int` between `INT_MIN` and `INT_MAX`. Every sum or difference
  of `int` values that the code stores is reduced to that range by `wrap_int`, as
  the compiled program does (two's-complement wrap-around); comparisons read the
  stored values. The `(unsigned)` casts of `cmd_simulate` are modelled by
  `to_unsigned` (reduction modulo `2 ^ 32`). The node numbers of `build_rag`
  are sums of the two counts and an index below them, which the readers of the
  program keep below `MAX_PROCESSES + MAX_RESOURCES`; they are not reduced.
* A C array is a total map from `Nat` indices; a store `a[j] = v` is `upd a j v`.
  The code only touches indices below `num_processes` / `num_resources`.
* A `for (int i = 0; i < n; i++)` loop is a left fold over `List.range n.toNat`
  (no iteration when `n <= 0`).
* An output array together with its element counter (`safe_sequence` with
  `count`, `deadlocked_processes` with `num_deadlocked`) is the list of the
  entries written so far; the counter is the length of the list.
* The `do { ... } while (found);` loop takes a fuel argument and returns `none`
  when the fuel runs out before the loop exits; so does the recursion of
  `dfs_cycle`, whose fuel bounds the recursion depth.
-/

namespace DeadlockDetection

/-! ## Data model (`deadlock_detector.h`) -/

/-- Bound `MAX_PROCESSES` of `deadlock_detector.h`. -/
def MAX_PROCESSES : Nat := 10

/-- Bound `MAX_RESOURCES` of `deadlock_detector.h`. -/
def MAX_RESOURCES : Nat := 10

/-- The struct `SystemState` (the display names play no role in the analysis). -/
structure SystemState where
  num_processes : Int
  num_resources : Int
  available : Nat → Int
  allocation : Nat → Nat → Int
  max_need : Nat → Nat → Int
  need : Nat → Nat → Int

/-- The struct `DetectionResult`; `num_deadlocked` and `safe_sequence_length`
are the lengths of the two lists. -/
structure DetectionResult where
  is_deadlocked : Bool
  deadlocked_processes : List Nat
  safe_sequence : List Nat
deriving DecidableEq, Repr

/-- Array store `a[j] = v`. -/
def upd {α : Type} (a : Nat → α) (j : Nat) (v : α) : Nat → α :=
  fun k => if k = j then v else a k

/-- Matrix store `m[i][j] = v`. -/
def upd2 {α : Type} (m : Nat → Nat → α) (i j : Nat) (v : α) : Nat → Nat → α :=
  upd m i (upd (m i) j v)

/-! ## Values of type `int` -/

/-- The least value of a 32-bit `int`. -/
def INT_MIN : Int := -2147483648

/-- The largest value of a 32-bit `int`. -/
def INT_MAX : Int := 2147483647

/-- The value a 32-bit `int` variable holds after the exact result `x` of a sum or a
difference of `int` values has been stored in it: `x` itself when it lies between
`INT_MIN` and `INT_MAX`, and otherwise the value in that range that differs from
`x` by a multiple of `2 ^ 32`. -/
def wrap_int (x : Int) : Int := (x + 2147483648) % 4294967296 - 2147483648

/-! ## `deadlock_detector.c` -/

/-- The function `calculate_need_matrix`: `need[i][j] = max_need[i][j] - allocation[i][j]`
for every in-range `i`, `j`, the difference being an `int`. -/
def calculate_need_matrix (state : SystemState) : SystemState :=
  (List.range state.num_processes.toNat).foldl (fun st i =>
    (List.range st.num_resources.toNat).foldl (fun st j =>
      { st with need := upd2 st.need i j (wrap_int (st.max_need i j - st.allocation i j)) })
      st) state

/-- The function `can_satisfy`: false as soon as some `need[j] > work[j]`. -/
def can_satisfy (need work : Nat → Int) (num_resources : Int) : Bool :=
  (List.range num_resources.toNat).all (fun j => !decide (need j > work j))

/-- The local variables of `detect_deadlock` that the fixed-point loop updates:
`work`, `finish`, `result.safe_sequence` (with `count` its length) and `found`. -/
structure Scan where
  work : Nat → Int
  finish : Nat → Bool
  safe_sequence : List Nat
  found : Bool

/-- The inner loop `work[j] += allocation[i][j]` of `detect_deadlock`. -/
def release (state : SystemState) (work : Nat → Int) (i : Nat) : Nat → Int :=
  (List.range state.num_resources.toNat).foldl
    (fun w j => upd w j (wrap_int (w j + state.allocation i j))) work

/-- The body of the `for` loop of `detect_deadlock` for process `i`. -/
def scan_step (state : SystemState) (st : Scan) (i : Nat) : Scan :=
  if !st.finish i then
    if can_satisfy (state.need i) st.work state.num_resources then
      { work := release state st.work i
        finish := upd st.finish i true
        safe_sequence := st.safe_sequence ++ [i]
        found := true }
    else st
  else st

/-- One pass of the `do` body: `found = false`, then the scan over all processes. -/
def scan_pass (state : SystemState) (st : Scan) : Scan :=
  (List.range state.num_processes.toNat).foldl (scan_step state) { st with found := false }

/-- The loop `do { ... } while (found);`, at most `fuel` passes. -/
def do_while (state : SystemState) : Nat → Scan → Option Scan
  | 0, _ => none
  | fuel + 1, st =>
    let st1 := scan_pass state st
    if st1.found then do_while state fuel st1 else some st1

/-- The initialisation `work[j] = available[j]`. -/
def init_work (state : SystemState) : Nat → Int :=
  (List.range state.num_resources.toNat).foldl
    (fun w j => upd w j (state.available j)) (fun _ => 0)

/-- The initialisation `finish[i] = false`. -/
def init_finish (state : SystemState) : Nat → Bool :=
  (List.range state.num_processes.toNat).foldl (fun f i => upd f i false) (fun _ => false)

/-- The final loop of `detect_deadlock`: every unfinished process sets
`is_deadlocked` and is appended to `deadlocked_processes`. -/
def collect_deadlocked (state : SystemState) (finish : Nat → Bool) : Bool × List Nat :=
  (List.range state.num_processes.toNat).foldl
    (fun acc i => if !finish i then (true, acc.2 ++ [i]) else acc) (false, [])

/-- The function `detect_deadlock` with `fuel` passes allowed to its `do`-`while`
loop. It returns the state it leaves behind (the need matrix is recomputed in
place) and the result. -/
def detect_deadlock_fuel (fuel : Nat) (state : SystemState) :
    Option (SystemState × DetectionResult) :=
  let state := calculate_need_matrix state
  let work := init_work state
  let finish := init_finish state
  match do_while state fuel { work := work, finish := finish, safe_sequence := [], found := false } with
  | none => none
  | some st =>
    let dl := collect_deadlocked state st.finish
    some (state, { is_deadlocked := dl.1
                   deadlocked_processes := dl.2
                   safe_sequence := st.safe_sequence })

/-- The function `detect_deadlock`: `num_processes + 1` passes are allowed to the
loop, which is always enough (`detect_deadlock_run`: every larger fuel gives the
same result, and the result is never `none`). -/
def detect_deadlock (state : SystemState) : Option (SystemState × DetectionResult) :=
  detect_deadlock_fuel (state.num_processes.toNat + 1) state

/-! ## `api_worker.c`: request simulation -/

/-- The JSON reply of `cmd_simulate`. -/
structure SimulateReply where
  granted : Bool
  is_safe : Bool
  message : String
deriving DecidableEq, Repr

/-- The cast `(unsigned)x` of a 32-bit `int`. -/
def to_unsigned (x : Int) : Int := x % 4294967296

/-- The function `cmd_simulate`; the result is the state left behind and the reply.
The four stores of the trial (`-=`, `+=`) and of its revert (`+=`, `-=`) are `int`
stores. -/
def cmd_simulate (state : SystemState) (pi rj amount : Int) :
    Option (SystemState × SimulateReply) :=
  if amount ≤ 0 ∨ pi < 0 ∨ pi ≥ state.num_processes ∨ rj < 0 ∨ rj ≥ state.num_resources then
    some (state, ⟨false, false, "Invalid process_index, resource_index, or amount."⟩)
  else if to_unsigned amount > to_unsigned (state.available rj.toNat) then
    some (state, ⟨false, false, "Request exceeds available resources."⟩)
  else
    let state := calculate_need_matrix state
    let need_val := state.need pi.toNat rj.toNat
    if amount > need_val then
      some (state, ⟨false, false, "Request exceeds remaining need."⟩)
    else
      let state := { state with
        available := upd state.available rj.toNat
          (wrap_int (state.available rj.toNat - amount)) }
      let state := { state with
        allocation := upd2 state.allocation pi.toNat rj.toNat
          (wrap_int (state.allocation pi.toNat rj.toNat + amount)) }
      let state := calculate_need_matrix state
      match detect_deadlock state with
      | none => none
      | some (state, res) =>
        let state := { state with
          available := upd state.available rj.toNat
            (wrap_int (state.available rj.toNat + amount)) }
        let state := { state with
          allocation := upd2 state.allocation pi.toNat rj.toNat
            (wrap_int (state.allocation pi.toNat rj.toNat - amount)) }
        let safe := !res.is_deadlocked
        if safe then
          some (state, ⟨true, true, "Granting would keep the system safe."⟩)
        else
          some (state, ⟨false, false, "Granting would lead to unsafe state."⟩)

/-! ## `api_worker.c`: terminating a victim -/

/-- The function `pick_victim`: the first entry of `deadlocked_processes` is the
initial victim and `min_total` its allocation total; every later entry with a
strictly smaller total replaces it. The index loop `for (i = 1; i < num_deadlocked; i++)`
runs over the tail of the list of entries; entry `0` of an empty list reads as `0`
(the callers only call with `num_deadlocked > 0`). The totals are `int` sums. -/
def pick_victim (state : SystemState) (res : DetectionResult) : Nat :=
  let victim := res.deadlocked_processes.getD 0 0
  let min_total := (List.range state.num_resources.toNat).foldl
    (fun total j => wrap_int (total + state.allocation victim j)) 0
  (res.deadlocked_processes.tail.foldl (fun (acc : Nat × Int) p =>
    let total := (List.range state.num_resources.toNat).foldl
      (fun total j => wrap_int (total + state.allocation p j)) 0
    if total < acc.2 then (p, total) else acc) (victim, min_total)).1

/-- The function `apply_victim`: for every resource, the victim's allocation is
added to `available` (an `int` sum), then its allocation and maximum are set to `0`. -/
def apply_victim (state : SystemState) (victim : Nat) : SystemState :=
  (List.range state.num_resources.toNat).foldl (fun st j =>
    { st with
      available := upd st.available j (wrap_int (st.available j + st.allocation victim j))
      allocation := upd2 st.allocation victim j 0
      max_need := upd2 st.max_need victim j 0 }) state

/-- The JSON line printed by `cmd_resolve`: an `error` object, or the new detection
result together with `victim_process` (the new state is returned next to it). -/
inductive ResolveReply where
  | error (message : String)
  | resolved (result : DetectionResult) (victim_process : Int)
deriving DecidableEq, Repr

/-- The function `cmd_resolve`; the result is the state left behind and the reply.
The membership loop with `break` over `deadlocked_processes` is `List.any`. -/
def cmd_resolve (state : SystemState) (victim_override : Int) :
    Option (SystemState × ResolveReply) :=
  let state := calculate_need_matrix state
  match detect_deadlock state with
  | none => none
  | some (state, res) =>
    if !res.is_deadlocked || res.deadlocked_processes.length == 0 then
      some (state, .error "State is not deadlocked; resolution not applicable.")
    else
      let victim := victim_override
      let chosen : Option Int :=
        if victim < 0 then
          some (pick_victim state res : Nat)
        else
          let ok := res.deadlocked_processes.any (fun p => decide ((p : Int) = victim))
          if !ok || decide (victim < 0) || decide (victim ≥ state.num_processes) then none
          else some victim
      match chosen with
      | none => some (state, .error "Invalid or non-deadlocked victim_process_index.")
      | some victim =>
        let state := apply_victim state victim.toNat
        match detect_deadlock state with
        | none => none
        | some (state, new_res) => some (state, .resolved new_res victim)

/-! ## `deadlock_detector.c`: interactive resolution -/

/-- The victim selection of `resolve_deadlock` (its first two loops): as in
`pick_victim`, with the running pair `(min_resources, victim)`. -/
def resolve_select (state : SystemState) (result : DetectionResult) : Nat :=
  let victim := result.deadlocked_processes.getD 0 0
  let min_resources := (List.range state.num_resources.toNat).foldl
    (fun m i => wrap_int (m + state.allocation victim i)) 0
  (result.deadlocked_processes.tail.foldl (fun (acc : Int × Nat) proc =>
    let total := (List.range state.num_resources.toNat).foldl
      (fun total j => wrap_int (total + state.allocation proc j)) 0
    if total < acc.1 then (total, proc) else acc) (min_resources, victim)).2

/-- The release loop of `resolve_deadlock`: only where `allocation[victim][j] > 0`
is the allocation added to `available` (an `int` sum) and are
`allocation[victim][j]` and `max_need[victim][j]` set to `0`. -/
def resolve_release (state : SystemState) (victim : Nat) : SystemState :=
  (List.range state.num_resources.toNat).foldl (fun st j =>
    if st.allocation victim j > 0 then
      { st with
        available := upd st.available j (wrap_int (st.available j + st.allocation victim j))
        allocation := upd2 st.allocation victim j 0
        max_need := upd2 st.max_need victim j 0 }
    else st) state

/-- The function `resolve_deadlock`; the result is the state and the detection
result it leaves behind (`*result = detect_deadlock(state)`). -/
def resolve_deadlock (state : SystemState) (result : DetectionResult) :
    Option (SystemState × DetectionResult) :=
  if !result.is_deadlocked || result.deadlocked_processes.length == 0 then
    some (state, result)
  else
    let victim := resolve_select state result
    let state := resolve_release state victim
    detect_deadlock state

/-! ## `rag.h` and `rag.c` -/

/-- The enum `EdgeType`. -/
inductive EdgeType where
  | REQUEST
  | ASSIGNMENT
deriving DecidableEq, Repr

/-- The struct `Edge`; `from_node` and `to_node` are the C fields `from` and `to`. -/
structure Edge where
  from_node : Int
  to_node : Int
  type : EdgeType
deriving DecidableEq, Repr

/-- The struct `RAG`; `num_edges` is the length of `edges`. -/
structure RAG where
  num_processes : Int
  num_resources : Int
  edges : List Edge
  adj_matrix : Nat → Nat → Int

/-- The body of the inner loop of `build_rag` for process `i` and resource `j`: an
assignment edge when `allocation[i][j] > 0`, then a request edge when
`need[i][j] > 0`. -/
def build_rag_cell (state : SystemState) (rag : RAG) (i j : Nat) : RAG :=
  let resource_node : Int := state.num_processes + j
  let rag :=
    if state.allocation i j > 0 then
      { rag with
        edges := rag.edges ++ [{ from_node := resource_node, to_node := i, type := .ASSIGNMENT }]
        adj_matrix := upd2 rag.adj_matrix resource_node.toNat i 2 }
    else rag
  if state.need i j > 0 then
    { rag with
      edges := rag.edges ++ [{ from_node := i, to_node := resource_node, type := .REQUEST }]
      adj_matrix := upd2 rag.adj_matrix i resource_node.toNat 1 }
  else rag

/-- The function `build_rag`; `rag` is the structure the caller passes in, whose
adjacency entries outside the `total_nodes` square are left as they are. -/
def build_rag (state : SystemState) (rag : RAG) : RAG :=
  let rag := { rag with
    num_processes := state.num_processes
    num_resources := state.num_resources
    edges := [] }
  let total_nodes := state.num_processes + state.num_resources
  let rag := (List.range total_nodes.toNat).foldl (fun rg i =>
    (List.range total_nodes.toNat).foldl (fun rg j =>
      { rg with adj_matrix := upd2 rg.adj_matrix i j 0 }) rg) rag
  (List.range state.num_processes.toNat).foldl (fun rg i =>
    (List.range state.num_resources.toNat).foldl (fun rg j =>
      build_rag_cell state rg i j) rg) rag

/-- The local arrays `visited` and `rec_stack` of `detect_cycle_rag`. -/
structure Marks where
  visited : Nat → Bool
  rec_stack : Nat → Bool

/-- The `for` loop of `dfs_cycle` over the remaining candidates `i`; `call` is the
recursive call `dfs_cycle(rag, i, visited, rec_stack)`. The result is the returned
flag (`true` leaves the loop at once) and the arrays. -/
def dfs_cycle_loop (rag : RAG) (call : Nat → Marks → Option (Bool × Marks)) (node : Nat) :
    List Nat → Marks → Option (Bool × Marks)
  | [], m => some (false, m)
  | i :: rest, m =>
    if rag.adj_matrix node i ≠ 0 then
      if !m.visited i then
        match call i m with
        | none => none
        | some (true, m1) => some (true, m1)
        | some (false, m1) => dfs_cycle_loop rag call node rest m1
      else if m.rec_stack i then some (true, m)
      else dfs_cycle_loop rag call node rest m
    else dfs_cycle_loop rag call node rest m

/-- The function `dfs_cycle`, with `fuel` bounding the recursion depth (`none` when
it runs out). -/
def dfs_cycle (rag : RAG) : Nat → Nat → Marks → Option (Bool × Marks)
  | 0, _, _ => none
  | fuel + 1, node, m =>
    let m : Marks :=
      { visited := upd m.visited node true, rec_stack := upd m.rec_stack node true }
    let total_nodes := rag.num_processes + rag.num_resources
    match dfs_cycle_loop rag (dfs_cycle rag fuel) node (List.range total_nodes.toNat) m with
    | none => none
    | some (true, m1) => some (true, m1)
    | some (false, m1) => some (false, { m1 with rec_stack := upd m1.rec_stack node false })

/-- The `for` loop of `detect_cycle_rag` over the remaining start nodes. -/
def detect_cycle_loop (rag : RAG) (fuel : Nat) : List Nat → Marks → Option Bool
  | [], _ => some false
  | i :: rest, m =>
    if !m.visited i then
      match dfs_cycle rag fuel i m with
      | none => none
      | some (true, _) => some true
      | some (false, m1) => detect_cycle_loop rag fuel rest m1
    else detect_cycle_loop rag fuel rest m

/-- The function `detect_cycle_rag` with recursion depth `fuel` allowed to
`dfs_cycle`; both arrays start all `false`. -/
def detect_cycle_rag_fuel (fuel : Nat) (rag : RAG) : Option Bool :=
  let total_nodes := rag.num_processes + rag.num_resources
  detect_cycle_loop rag fuel (List.range total_nodes.toNat)
    { visited := fun _ => false, rec_stack := fun _ => false }

/-- The function `detect_cycle_rag`: the recursion never gets deeper than the
number of nodes. -/
def detect_cycle_rag (rag : RAG) : Option Bool :=
  detect_cycle_rag_fuel ((rag.num_processes + rag.num_resources).toNat + 1) rag

/-- A `RAG` variable before `build_rag` has filled it (all entries `0`). -/
def empty_rag : RAG :=
  { num_processes := 0, num_resources := 0, edges := [], adj_matrix := fun _ _ => 0 }

/-! ## Sample scenarios (`run_sample_scenario` of `main.c`) -/

/-- Matrix literal: rows beyond the list and columns beyond a row read as `0`
(the value `init_system_state` stores everywhere). -/
def matrix_of (rows : List (List Int)) : Nat → Nat → Int :=
  fun i j => (rows.getD i []).getD j 0

/-- Scenario 1 of `run_sample_scenario` (safe state), after its final
`calculate_need_matrix`. -/
def scenario_A : SystemState :=
  calculate_need_matrix
    { num_processes := 5
      num_resources := 3
      available := fun j => [3, 3, 2].getD j 0
      allocation := matrix_of [[0, 1, 0], [2, 0, 0], [3, 0, 2], [2, 1, 1], [0, 0, 2]]
      max_need := matrix_of [[7, 5, 3], [3, 2, 2], [9, 0, 2], [2, 2, 2], [4, 3, 3]]
      need := fun _ _ => 0 }

/-- Scenario 2 of `run_sample_scenario` (deadlock), after its final
`calculate_need_matrix`. -/
def scenario_B : SystemState :=
  calculate_need_matrix
    { num_processes := 4
      num_resources := 3
      available := fun j => [0, 0, 0].getD j 0
      allocation := matrix_of [[1, 0, 1], [1, 1, 0], [0, 1, 1], [1, 0, 0]]
      max_need := matrix_of [[2, 1, 2], [2, 2, 1], [1, 2, 2], [2, 1, 1]]
      need := fun _ _ => 0 }

/-- A one-process, one-resource state as `read_state` accepts it from the input
`1 1 / -1 / 0 / 5`: `available[0] = -1`, `allocation[0][0] = 0`, `max_need[0][0] = 5`
(all other entries `0`, as `init_system_state` leaves them). -/
def negative_available_state : SystemState :=
  { num_processes := 1
    num_resources := 1
    available := fun j => [-1].getD j 0
    allocation := matrix_of [[0]]
    max_need := matrix_of [[5]]
    need := fun _ _ => 0 }

/-- A one-process, one-resource state with a negative allocation entry, as
`input_system_config` and `read_state` accept it: `available[0] = 0`,
`allocation[0][0] = -1`, `max_need[0][0] = 0`, need matrix computed. -/
def negative_allocation_state : SystemState :=
  calculate_need_matrix
    { num_processes := 1
      num_resources := 1
      available := fun j => [0].getD j 0
      allocation := matrix_of [[-1]]
      max_need := matrix_of [[0]]
      need := fun _ _ => 0 }

/-- A one-process, one-resource state with `max_need[0][0] = 0` below
`allocation[0][0] = 1` (and `available[0] = 0`), need matrix computed. -/
def negative_need_state : SystemState :=
  calculate_need_matrix
    { num_processes := 1
      num_resources := 1
      available := fun j => [0].getD j 0
      allocation := matrix_of [[1]]
      max_need := matrix_of [[0]]
      need := fun _ _ => 0 }

/-- A two-process, one-resource state in which process 1 has `allocation[1][0] = -1`:
`available = [1]`, allocation rows `[0]`, `[-1]`, maximum rows `[1]`, `[0]`, need
matrix computed. -/
def shrinking_work_state : SystemState :=
  calculate_need_matrix
    { num_processes := 2
      num_resources := 1
      available := fun j => [1].getD j 0
      allocation := matrix_of [[0], [-1]]
      max_need := matrix_of [[1], [0]]
      need := fun _ _ => 0 }

/-- A one-process state with a single unit of a single resource, free, of which the
process claims two: `available = [1]`, `allocation[0][0] = 0`, `max_need[0][0] = 2`,
need matrix computed. -/
def oversized_claim_state : SystemState :=
  calculate_need_matrix
    { num_processes := 1
      num_resources := 1
      available := fun j => [1].getD j 0
      allocation := matrix_of [[0]]
      max_need := matrix_of [[2]]
      need := fun _ _ => 0 }

/-- Two processes and two single-unit resources, each process holding one resource
and claiming the other: `available = [0, 0]`, allocation rows `[1, 0]`, `[0, 1]`,
maximum rows `[1, 1]`, `[1, 1]`, need matrix computed. -/
def single_instance_state : SystemState :=
  calculate_need_matrix
    { num_processes := 2
      num_resources := 2
      available := fun j => [0, 0].getD j 0
      allocation := matrix_of [[1, 0], [0, 1]]
      max_need := matrix_of [[1, 1], [1, 1]]
      need := fun _ _ => 0 }

/-- Two processes and one resource with `available[0] = INT_MAX`: allocation rows
`[1]`, `[0]`, maximum rows `[1]`, `[1]`, need matrix computed. The units of the
resource, `INT_MAX + 1`, do not fit in an `int`. -/
def overflow_work_state : SystemState :=
  calculate_need_matrix
    { num_processes := 2
      num_resources := 1
      available := fun j => [2147483647].getD j 0
      allocation := matrix_of [[1], [0]]
      max_need := matrix_of [[1], [1]]
      need := fun _ _ => 0 }

/-- One process and one resource with `allocation[0][0] = -1` and
`max_need[0][0] = INT_MAX` (`available[0] = 0`), need matrix computed: the difference
`max_need - allocation` is `INT_MAX + 1`. -/
def overflow_need_state : SystemState :=
  calculate_need_matrix
    { num_processes := 1
      num_resources := 1
      available := fun j => [0].getD j 0
      allocation := matrix_of [[-1]]
      max_need := matrix_of [[2147483647]]
      need := fun _ _ => 0 }

/-- One process and one resource with `available[0] = INT_MAX`,
`allocation[0][0] = 1` and `max_need[0][0] = INT_MIN`, need matrix computed: the
difference `max_need - allocation` is `INT_MIN - 1`. -/
def underflow_need_state : SystemState :=
  calculate_need_matrix
    { num_processes := 1
      num_resources := 1
      available := fun j => [2147483647].getD j 0
      allocation := matrix_of [[1]]
      max_need := matrix_of [[-2147483648]]
      need := fun _ _ => 0 }

/-- Two deadlocked processes and two resources, nothing available: allocation rows
`[INT_MAX, 1]`, `[1, 0]`, maximum rows `[INT_MAX, 2]`, `[2, 0]`, need matrix
computed. The allocation row sum of process 0 is `INT_MAX + 1`. -/
def overflow_row_state : SystemState :=
  calculate_need_matrix
    { num_processes := 2
      num_resources := 2
      available := fun j => [0, 0].getD j 0
      allocation := matrix_of [[2147483647, 1], [1, 0]]
      max_need := matrix_of [[2147483647, 2], [2, 0]]
      need := fun _ _ => 0 }

/-- The number `x` is a value of a 32-bit `int`; every value the program reads or
holds in an `int` variable is one. -/
def IsInt (x : Int) : Prop := INT_MIN ≤ x ∧ x ≤ INT_MAX

instance (x : Int) : Decidable (IsInt x) := by
  unfold IsInt
  infer_instance

/-- The in-range entries of `available`, `allocation` and `max_need` are values of
type `int`, as they are in every state of the program. -/
def IntState (s : SystemState) : Prop :=
  (∀ j, j < s.num_resources.toNat → IsInt (s.available j)) ∧
    ∀ i, i < s.num_processes.toNat → ∀ j, j < s.num_resources.toNat →
      IsInt (s.allocation i j) ∧ IsInt (s.max_need i j)

instance (s : SystemState) : Decidable (IntState s) := by
  unfold IntState
  infer_instance

/-- Every in-range difference `max_need[i][j] - allocation[i][j]` fits in an `int`. -/
def NeedFits (s : SystemState) : Prop :=
  ∀ i, i < s.num_processes.toNat → ∀ j, j < s.num_resources.toNat →
    IsInt (s.max_need i j - s.allocation i j)

instance (s : SystemState) : Decidable (NeedFits s) := by
  unfold NeedFits
  infer_instance

/-- The units of every resource fit in an `int`: `available[r]` and the entries
`allocation[p][r]` of all processes, each taken in absolute value, add up to at
most `INT_MAX`. -/
def WorkFits (s : SystemState) : Prop :=
  ∀ r, r < s.num_resources.toNat →
    |s.available r| + ∑ p in Finset.range s.num_processes.toNat, |s.allocation p r| ≤ INT_MAX

instance (s : SystemState) : Decidable (WorkFits s) := by
  unfold WorkFits
  infer_instance

/-- The allocation row of every process fits in an `int`: its entries, each taken
in absolute value, add up to at most `INT_MAX`. -/
def RowFits (s : SystemState) : Prop :=
  ∀ p, p < s.num_processes.toNat →
    ∑ j in Finset.range s.num_resources.toNat, |s.allocation p j| ≤ INT_MAX

instance (s : SystemState) : Decidable (RowFits s) := by
  unfold RowFits
  infer_instance

/-- The total the loops `total += allocation[p][j]` of `pick_victim` and
`resolve_deadlock` compute for process `p`. -/
def row_total (s : SystemState) (p : Nat) : Int :=
  (List.range s.num_resources.toNat).foldl
    (fun total j => wrap_int (total + s.allocation p j)) 0

/-- The state on which `cmd_simulate` runs `detect_deadlock`: `available[resource]`
and `allocation[process][resource]` after the two `int` stores of the trial. -/
def trial (s : SystemState) (process resource : Nat) (amount : Int) : SystemState :=
  { s with
    available := upd s.available resource (wrap_int (s.available resource - amount))
    allocation := upd2 s.allocation process resource
      (wrap_int (s.allocation process resource + amount)) }

/-- The work vector reached from `work` after the processes of `order` have been
discharged in turn: each one adds its allocation row to the work vector. -/
def replay_work (s : SystemState) : List Nat → (Nat → Int) → Nat → Int
  | [], work => work
  | p :: ps, work => replay_work s ps (fun r => work r + s.allocation p r)

/-- The list `order` is a valid discharge order from `work`: each process in turn
has `max_need[p][r] - allocation[p][r] <= work[r]` for every resource `r`, and then
adds its allocation row to `work`. -/
def valid_discharge (s : SystemState) : List Nat → (Nat → Int) → Prop
  | [], _ => True
  | p :: ps, work =>
    (∀ r, r < s.num_resources.toNat → s.max_need p r - s.allocation p r ≤ work r) ∧
      valid_discharge s ps (fun r => work r + s.allocation p r)

/-- The result `r` partitions the process indices `0 .. n-1`: every index occurs
exactly once in `safe_sequence` or exactly once in `deadlocked_processes`, never in
both, no other value occurs, and the two lengths add up to `n`. -/
def PartitionsProcesses (n : Int) (r : DetectionResult) : Prop :=
  (∀ i : Nat, (i : Int) < n →
    (r.safe_sequence.count i = 1 ∧ r.deadlocked_processes.count i = 0) ∨
      (r.safe_sequence.count i = 0 ∧ r.deadlocked_processes.count i = 1)) ∧
  (∀ x, x ∈ r.safe_sequence ++ r.deadlocked_processes → (x : Int) < n) ∧
  ((r.safe_sequence.length + r.deadlocked_processes.length : Nat) : Int) = n

/-- The fixed-point loop started in `st` makes exactly `k + 1` passes: each of the
first `k` passes ends with `found` set and a longer safe sequence, the last pass
discharges nothing, any fuel above `k` returns the state after pass `k + 1`, and
no smaller fuel suffices. -/
def RunsPasses (s : SystemState) (st : Scan) (k : Nat) : Prop :=
  (∀ j, j < k → ((scan_pass s)^[j + 1] st).found = true ∧
    ((scan_pass s)^[j] st).safe_sequence.length
      < ((scan_pass s)^[j + 1] st).safe_sequence.length) ∧
  ((scan_pass s)^[k + 1] st).found = false ∧
  ((scan_pass s)^[k + 1] st).safe_sequence = ((scan_pass s)^[k] st).safe_sequence ∧
  (∀ fuel, k + 1 ≤ fuel → do_while s fuel st = some ((scan_pass s)^[k + 1] st)) ∧
  (∀ fuel, fuel ≤ k → do_while s fuel st = none)

/-- Two states that the fixed-point loop cannot tell apart: same dimensions, same
`available` and `allocation`, and need matrices that agree on all in-range entries. -/
structure SameInputs (s t : SystemState) : Prop where
  np : t.num_processes = s.num_processes
  nr : t.num_resources = s.num_resources
  avail : t.available = s.available
  alloc : t.allocation = s.allocation
  need : ∀ i j, i < s.num_processes.toNat → j < s.num_resources.toNat → t.need i j = s.need i j

/-- The tentative state of a request: `available[resource]` decreased by `amount`,
`allocation[process][resource]` increased by `amount`, all else equal. -/
def tentative (s : SystemState) (process resource : Nat) (amount : Int) : SystemState :=
  { s with
    available := upd s.available resource (s.available resource - amount)
    allocation := upd2 s.allocation process resource (s.allocation process resource + amount) }

/-- The allocation row sum of process `p`: the units it holds over all resource
types. -/
def row_sum (s : SystemState) (p : Nat) : Int :=
  ∑ j in Finset.range s.num_resources.toNat, s.allocation p j

/-- The total of resource `r` in the system: `available[r]` plus the allocation of
every process. -/
def resource_total (s : SystemState) (r : Nat) : Int :=
  s.available r + ∑ p in Finset.range s.num_processes.toNat, s.allocation p r

/-- The adjacency value the specification gives to the pair of nodes `(a, b)`:
`2` from resource node `num_processes + r` to process `p` when
`allocation[p][r] > 0`, `1` from process `p` to resource node `num_processes + r`
when `max_need[p][r] - allocation[p][r] > 0`, and `0` otherwise (in particular
between two processes and between two resources). -/
def spec_adj (s : SystemState) (a b : Nat) : Int :=
  if s.num_processes.toNat ≤ a ∧ b < s.num_processes.toNat then
    if s.allocation b (a - s.num_processes.toNat) > 0 then 2 else 0
  else if a < s.num_processes.toNat ∧ s.num_processes.toNat ≤ b then
    if s.max_need a (b - s.num_processes.toNat) - s.allocation a (b - s.num_processes.toNat) > 0
    then 1 else 0
  else 0

/-- The adjacency value `build_rag` stores for the pair of nodes `(a, b)` after
`calculate_need_matrix`: as `spec_adj`, with the need read from the matrix, where it
is the `int` difference of `max_need` and `allocation`. -/
def stored_adj (s : SystemState) (a b : Nat) : Int :=
  if s.num_processes.toNat ≤ a ∧ b < s.num_processes.toNat then
    if s.allocation b (a - s.num_processes.toNat) > 0 then 2 else 0
  else if a < s.num_processes.toNat ∧ s.num_processes.toNat ≤ b then
    if wrap_int (s.max_need a (b - s.num_processes.toNat)
        - s.allocation a (b - s.num_processes.toNat)) > 0
    then 1 else 0
  else 0

/-- The graph `g` is the one the specification derives from the state `s`: the
dimensions are those of `s`, the adjacency matrix over the
`num_processes + num_resources` nodes is `spec_adj`, and the edge list holds,
without repetition, exactly one assignment edge per positive allocation and one
request edge per positive need, `num_edges` being the number of such pairs. -/
def IsSpecifiedGraph (s : SystemState) (g : RAG) : Prop :=
  g.num_processes = s.num_processes ∧ g.num_resources = s.num_resources ∧
  (∀ a b, a < (s.num_processes + s.num_resources).toNat →
    b < (s.num_processes + s.num_resources).toNat → g.adj_matrix a b = spec_adj s a b) ∧
  g.edges.Nodup ∧
  (∀ e, e ∈ g.edges ↔
    (∃ p r, p < s.num_processes.toNat ∧ r < s.num_resources.toNat ∧
      s.allocation p r > 0 ∧
      e = { from_node := s.num_processes + r, to_node := p, type := .ASSIGNMENT }) ∨
    (∃ p r, p < s.num_processes.toNat ∧ r < s.num_resources.toNat ∧
      s.max_need p r - s.allocation p r > 0 ∧
      e = { from_node := p, to_node := s.num_processes + r, type := .REQUEST })) ∧
  g.edges.length =
    ∑ p in Finset.range s.num_processes.toNat, ∑ r in Finset.range s.num_resources.toNat,
      ((if s.allocation p r > 0 then 1 else 0) +
        (if s.max_need p r - s.allocation p r > 0 then 1 else 0))

/-- The edges `build_rag` appends for process `i` and resource `j`. -/
def cell_edges (s : SystemState) (i j : Nat) : List Edge :=
  (if s.allocation i j > 0 then
      [{ from_node := s.num_processes + j, to_node := i, type := .ASSIGNMENT }]
    else []) ++
  (if s.need i j > 0 then
      [{ from_node := i, to_node := s.num_processes + j, type := .REQUEST }]
    else [])

/-- All edges `build_rag` appends, process by process and resource by resource. -/
def all_edges (s : SystemState) : List Edge :=
  (List.range s.num_processes.toNat).flatMap (fun i =>
    (List.range s.num_resources.toNat).flatMap (cell_edges s i))

/-- The adjacency value `build_rag` stores for an edge of the given type. -/
def edge_code : EdgeType → Int
  | .REQUEST => 1
  | .ASSIGNMENT => 2

/-- The adjacency stores that go with a list of appended edges. -/
def write_all (es : List Edge) (adj : Nat → Nat → Int) : Nat → Nat → Int :=
  es.foldl (fun a e => upd2 a e.from_node.toNat e.to_node.toNat (edge_code e.type)) adj

/-- The directed graph of a `RAG`: an edge from node `u` to node `v`, both among
the `num_processes + num_resources` nodes, is a non-zero `adj_matrix[u][v]`. -/
def rag_edge (g : RAG) (u v : Nat) : Prop :=
  u < (g.num_processes + g.num_resources).toNat ∧
    v < (g.num_processes + g.num_resources).toNat ∧ g.adj_matrix u v ≠ 0

/-- The graph contains a directed cycle: a non-empty path from some node back to
itself. -/
def has_cycle (g : RAG) : Prop :=
  ∃ u, Relation.TransGen (rag_edge g) u u

/-- Invariant of the depth-first search. A node is on the recursion path when its
`rec_stack` entry is set, and finished when it is visited and off the path: path
nodes are visited, edges out of finished nodes lead to finished nodes, and no
finished node lies on a cycle. -/
structure DfsInv (g : RAG) (m : Marks) : Prop where
  path_visited : ∀ i, m.rec_stack i = true → m.visited i = true
  done_closed : ∀ u v, m.visited u = true → m.rec_stack u = false → rag_edge g u v →
    m.visited v = true ∧ m.rec_stack v = false
  done_acyclic : ∀ u, m.visited u = true → m.rec_stack u = false →
    ¬ Relation.TransGen (rag_edge g) u u

/-- The nodes not yet visited. -/
def unvisited (g : RAG) (m : Marks) : Finset Nat :=
  (Finset.range (g.num_processes + g.num_resources).toNat).filter
    (fun i => m.visited i = false)

/-- All in-range entries of `available` and `allocation` are non-negative. -/
def NonNegative (s : SystemState) : Prop :=
  (∀ j, j < s.num_resources.toNat → 0 ≤ s.available j) ∧
    ∀ i, i < s.num_processes.toNat → ∀ j, j < s.num_resources.toNat → 0 ≤ s.allocation i j

/-- The choice made by the restart-scan reference procedure: the lowest-index
process not yet discharged whose need `max_need - allocation` fits `work` in every
resource. -/
def restart_scan_pick (s : SystemState) (work : Nat → Int) (seq : List Nat) : Option Nat :=
  (List.range s.num_processes.toNat).find? (fun p =>
    decide (p ∉ seq) &&
      (List.range s.num_resources.toNat).all
        (fun r => decide (s.max_need p r - s.allocation p r ≤ work r)))

/-- The restart-scan reference procedure: repeatedly pick the lowest-index
unfinished process whose need fits `work`, add its allocation to `work`, append it,
and scan again from process 0, until no unfinished process fits; at most `fuel`
discharges. -/
def restart_scan (s : SystemState) : Nat → (Nat → Int) → List Nat → List Nat
  | 0, _, seq => seq
  | fuel + 1, work, seq =>
    match restart_scan_pick s work seq with
    | none => seq
    | some p => restart_scan s fuel (fun r => work r + s.allocation p r) (seq ++ [p])

/-- The sequence of the restart-scan reference procedure started from `available`;
`num_processes` discharges are always enough (`restart_scan_spec`). -/
def restart_scan_sequence (s : SystemState) : List Nat :=
  restart_scan s s.num_processes.toNat s.available []

/-- A rank of the graph nodes along a discharge order `order`: process `p` has rank
`2 * position + 1`, and the node of a resource ranks just above the last of its
holders (`0` when no process holds it). -/
def discharge_rank (s : SystemState) (order : List Nat) (u : Nat) : Nat :=
  if u < s.num_processes.toNat then 2 * order.indexOf u + 1
  else ((Finset.range s.num_processes.toNat).filter
      (fun q => s.allocation q (u - s.num_processes.toNat) > 0)).sup
    (fun q => 2 * order.indexOf q + 2)

/-- The stored need matrix agrees with `max_need - allocation` on all in-range
entries. -/
def NeedOK (s : SystemState) : Prop :=
  ∀ i j, i < s.num_processes.toNat → j < s.num_resources.toNat →
    s.need i j = s.max_need i j - s.allocation i j

/-- The stored need matrix holds the `int` difference of `max_need` and `allocation`
on all in-range entries (the state of affairs right after
`calculate_need_matrix`). -/
def NeedStored (s : SystemState) : Prop :=
  ∀ i j, i < s.num_processes.toNat → j < s.num_resources.toNat →
    s.need i j = wrap_int (s.max_need i j - s.allocation i j)

/-- The part of the loop invariant of `detect_deadlock` that does not depend on the
arithmetic. -/
structure ScanShape (s : SystemState) (st : Scan) : Prop where
  nodup : st.safe_sequence.Nodup
  mem_iff : ∀ i, i ∈ st.safe_sequence ↔ st.finish i = true
  lt : ∀ i, i ∈ st.safe_sequence → i < s.num_processes.toNat

/-- The part of the loop invariant of `detect_deadlock` that holds as long as no
`work[j] += allocation[i][j]` leaves the `int` range: `work` is `available` plus the
rows of the processes discharged so far, and the stored need of each of them fitted
the work vector at the time it was discharged. -/
structure ScanWork (s : SystemState) (st : Scan) : Prop where
  work_eq : ∀ r, r < s.num_resources.toNat →
    st.work r = replay_work s st.safe_sequence s.available r
  fits : ∀ (l1 : List Nat) (p : Nat) (l2 : List Nat), st.safe_sequence = l1 ++ p :: l2 →
    ∀ r, r < s.num_resources.toNat → s.need p r ≤ replay_work s l1 s.available r

/-- Loop invariant of the fixed-point loop of `detect_deadlock` in exact
arithmetic. -/
structure ScanInv (s : SystemState) (st : Scan) : Prop where
  nodup : st.safe_sequence.Nodup
  mem_iff : ∀ i, i ∈ st.safe_sequence ↔ st.finish i = true
  lt : ∀ i, i ∈ st.safe_sequence → i < s.num_processes.toNat
  valid : valid_discharge s st.safe_sequence s.available
  work_eq : ∀ r, r < s.num_resources.toNat →
    st.work r = replay_work s st.safe_sequence s.available r

/-- The unfinished processes, in ascending order. -/
def unfinished (s : SystemState) (finish : Nat → Bool) : List Nat :=
  (List.range s.num_processes.toNat).filter (fun i => !finish i)

/-- The initial loop state of `detect_deadlock`. -/
def scan_init (s : SystemState) : Scan :=
  { work := init_work s, finish := init_finish s, safe_sequence := [], found := false }

/-! ## Closed forms of the loops -/

theorem wrap_int_of_isInt (x : Int) (h : IsInt x) : wrap_int x = x := by
  unfold IsInt INT_MIN INT_MAX at h
  unfold wrap_int
  omega

theorem wrap_int_isInt (x : Int) : IsInt (wrap_int x) := by
  unfold IsInt INT_MIN INT_MAX wrap_int
  omega

theorem wrap_int_wrap_add (x y : Int) : wrap_int (wrap_int x + y) = wrap_int (x + y) := by
  unfold wrap_int
  omega

theorem wrap_int_wrap_sub (x y : Int) : wrap_int (wrap_int x - y) = wrap_int (x - y) := by
  unfold wrap_int
  omega

theorem upd_apply {α : Type} (a : Nat → α) (j : Nat) (v : α) (k : Nat) :
    upd a j v k = if k = j then v else a k := rfl

theorem upd2_apply {α : Type} (m : Nat → Nat → α) (i j : Nat) (v : α) (a b : Nat) :
    upd2 m i j v a b = if a = i ∧ b = j then v else m a b := by
  unfold upd2 upd
  by_cases ha : a = i
  · by_cases hb : b = j
    · simp [ha, hb]
    · simp [ha, hb]
  · simp [ha]

/-- A loop `for j < n: f[j] = h j f[j]` changes exactly the entries below `n`. -/
theorem foldl_upd_range {α : Type} (h : Nat → α → α) (n : Nat) (f0 : Nat → α) (k : Nat) :
    ((List.range n).foldl (fun f j => upd f j (h j (f j))) f0) k
      = if k < n then h k (f0 k) else f0 k := by
  induction n with
  | zero => simp
  | succ n ih =>
    rw [List.range_succ, List.foldl_append]
    simp only [List.foldl_cons, List.foldl_nil, upd_apply]
    by_cases hk : k = n
    · subst hk
      simp [ih]
    · have h1 : (k < n + 1) = (k < n) := by
        apply propext
        omega
      simp [hk, ih, h1]

theorem need_row_fold (st : SystemState) (i n : Nat) :
    (List.range n).foldl (fun st j =>
        { st with need := upd2 st.need i j (wrap_int (st.max_need i j - st.allocation i j)) }) st
      = { st with need := fun a b =>
            if a = i ∧ b < n then wrap_int (st.max_need i b - st.allocation i b)
            else st.need a b } := by
  induction n with
  | zero => simp
  | succ n ih =>
    rw [List.range_succ, List.foldl_append, ih]
    simp only [List.foldl_cons, List.foldl_nil]
    congr 1
    funext a b
    rw [upd2_apply]
    by_cases ha : a = i
    · by_cases hb : b = n
      · simp [ha, hb]
      · have h1 : (b < n + 1) = (b < n) := by
          apply propext
          omega
        simp [ha, hb, h1]
    · simp [ha]

theorem need_fold (s : SystemState) (m : Nat) :
    (List.range m).foldl (fun st i =>
      (List.range st.num_resources.toNat).foldl (fun st j =>
        { st with need := upd2 st.need i j (wrap_int (st.max_need i j - st.allocation i j)) })
        st) s
      = { s with need := fun i j =>
            if i < m ∧ j < s.num_resources.toNat
            then wrap_int (s.max_need i j - s.allocation i j)
            else s.need i j } := by
  induction m with
  | zero => simp
  | succ m ih =>
    rw [List.range_succ, List.foldl_append, ih]
    simp only [List.foldl_cons, List.foldl_nil]
    rw [need_row_fold]
    congr 1
    funext a b
    by_cases ha : a = m
    · subst ha
      simp
    · have h1 : (a < m + 1) = (a < m) := by
        apply propext
        omega
      simp [ha, h1]

/-- Closed form of `calculate_need_matrix`: only `need` changes, and only in range. -/
theorem calculate_need_matrix_eq (s : SystemState) :
    calculate_need_matrix s
      = { s with need := fun i j =>
            if i < s.num_processes.toNat ∧ j < s.num_resources.toNat
            then wrap_int (s.max_need i j - s.allocation i j) else s.need i j } :=
  need_fold s _

theorem release_apply (s : SystemState) (w : Nat → Int) (i k : Nat) :
    release s w i k
      = if k < s.num_resources.toNat then wrap_int (w k + s.allocation i k) else w k := by
  unfold release
  exact foldl_upd_range (fun j x => wrap_int (x + s.allocation i j)) _ w k

theorem init_work_apply (s : SystemState) (k : Nat) :
    init_work s k = if k < s.num_resources.toNat then s.available k else 0 := by
  unfold init_work
  exact foldl_upd_range (fun j _ => s.available j) _ (fun _ => 0) k

theorem init_finish_eq (s : SystemState) : init_finish s = fun _ => false := by
  funext k
  unfold init_finish
  rw [foldl_upd_range (fun _ _ => false) _ (fun _ => false) k]
  simp

theorem can_satisfy_iff (need work : Nat → Int) (n : Int) :
    can_satisfy need work n = true ↔ ∀ j, j < n.toNat → need j ≤ work j := by
  unfold can_satisfy
  simp [List.all_eq_true]

theorem collect_fold (finish : Nat → Bool) (n : Nat) :
    (List.range n).foldl
        (fun (acc : Bool × List Nat) i => if !finish i then (true, acc.2 ++ [i]) else acc)
        (false, [])
      = (!((List.range n).filter (fun i => !finish i)).isEmpty,
          (List.range n).filter (fun i => !finish i)) := by
  induction n with
  | zero => simp
  | succ n ih =>
    rw [List.range_succ, List.foldl_append, ih, List.filter_append]
    by_cases hf : finish n = true
    · simp [hf]
    · simp [hf]

/-! ## Replaying a discharge order -/

theorem replay_work_append (s : SystemState) (l : List Nat) (p : Nat) (w : Nat → Int) :
    replay_work s (l ++ [p]) w = fun r => replay_work s l w r + s.allocation p r := by
  induction l generalizing w with
  | nil => rfl
  | cons q l ih =>
    show replay_work s (l ++ [p]) _ = _
    rw [ih]
    rfl

theorem valid_discharge_append (s : SystemState) (l : List Nat) (p : Nat) (w : Nat → Int) :
    valid_discharge s (l ++ [p]) w ↔
      valid_discharge s l w ∧
        ∀ r, r < s.num_resources.toNat →
          s.max_need p r - s.allocation p r ≤ replay_work s l w r := by
  induction l generalizing w with
  | nil => simp [valid_discharge, replay_work]
  | cons q l ih =>
    show (_ ∧ valid_discharge s (l ++ [p]) _) ↔ _
    rw [ih]
    simp only [valid_discharge, replay_work, and_assoc]

theorem replay_work_sum (s : SystemState) (l : List Nat) (w : Nat → Int) (r : Nat) :
    replay_work s l w r = w r + (l.map (fun p => s.allocation p r)).sum := by
  induction l generalizing w with
  | nil => simp [replay_work]
  | cons p l ih =>
    simp only [replay_work, ih, List.map_cons, List.sum_cons]
    ring


/-- A discharge order is valid when every process of it fits the work vector reached
by the processes before it. -/
theorem valid_discharge_of_prefix (s : SystemState) (l : List Nat) (w : Nat → Int)
    (h : ∀ (l1 : List Nat) (p : Nat) (l2 : List Nat), l = l1 ++ p :: l2 →
      ∀ r, r < s.num_resources.toNat →
        s.max_need p r - s.allocation p r ≤ replay_work s l1 w r) :
    valid_discharge s l w := by
  induction l generalizing w with
  | nil => trivial
  | cons p ps ih =>
    refine ⟨fun r hr => h [] p ps rfl r hr, ih _ ?_⟩
    intro l1 q l2 hsplit r hr
    exact h (p :: l1) q l2 (by rw [hsplit]; rfl) r hr

/-- As long as the units of every resource fit in an `int`, so does every work
vector reached by discharging distinct processes. -/
theorem replay_work_isInt (s : SystemState) (hW : WorkFits s) (l : List Nat) (hnd : l.Nodup)
    (hlt : ∀ i, i ∈ l → i < s.num_processes.toNat) (r : Nat)
    (hr : r < s.num_resources.toNat) : IsInt (replay_work s l s.available r) := by
  rw [replay_work_sum, ← List.sum_toFinset _ hnd]
  have hsub : l.toFinset ⊆ Finset.range s.num_processes.toNat := by
    intro x hx
    exact Finset.mem_range.2 (hlt x (List.mem_toFinset.1 hx))
  have h1 : |∑ q in l.toFinset, s.allocation q r| ≤ ∑ q in l.toFinset, |s.allocation q r| :=
    Finset.abs_sum_le_sum_abs _ _
  have h2 : ∑ q in l.toFinset, |s.allocation q r|
      ≤ ∑ q in Finset.range s.num_processes.toNat, |s.allocation q r| :=
    Finset.sum_le_sum_of_subset_of_nonneg hsub (fun q _ _ => abs_nonneg _)
  have h3 := hW r hr
  have hA := abs_le.1 (le_refl |s.available r|)
  have hS := abs_le.1 (le_refl |∑ q in l.toFinset, s.allocation q r|)
  unfold INT_MAX at h3
  unfold IsInt INT_MIN INT_MAX
  constructor <;> omega

/-! ## The scan preserves the invariant -/

theorem foldl_inv {α β : Type} (P : α → Prop) (f : α → β → α) (l : List β)
    (h : ∀ a b, b ∈ l → P a → P (f a b)) (a : α) (ha : P a) : P (l.foldl f a) := by
  induction l generalizing a with
  | nil => exact ha
  | cons b l ih =>
    simp only [List.foldl_cons]
    exact ih (fun a c hc => h a c (List.mem_cons_of_mem _ hc)) _
      (h a b (List.mem_cons_self _ _) ha)

theorem scan_init_shape (s : SystemState) : ScanShape s (scan_init s) where
  nodup := List.nodup_nil
  mem_iff := by
    intro i
    simp [scan_init, init_finish_eq]
  lt := by
    intro i hi
    simp [scan_init] at hi

theorem scan_init_work (s : SystemState) : ScanWork s (scan_init s) where
  work_eq := by
    intro r hr
    simp [scan_init, init_work_apply, hr, replay_work]
  fits := by
    intro l1 p l2 h
    simp [scan_init] at h

theorem scan_step_cases (s : SystemState) (st : Scan) (i : Nat) :
    (scan_step s st i = st ∧
        (st.finish i = true ∨ can_satisfy (s.need i) st.work s.num_resources = false)) ∨
      (st.finish i = false ∧ can_satisfy (s.need i) st.work s.num_resources = true ∧
        scan_step s st i =
          { work := release s st.work i
            finish := upd st.finish i true
            safe_sequence := st.safe_sequence ++ [i]
            found := true }) := by
  unfold scan_step
  by_cases hf : st.finish i = true
  · left
    simp [hf]
  · by_cases hc : can_satisfy (s.need i) st.work s.num_resources = true
    · right
      simp only [Bool.not_eq_true] at hf
      simp [hf, hc]
    · left
      simp only [Bool.not_eq_true] at hf hc
      simp [hf, hc]

theorem scan_step_shape (s : SystemState) (st : Scan) (i : Nat)
    (hi : i < s.num_processes.toNat) (h : ScanShape s st) : ScanShape s (scan_step s st i) := by
  rcases scan_step_cases s st i with ⟨heq, _⟩ | ⟨hf, hc, heq⟩
  · rw [heq]
    exact h
  · rw [heq]
    have hnot : i ∉ st.safe_sequence := by
      intro hmem
      have := (h.mem_iff i).1 hmem
      simp [hf] at this
    refine ⟨?_, ?_, ?_⟩
    · exact List.nodup_append.2 ⟨h.nodup, List.nodup_singleton i, by simpa using hnot⟩
    · intro k
      simp only [List.mem_append, List.mem_singleton, upd_apply]
      by_cases hk : k = i
      · simp [hk]
      · simp [hk, h.mem_iff k]
    · intro k hk
      simp only [List.mem_append, List.mem_singleton] at hk
      rcases hk with hk | hk
      · exact h.lt k hk
      · exact hk ▸ hi

/-- While the units of every resource fit in an `int`, no store of the scan wraps. -/
theorem scan_step_work (s : SystemState) (hW : WorkFits s) (st : Scan) (i : Nat)
    (hi : i < s.num_processes.toNat) (h : ScanShape s st) (hw : ScanWork s st) :
    ScanWork s (scan_step s st i) := by
  have hshape := scan_step_shape s st i hi h
  rcases scan_step_cases s st i with ⟨heq, _⟩ | ⟨hf, hc, heq⟩
  · rw [heq]
    exact hw
  · rw [heq] at hshape ⊢
    rw [can_satisfy_iff] at hc
    refine ⟨?_, ?_⟩
    · intro r hr
      have hnew := replay_work_isInt s hW (st.safe_sequence ++ [i]) hshape.nodup hshape.lt r hr
      rw [replay_work_append] at hnew ⊢
      simp only [release_apply, hr, if_true]
      rw [hw.work_eq r hr]
      exact wrap_int_of_isInt _ hnew
    · intro l1 p l2 hsplit r hr
      change st.safe_sequence ++ [i] = l1 ++ p :: l2 at hsplit
      rcases List.eq_nil_or_concat l2 with hl2 | ⟨l2a, x, hl2⟩
      · rw [hl2] at hsplit
        have hcat : st.safe_sequence ++ [i] = l1 ++ [p] := hsplit
        obtain ⟨h1, h2⟩ := List.append_inj' hcat rfl
        have hip : i = p := by simpa using h2
        rw [← h1, ← hip, ← hw.work_eq r hr]
        exact hc r hr
      · rw [hl2] at hsplit
        have hcat : st.safe_sequence ++ [i] = (l1 ++ p :: l2a) ++ [x] := by
          rw [hsplit]
          simp
        obtain ⟨h1, -⟩ := List.append_inj' hcat rfl
        exact hw.fits l1 p l2a h1 r hr

theorem scan_pass_shape (s : SystemState) (st : Scan) (h : ScanShape s st) :
    ScanShape s (scan_pass s st) := by
  unfold scan_pass
  refine foldl_inv (ScanShape s) (scan_step s) _ ?_ _ ?_
  · intro a b hb ha
    exact scan_step_shape s a b (List.mem_range.1 hb) ha
  · exact ⟨h.nodup, h.mem_iff, h.lt⟩

theorem scan_pass_work (s : SystemState) (hW : WorkFits s) (st : Scan) (h : ScanShape s st)
    (hw : ScanWork s st) : ScanWork s (scan_pass s st) := by
  have hboth : ScanShape s (scan_pass s st) ∧ ScanWork s (scan_pass s st) := by
    unfold scan_pass
    refine foldl_inv (fun a => ScanShape s a ∧ ScanWork s a) (scan_step s) _ ?_ _ ?_
    · intro a b hb ha
      exact ⟨scan_step_shape s a b (List.mem_range.1 hb) ha.1,
        scan_step_work s hW a b (List.mem_range.1 hb) ha.1 ha.2⟩
    · exact ⟨⟨h.nodup, h.mem_iff, h.lt⟩, ⟨hw.work_eq, hw.fits⟩⟩
  exact hboth.2

theorem scan_iterate_work (s : SystemState) (hW : WorkFits s) (n : Nat) (st : Scan)
    (h : ScanShape s st) (hw : ScanWork s st) :
    ScanShape s ((scan_pass s)^[n] st) ∧ ScanWork s ((scan_pass s)^[n] st) := by
  induction n with
  | zero => exact ⟨h, hw⟩
  | succ n ih =>
    rw [Function.iterate_succ_apply']
    exact ⟨scan_pass_shape s _ ih.1, scan_pass_work s hW _ ih.1 ih.2⟩

/-! ## Progress and termination of the fixed-point loop -/

theorem scan_fold_found (s : SystemState) (l : List Nat) (st : Scan) (h : st.found = true) :
    (l.foldl (scan_step s) st).found = true := by
  induction l generalizing st with
  | nil => exact h
  | cons i l ih =>
    simp only [List.foldl_cons]
    apply ih
    rcases scan_step_cases s st i with ⟨heq, _⟩ | ⟨_, _, heq⟩
    · rw [heq]
      exact h
    · rw [heq]

theorem scan_fold_length_le (s : SystemState) (l : List Nat) (st : Scan) :
    st.safe_sequence.length ≤ (l.foldl (scan_step s) st).safe_sequence.length := by
  induction l generalizing st with
  | nil => exact le_refl _
  | cons i l ih =>
    simp only [List.foldl_cons]
    refine le_trans ?_ (ih _)
    rcases scan_step_cases s st i with ⟨heq, _⟩ | ⟨_, _, heq⟩
    · rw [heq]
    · rw [heq]
      simp

/-- A scan that ends with `found = false` changed nothing, and no unfinished
process of the scan fits the work vector. -/
theorem scan_fold_fixed (s : SystemState) (l : List Nat) (st : Scan)
    (h : (l.foldl (scan_step s) st).found = false) :
    l.foldl (scan_step s) st = st ∧
      ∀ i, i ∈ l →
        st.finish i = true ∨ can_satisfy (s.need i) st.work s.num_resources = false := by
  induction l generalizing st with
  | nil => simp
  | cons i l ih =>
    simp only [List.foldl_cons] at h ⊢
    rcases scan_step_cases s st i with ⟨heq, hno⟩ | ⟨_, _, heq⟩
    · rw [heq] at h ⊢
      obtain ⟨h1, h2⟩ := ih st h
      refine ⟨h1, ?_⟩
      intro k hk
      rcases List.mem_cons.1 hk with hk | hk
      · exact hk ▸ hno
      · exact h2 k hk
    · have := scan_fold_found s l (scan_step s st i) (by rw [heq])
      rw [this] at h
      exact absurd h (by decide)

/-- A scan that ends with `found = true` discharged at least one process. -/
theorem scan_fold_progress (s : SystemState) (l : List Nat) (st : Scan)
    (h0 : st.found = false) (h : (l.foldl (scan_step s) st).found = true) :
    st.safe_sequence.length < (l.foldl (scan_step s) st).safe_sequence.length := by
  induction l generalizing st with
  | nil =>
    simp only [List.foldl_nil] at h
    rw [h0] at h
    exact absurd h (by decide)
  | cons i l ih =>
    simp only [List.foldl_cons] at h ⊢
    rcases scan_step_cases s st i with ⟨heq, _⟩ | ⟨_, _, heq⟩
    · rw [heq] at h ⊢
      exact ih st h0 h
    · refine lt_of_lt_of_le ?_ (scan_fold_length_le s l _)
      rw [heq]
      simp

theorem scan_pass_fixed (s : SystemState) (st : Scan) (h : (scan_pass s st).found = false) :
    scan_pass s st = { st with found := false } ∧
      ∀ i, i < s.num_processes.toNat →
        st.finish i = true ∨ can_satisfy (s.need i) st.work s.num_resources = false := by
  obtain ⟨h1, h2⟩ := scan_fold_fixed s _ { st with found := false } h
  exact ⟨h1, fun i hi => h2 i (List.mem_range.2 hi)⟩

theorem scan_pass_progress (s : SystemState) (st : Scan) (h : (scan_pass s st).found = true) :
    st.safe_sequence.length < (scan_pass s st).safe_sequence.length :=
  scan_fold_progress s _ { st with found := false } rfl h

theorem ScanShape.length_le {s : SystemState} {st : Scan} (h : ScanShape s st) :
    st.safe_sequence.length ≤ s.num_processes.toNat := by
  have hsub : st.safe_sequence ⊆ List.range s.num_processes.toNat :=
    fun i hi => List.mem_range.2 (h.lt i hi)
  simpa using (List.subperm_of_subset h.nodup hsub).length_le

theorem ScanInv.shape {s : SystemState} {st : Scan} (h : ScanInv s st) : ScanShape s st :=
  ⟨h.nodup, h.mem_iff, h.lt⟩

/-- The fixed-point loop started in a state with at most `m` undischarged processes
makes exactly `k + 1` passes for some `k ≤ m`: the first `k` passes discharge a
process each, the last one discharges none. -/
theorem do_while_passes (s : SystemState) (m : Nat) (st : Scan)
    (hinv : ScanShape s st) (hm : s.num_processes.toNat - st.safe_sequence.length ≤ m) :
    ∃ k, k ≤ m ∧
      (∀ j, j < k → ((scan_pass s)^[j + 1] st).found = true ∧
        ((scan_pass s)^[j] st).safe_sequence.length
          < ((scan_pass s)^[j + 1] st).safe_sequence.length) ∧
      ((scan_pass s)^[k + 1] st).found = false ∧
      (∀ fuel, k + 1 ≤ fuel → do_while s fuel st = some ((scan_pass s)^[k + 1] st)) ∧
      (∀ fuel, fuel ≤ k → do_while s fuel st = none) ∧
      ScanShape s ((scan_pass s)^[k + 1] st) := by
  induction m generalizing st with
  | zero =>
    have hinv1 := scan_pass_shape s st hinv
    have hfalse : (scan_pass s st).found = false := by
      by_contra hne
      have hp := scan_pass_progress s st (by simpa using hne)
      have := hinv1.length_le
      omega
    refine ⟨0, le_refl _, ?_, hfalse, ?_, ?_, hinv1⟩
    · intro j hj
      omega
    · intro fuel hfuel
      obtain ⟨n, rfl⟩ : ∃ n, fuel = n + 1 := ⟨fuel - 1, by omega⟩
      simp [do_while, hfalse]
    · intro fuel hfuel
      have : fuel = 0 := by omega
      subst this
      rfl
  | succ m ih =>
    have hinv1 := scan_pass_shape s st hinv
    by_cases hfound : (scan_pass s st).found = true
    · have hp := scan_pass_progress s st hfound
      obtain ⟨k, hk, hdis, hlast, hsome, hnone, hfin⟩ := ih (scan_pass s st) hinv1 (by omega)
      refine ⟨k + 1, by omega, ?_, ?_, ?_, ?_, ?_⟩
      · intro j hj
        cases j with
        | zero => exact ⟨hfound, hp⟩
        | succ j =>
          have := hdis j (by omega)
          simpa only [Function.iterate_succ_apply] using this
      · simpa only [Function.iterate_succ_apply] using hlast
      · intro fuel hfuel
        obtain ⟨n, rfl⟩ : ∃ n, fuel = n + 1 := ⟨fuel - 1, by omega⟩
        have := hsome n (by omega)
        simp only [do_while, hfound, if_true]
        simpa only [Function.iterate_succ_apply] using this
      · intro fuel hfuel
        cases fuel with
        | zero => rfl
        | succ n =>
          simp only [do_while, hfound, if_true]
          exact hnone n (by omega)
      · simpa only [Function.iterate_succ_apply] using hfin
    · have hfalse : (scan_pass s st).found = false := by simpa using hfound
      refine ⟨0, Nat.zero_le _, ?_, hfalse, ?_, ?_, hinv1⟩
      · intro j hj
        omega
      · intro fuel hfuel
        obtain ⟨n, rfl⟩ : ∃ n, fuel = n + 1 := ⟨fuel - 1, by omega⟩
        simp [do_while, hfalse]
      · intro fuel hfuel
        have : fuel = 0 := by omega
        subst this
        rfl

/-! ## What `detect_deadlock` computes -/

theorem calculate_need_matrix_needStored (s : SystemState) :
    NeedStored (calculate_need_matrix s) := by
  intro i j hi hj
  rw [calculate_need_matrix_eq] at hi hj ⊢
  simp only at hi hj ⊢
  simp [hi, hj]

theorem calculate_need_matrix_needOK (s : SystemState) (hN : NeedFits s) :
    NeedOK (calculate_need_matrix s) := by
  intro i j hi hj
  rw [calculate_need_matrix_needStored s i j hi hj]
  rw [calculate_need_matrix_eq] at hi hj ⊢
  exact wrap_int_of_isInt _ (hN i hi j hj)

theorem collect_deadlocked_eq (s : SystemState) (finish : Nat → Bool) :
    collect_deadlocked s finish = (!(unfinished s finish).isEmpty, unfinished s finish) :=
  collect_fold finish _

theorem workFits_calculate (s : SystemState) :
    WorkFits (calculate_need_matrix s) ↔ WorkFits s := by
  rw [calculate_need_matrix_eq]
  exact Iff.rfl

/-- The final loop state of `detect_deadlock` and the properties it has; the
result is the same for every fuel from `num_processes + 1` on. -/
theorem detect_deadlock_fuel_spec (s : SystemState) :
    ∃ fin : Scan,
      ScanShape (calculate_need_matrix s) fin ∧
      (WorkFits s → ScanWork (calculate_need_matrix s) fin) ∧
      (∀ i, i < s.num_processes.toNat →
        fin.finish i = true ∨
          can_satisfy ((calculate_need_matrix s).need i) fin.work s.num_resources = false) ∧
      ∀ fuel, s.num_processes.toNat + 1 ≤ fuel →
        detect_deadlock_fuel fuel s
          = some (calculate_need_matrix s,
              { is_deadlocked := !(unfinished s fin.finish).isEmpty
                deadlocked_processes := unfinished s fin.finish
                safe_sequence := fin.safe_sequence }) := by
  have hnp : (calculate_need_matrix s).num_processes = s.num_processes := by
    rw [calculate_need_matrix_eq]
  have hnr : (calculate_need_matrix s).num_resources = s.num_resources := by
    rw [calculate_need_matrix_eq]
  obtain ⟨k, hk, -, hlast, hsome, -, hfin⟩ :=
    do_while_passes (calculate_need_matrix s)
      s.num_processes.toNat (scan_init (calculate_need_matrix s))
      (scan_init_shape _) (by rw [hnp]; omega)
  rw [Function.iterate_succ_apply'] at hlast
  obtain ⟨hfix, hstuck⟩ := scan_pass_fixed _ _ hlast
  refine ⟨(scan_pass (calculate_need_matrix s))^[k + 1] (scan_init (calculate_need_matrix s)),
    hfin, ?_, ?_, ?_⟩
  · intro hW
    exact (scan_iterate_work _ ((workFits_calculate s).2 hW) (k + 1) _
      (scan_init_shape _) (scan_init_work _)).2
  · intro i hi
    rw [Function.iterate_succ_apply', hfix]
    have := hstuck i (by rw [hnp]; exact hi)
    rw [hnr] at this
    exact this
  · intro fuel hfuel
    have hrun := hsome fuel (by omega)
    unfold detect_deadlock_fuel
    simp only [scan_init] at hrun
    simp only [hrun, collect_deadlocked_eq, unfinished, hnp]
    rfl

/-- The two output lists of a finished scan list every process exactly once. -/
theorem scan_partition (s : SystemState) (fin : Scan) (h : ScanShape s fin) :
    (fin.safe_sequence ++ unfinished s fin.finish).Perm (List.range s.num_processes.toNat) := by
  have hnd : (fin.safe_sequence ++ unfinished s fin.finish).Nodup := by
    refine List.nodup_append.2 ⟨h.nodup, (List.nodup_range _).filter _, ?_⟩
    intro i hi hu
    have hf := (h.mem_iff i).1 hi
    simp [unfinished, hf] at hu
  refine (List.perm_ext_iff_of_nodup hnd (List.nodup_range _)).2 ?_
  intro i
  simp only [List.mem_append, unfinished, List.mem_filter, List.mem_range]
  constructor
  · rintro (hi | ⟨hi, -⟩)
    · exact h.lt i hi
    · exact hi
  · intro hi
    by_cases hf : fin.finish i = true
    · exact Or.inl ((h.mem_iff i).2 hf)
    · exact Or.inr ⟨hi, by simpa using hf⟩

theorem valid_discharge_need (s : SystemState) (n : Nat → Nat → Int) (l : List Nat)
    (w : Nat → Int) : valid_discharge { s with need := n } l w ↔ valid_discharge s l w := by
  induction l generalizing w with
  | nil => exact Iff.rfl
  | cons p l ih => exact and_congr Iff.rfl (ih _)

theorem replay_work_need (s : SystemState) (n : Nat → Nat → Int) (l : List Nat)
    (w : Nat → Int) : replay_work { s with need := n } l w = replay_work s l w := by
  induction l generalizing w with
  | nil => rfl
  | cons p l ih => exact ih _

theorem scanShape_calculate (s : SystemState) (st : Scan)
    (h : ScanShape (calculate_need_matrix s) st) : ScanShape s st := by
  rw [calculate_need_matrix_eq] at h
  exact ⟨h.nodup, h.mem_iff, h.lt⟩

/-- In a state whose need differences and resource units fit in an `int`, the scan
of `detect_deadlock` satisfies the invariant of exact arithmetic. -/
theorem scanInv_calculate (s : SystemState) (hN : NeedFits s) (st : Scan)
    (h : ScanShape (calculate_need_matrix s) st) (hw : ScanWork (calculate_need_matrix s) st) :
    ScanInv s st := by
  have hshape := scanShape_calculate s st h
  have hrw : ∀ l, replay_work (calculate_need_matrix s) l (calculate_need_matrix s).available
      = replay_work s l s.available := by
    intro l
    rw [calculate_need_matrix_eq]
    exact replay_work_need s _ l s.available
  refine ⟨hshape.nodup, hshape.mem_iff, hshape.lt, ?_, ?_⟩
  · apply valid_discharge_of_prefix
    intro l1 p l2 hsplit r hr
    have hp : p < s.num_processes.toNat :=
      hshape.lt p (by rw [hsplit]; simp)
    have hfit := hw.fits l1 p l2 hsplit r
      (by rw [calculate_need_matrix_eq]; exact hr)
    rw [hrw, calculate_need_matrix_needOK s hN p r
      (by rw [calculate_need_matrix_eq]; exact hp)
      (by rw [calculate_need_matrix_eq]; exact hr)] at hfit
    rw [calculate_need_matrix_eq] at hfit
    exact hfit
  · intro r hr
    rw [← hrw]
    exact hw.work_eq r (by rw [calculate_need_matrix_eq]; exact hr)

/-- The work vector of the scan and the fit of every discharged process, in terms of
the caller's state and of the stored need. -/
theorem scanWork_stored (s : SystemState) (st : Scan) (h : ScanShape s st)
    (hw : ScanWork (calculate_need_matrix s) st) :
    (∀ r, r < s.num_resources.toNat →
      st.work r = replay_work s st.safe_sequence s.available r) ∧
    ∀ l1 p l2, st.safe_sequence = l1 ++ p :: l2 → ∀ r, r < s.num_resources.toNat →
      wrap_int (s.max_need p r - s.allocation p r) ≤ replay_work s l1 s.available r := by
  have hrw : ∀ l, replay_work (calculate_need_matrix s) l (calculate_need_matrix s).available
      = replay_work s l s.available := by
    intro l
    rw [calculate_need_matrix_eq]
    exact replay_work_need s _ l s.available
  constructor
  · intro r hr
    rw [← hrw]
    exact hw.work_eq r (by rw [calculate_need_matrix_eq]; exact hr)
  · intro l1 p l2 hsplit r hr
    have hp : p < s.num_processes.toNat := h.lt p (by rw [hsplit]; simp)
    have hfit := hw.fits l1 p l2 hsplit r (by rw [calculate_need_matrix_eq]; exact hr)
    have hneed : (calculate_need_matrix s).need p r
        = wrap_int (s.max_need p r - s.allocation p r) := by
      rw [calculate_need_matrix_eq]
      simp [hp, hr]
    rw [hrw, hneed] at hfit
    exact hfit

/-- Summary of `detect_deadlock` in terms of the caller's state, whatever the values:
the final loop state has the shape of the invariant, every unfinished process has
a stored need above the final work vector in some resource, and the result is the
same for every fuel from `num_processes + 1` on. While the units of every resource
fit in an `int`, the work vector is the exact sum. -/
theorem detect_deadlock_run (s : SystemState) :
    ∃ fin : Scan,
      ScanShape s fin ∧
      (WorkFits s → ScanWork (calculate_need_matrix s) fin) ∧
      (∀ i, i < s.num_processes.toNat → fin.finish i = false →
        ∃ r, r < s.num_resources.toNat ∧
          fin.work r < wrap_int (s.max_need i r - s.allocation i r)) ∧
      ∀ fuel, s.num_processes.toNat + 1 ≤ fuel →
        detect_deadlock_fuel fuel s
          = some (calculate_need_matrix s,
              { is_deadlocked := !(unfinished s fin.finish).isEmpty
                deadlocked_processes := unfinished s fin.finish
                safe_sequence := fin.safe_sequence }) := by
  obtain ⟨fin, hshape, hwork, hstuck, hrun⟩ := detect_deadlock_fuel_spec s
  refine ⟨fin, scanShape_calculate s fin hshape, hwork, ?_, hrun⟩
  intro i hi hf
  rcases hstuck i hi with h | h
  · rw [hf] at h
    exact absurd h (by decide)
  · by_contra hno
    have hsat : can_satisfy ((calculate_need_matrix s).need i) fin.work s.num_resources = true := by
      rw [can_satisfy_iff]
      intro r hr
      have hn := calculate_need_matrix_needStored s i r
        (by rw [calculate_need_matrix_eq]; exact hi) (by rw [calculate_need_matrix_eq]; exact hr)
      rw [hn]
      have hmax : (calculate_need_matrix s).max_need = s.max_need := by
        rw [calculate_need_matrix_eq]
      have hal : (calculate_need_matrix s).allocation = s.allocation := by
        rw [calculate_need_matrix_eq]
      rw [hmax, hal]
      by_contra hlt
      exact hno ⟨r, hr, lt_of_not_ge hlt⟩
    rw [hsat] at h
    exact absurd h (by decide)

/-- Summary of `detect_deadlock` for a state whose need differences and resource
units fit in an `int`: the final loop state satisfies the invariant of exact
arithmetic, every unfinished process exceeds the final work vector in some
resource, and the result is the same for every fuel from `num_processes + 1` on. -/
theorem detect_deadlock_spec (s : SystemState) (hN : NeedFits s) (hW : WorkFits s) :
    ∃ fin : Scan,
      ScanInv s fin ∧
      (∀ i, i < s.num_processes.toNat → fin.finish i = false →
        ∃ r, r < s.num_resources.toNat ∧ fin.work r < s.max_need i r - s.allocation i r) ∧
      ∀ fuel, s.num_processes.toNat + 1 ≤ fuel →
        detect_deadlock_fuel fuel s
          = some (calculate_need_matrix s,
              { is_deadlocked := !(unfinished s fin.finish).isEmpty
                deadlocked_processes := unfinished s fin.finish
                safe_sequence := fin.safe_sequence }) := by
  obtain ⟨fin, hshape, hwork, hstuck, hrun⟩ := detect_deadlock_fuel_spec s
  refine ⟨fin, scanInv_calculate s hN fin hshape (hwork hW), ?_, hrun⟩
  obtain ⟨fin2, -, -, hstuck2, hrun2⟩ := detect_deadlock_run s
  intro i hi hf
  rcases hstuck i hi with h | h
  · rw [hf] at h
    exact absurd h (by decide)
  · by_contra hno
    have hsat : can_satisfy ((calculate_need_matrix s).need i) fin.work s.num_resources = true := by
      rw [can_satisfy_iff]
      intro r hr
      have hn := calculate_need_matrix_needOK s hN i r
        (by rw [calculate_need_matrix_eq]; exact hi) (by rw [calculate_need_matrix_eq]; exact hr)
      rw [hn]
      have hmax : (calculate_need_matrix s).max_need = s.max_need := by
        rw [calculate_need_matrix_eq]
      have hal : (calculate_need_matrix s).allocation = s.allocation := by
        rw [calculate_need_matrix_eq]
      rw [hmax, hal]
      by_contra hlt
      exact hno ⟨r, hr, lt_of_not_ge hlt⟩
    rw [hsat] at h
    exact absurd h (by decide)

theorem detect_deadlock_eq (s : SystemState) :
    detect_deadlock s = detect_deadlock_fuel (s.num_processes.toNat + 1) s := rfl

/-! ## Completeness of the greedy scan -/

/-- The final work vector is `available` plus the allocation of every finished process. -/
theorem final_work_eq (s : SystemState) (fin : Scan) (hinv : ScanInv s fin) (r : Nat)
    (hr : r < s.num_resources.toNat) :
    fin.work r = s.available r + ∑ q in fin.safe_sequence.toFinset, s.allocation q r := by
  rw [hinv.work_eq r hr, replay_work_sum, List.sum_toFinset _ hinv.nodup]

/-- Every process of a valid discharge order is finished once the scan is stuck:
the order can never be ahead of the greedy scan. -/
theorem order_finished (s : SystemState) (fin : Scan) (hinv : ScanInv s fin)
    (hstuck : ∀ i, i < s.num_processes.toNat → fin.finish i = false →
      ∃ r, r < s.num_resources.toNat ∧ fin.work r < s.max_need i r - s.allocation i r)
    (hpos : ∀ i, i < s.num_processes.toNat → ∀ j, j < s.num_resources.toNat →
      0 ≤ s.allocation i j)
    (l : List Nat) (pre : Finset Nat) (w : Nat → Int)
    (hpre : ∀ q, q ∈ pre → fin.finish q = true)
    (hw : ∀ r, r < s.num_resources.toNat → w r = s.available r + ∑ q in pre, s.allocation q r)
    (hnd : l.Nodup) (hdisj : ∀ x, x ∈ l → x ∉ pre)
    (hlt : ∀ x, x ∈ l → x < s.num_processes.toNat)
    (hok : valid_discharge s l w) : ∀ x, x ∈ l → fin.finish x = true := by
  induction l generalizing pre w with
  | nil =>
    intro x hx
    simp at hx
  | cons p ps ih =>
    obtain ⟨hp, hrest⟩ := hok
    have hsub : pre ⊆ fin.safe_sequence.toFinset := by
      intro q hq
      exact List.mem_toFinset.2 ((hinv.mem_iff q).2 (hpre q hq))
    have hfp : fin.finish p = true := by
      by_contra hne
      have hf : fin.finish p = false := by simpa using hne
      obtain ⟨r, hr, hlt1⟩ := hstuck p (hlt p (List.mem_cons_self _ _)) hf
      have h1 := hp r hr
      have h2 : ∑ q in pre, s.allocation q r ≤ ∑ q in fin.safe_sequence.toFinset, s.allocation q r := by
        refine Finset.sum_le_sum_of_subset_of_nonneg hsub ?_
        intro q hq _
        exact hpos q (hinv.lt q (List.mem_toFinset.1 hq)) r hr
      rw [final_work_eq s fin hinv r hr] at hlt1
      rw [hw r hr] at h1
      omega
    have hpn : p ∉ pre := hdisj p (List.mem_cons_self _ _)
    have hnd2 := List.nodup_cons.1 hnd
    intro x hx
    rcases List.mem_cons.1 hx with hx | hx
    · exact hx ▸ hfp
    · refine ih (insert p pre) (fun r => w r + s.allocation p r) ?_ ?_ hnd2.2 ?_ ?_ hrest x hx
      · intro q hq
        rcases Finset.mem_insert.1 hq with hq | hq
        · exact hq ▸ hfp
        · exact hpre q hq
      · intro r hr
        show w r + s.allocation p r = _
        rw [Finset.sum_insert hpn, hw r hr]
        ring
      · intro y hy hmem
        rcases Finset.mem_insert.1 hmem with hyp | hyp
        · exact hnd2.1 (hyp ▸ hy)
        · exact hdisj y (List.mem_cons_of_mem _ hy) hyp
      · intro y hy
        exact hlt y (List.mem_cons_of_mem _ hy)

theorem unfinished_eq_nil_iff (s : SystemState) (finish : Nat → Bool) :
    unfinished s finish = [] ↔ ∀ i, i < s.num_processes.toNat → finish i = true := by
  unfold unfinished
  rw [List.filter_eq_nil_iff]
  simp

/-! ## The result depends on the inputs only -/

theorem can_satisfy_congr (n1 n2 work : Nat → Int) (nr : Int)
    (h : ∀ j, j < nr.toNat → n1 j = n2 j) :
    can_satisfy n1 work nr = can_satisfy n2 work nr := by
  rw [Bool.eq_iff_iff, can_satisfy_iff, can_satisfy_iff]
  constructor
  · intro h1 j hj
    rw [← h j hj]
    exact h1 j hj
  · intro h1 j hj
    rw [h j hj]
    exact h1 j hj

theorem scan_step_congr (s t : SystemState) (h : SameInputs s t) (st : Scan) (i : Nat)
    (hi : i < s.num_processes.toNat) : scan_step t st i = scan_step s st i := by
  have hc : can_satisfy (t.need i) st.work t.num_resources
      = can_satisfy (s.need i) st.work s.num_resources := by
    rw [h.nr]
    exact can_satisfy_congr _ _ _ _ (fun j hj => h.need i j hi hj)
  unfold scan_step release
  rw [hc, h.nr, h.alloc]

theorem scan_pass_congr (s t : SystemState) (h : SameInputs s t) (st : Scan) :
    scan_pass t st = scan_pass s st := by
  unfold scan_pass
  rw [h.np]
  exact List.foldl_ext _ _ _ (fun a i hi => scan_step_congr s t h a i (List.mem_range.1 hi))

theorem do_while_congr (s t : SystemState) (h : SameInputs s t) (fuel : Nat) (st : Scan) :
    do_while t fuel st = do_while s fuel st := by
  induction fuel generalizing st with
  | zero => rfl
  | succ n ih => simp only [do_while, scan_pass_congr s t h, ih]

theorem calculate_need_matrix_sameInputs (s t : SystemState)
    (hnp : t.num_processes = s.num_processes) (hnr : t.num_resources = s.num_resources)
    (hav : t.available = s.available) (hal : t.allocation = s.allocation)
    (hmx : t.max_need = s.max_need) :
    SameInputs (calculate_need_matrix s) (calculate_need_matrix t) := by
  rw [calculate_need_matrix_eq, calculate_need_matrix_eq]
  refine ⟨hnp, hnr, hav, hal, ?_⟩
  intro i j hi hj
  have hi1 : i < s.num_processes.toNat := hi
  have hj1 : j < s.num_resources.toNat := hj
  simp only [hnp, hnr, hi1, hj1, and_self, if_true, hmx, hal]

/-- The result of `detect_deadlock` is a function of `num_processes`,
`num_resources`, `available`, `allocation` and `max_need`. -/
theorem detect_deadlock_fuel_congr (s t : SystemState)
    (hnp : t.num_processes = s.num_processes) (hnr : t.num_resources = s.num_resources)
    (hav : t.available = s.available) (hal : t.allocation = s.allocation)
    (hmx : t.max_need = s.max_need) (fuel : Nat) :
    (detect_deadlock_fuel fuel t).map Prod.snd = (detect_deadlock_fuel fuel s).map Prod.snd := by
  have h := calculate_need_matrix_sameInputs s t hnp hnr hav hal hmx
  unfold detect_deadlock_fuel
  simp only [do_while_congr _ _ h]
  have h1 : init_work (calculate_need_matrix t) = init_work (calculate_need_matrix s) := by
    unfold init_work
    rw [h.nr, h.avail]
  have h2 : init_finish (calculate_need_matrix t) = init_finish (calculate_need_matrix s) := by
    rw [init_finish_eq, init_finish_eq]
  have h3 : ∀ f, collect_deadlocked (calculate_need_matrix t) f
      = collect_deadlocked (calculate_need_matrix s) f := by
    intro f
    unfold collect_deadlocked
    rw [h.np]
  rw [h1, h2]
  cases do_while (calculate_need_matrix s) fuel
      { work := init_work (calculate_need_matrix s)
        finish := init_finish (calculate_need_matrix s)
        safe_sequence := []
        found := false } with
  | none => rfl
  | some st => simp only [Option.map, h3]

theorem detect_deadlock_congr (s t : SystemState)
    (hnp : t.num_processes = s.num_processes) (hnr : t.num_resources = s.num_resources)
    (hav : t.available = s.available) (hal : t.allocation = s.allocation)
    (hmx : t.max_need = s.max_need) :
    (detect_deadlock t).map Prod.snd = (detect_deadlock s).map Prod.snd := by
  unfold detect_deadlock
  rw [hnp]
  exact detect_deadlock_fuel_congr s t hnp hnr hav hal hmx _

theorem calculate_need_matrix_idem (s : SystemState) :
    calculate_need_matrix (calculate_need_matrix s) = calculate_need_matrix s := by
  rw [calculate_need_matrix_eq (calculate_need_matrix s)]
  rw [calculate_need_matrix_eq s]
  simp only
  congr 1
  funext i j
  by_cases h : i < s.num_processes.toNat ∧ j < s.num_resources.toNat
  · rw [if_pos h, if_pos h]
  · rw [if_neg h, if_neg h]

/-! ## Facts used by the callers of `detect_deadlock` -/

theorem calculate_need_matrix_num_processes (s : SystemState) :
    (calculate_need_matrix s).num_processes = s.num_processes := by
  rw [calculate_need_matrix_eq]

theorem calculate_need_matrix_num_resources (s : SystemState) :
    (calculate_need_matrix s).num_resources = s.num_resources := by
  rw [calculate_need_matrix_eq]

theorem calculate_need_matrix_available (s : SystemState) :
    (calculate_need_matrix s).available = s.available := by
  rw [calculate_need_matrix_eq]

theorem calculate_need_matrix_allocation (s : SystemState) :
    (calculate_need_matrix s).allocation = s.allocation := by
  rw [calculate_need_matrix_eq]

theorem calculate_need_matrix_max_need (s : SystemState) :
    (calculate_need_matrix s).max_need = s.max_need := by
  rw [calculate_need_matrix_eq]

theorem calculate_need_matrix_need (s : SystemState) (i j : Nat)
    (hi : i < s.num_processes.toNat) (hj : j < s.num_resources.toNat) :
    (calculate_need_matrix s).need i j = wrap_int (s.max_need i j - s.allocation i j) := by
  rw [calculate_need_matrix_eq]
  simp [hi, hj]

theorem calculate_need_matrix_need_exact (s : SystemState) (i j : Nat)
    (hi : i < s.num_processes.toNat) (hj : j < s.num_resources.toNat)
    (hfit : IsInt (s.max_need i j - s.allocation i j)) :
    (calculate_need_matrix s).need i j = s.max_need i j - s.allocation i j := by
  rw [calculate_need_matrix_need s i j hi hj, wrap_int_of_isInt _ hfit]

theorem detect_deadlock_ne_none (s : SystemState) : detect_deadlock s ≠ none := by
  obtain ⟨fin, -, -, -, hrun⟩ := detect_deadlock_run s
  rw [detect_deadlock_eq, hrun _ (le_refl _)]
  exact Option.some_ne_none _

theorem detect_deadlock_fst (s st : SystemState) (res : DetectionResult)
    (h : detect_deadlock s = some (st, res)) : st = calculate_need_matrix s := by
  obtain ⟨fin, -, -, -, hrun⟩ := detect_deadlock_run s
  rw [detect_deadlock_eq, hrun _ (le_refl _)] at h
  simp only [Option.some.injEq, Prod.mk.injEq] at h
  exact h.1.symm

/-- A call of `detect_deadlock` leaves the state with the need matrix recomputed, and
a second call on that state returns the same result. -/
theorem detect_deadlock_calculate (s : SystemState) :
    ∃ r, detect_deadlock s = some (calculate_need_matrix s, r) ∧
      detect_deadlock (calculate_need_matrix s) = some (calculate_need_matrix s, r) := by
  obtain ⟨fin, -, -, -, hrun⟩ := detect_deadlock_run s
  have hs := hrun _ (le_refl _)
  rw [← detect_deadlock_eq] at hs
  refine ⟨_, hs, ?_⟩
  obtain ⟨fin1, -, -, -, hrun1⟩ := detect_deadlock_run (calculate_need_matrix s)
  have h1 := hrun1 _ (le_refl _)
  rw [← detect_deadlock_eq, calculate_need_matrix_idem] at h1
  have hc := detect_deadlock_congr s (calculate_need_matrix s)
    (calculate_need_matrix_num_processes s) (calculate_need_matrix_num_resources s)
    (calculate_need_matrix_available s) (calculate_need_matrix_allocation s)
    (calculate_need_matrix_max_need s)
  rw [h1, hs] at hc
  simp only [Option.map_some', Option.some.injEq] at hc
  rw [h1, hc]

/-- The trial state of `cmd_simulate` differs from `trial` at most in out-of-range
need entries that `calculate_need_matrix` has left alone. -/
theorem calculate_need_matrix_trial (s : SystemState) (p r : Nat) (amount : Int) :
    calculate_need_matrix
        { trial s p r amount with need := (calculate_need_matrix s).need }
      = calculate_need_matrix (trial s p r amount) := by
  rw [calculate_need_matrix_eq, calculate_need_matrix_eq (trial s p r amount),
    calculate_need_matrix_eq s]
  simp only [trial]
  congr 1
  funext i j
  by_cases h : i < s.num_processes.toNat ∧ j < s.num_resources.toNat
  · rw [if_pos h, if_pos h]
  · rw [if_neg h, if_neg h, if_neg h]

theorem upd_revert (a : Nat → Int) (j : Nat) (x : Int) :
    upd (upd a j (wrap_int (a j - x))) j (wrap_int (upd a j (wrap_int (a j - x)) j + x))
      = upd a j (wrap_int (a j)) := by
  funext k
  simp only [upd_apply]
  by_cases hk : k = j
  · simp only [hk, if_true]
    rw [wrap_int_wrap_add, sub_add_cancel]
  · simp [hk]

theorem upd2_revert (m : Nat → Nat → Int) (i j : Nat) (x : Int) :
    upd2 (upd2 m i j (wrap_int (m i j + x))) i j
        (wrap_int (upd2 m i j (wrap_int (m i j + x)) i j - x))
      = upd2 m i j (wrap_int (m i j)) := by
  funext a b
  simp only [upd2_apply]
  by_cases h : a = i ∧ b = j
  · simp only [h, and_self, if_true]
    rw [wrap_int_wrap_sub, add_sub_cancel_right]
  · simp [h]

theorem upd_self {α : Type} (a : Nat → α) (j : Nat) : upd a j (a j) = a := by
  funext k
  rw [upd_apply]
  by_cases hk : k = j
  · rw [if_pos hk, hk]
  · rw [if_neg hk]

theorem upd2_self {α : Type} (m : Nat → Nat → α) (i j : Nat) : upd2 m i j (m i j) = m := by
  funext a b
  rw [upd2_apply]
  by_cases h : a = i ∧ b = j
  · rw [if_pos h, h.1, h.2]
  · rw [if_neg h]

/-- When neither store of the trial wraps, the trial state is the tentative state of
the request. -/
theorem trial_eq_tentative (s : SystemState) (p r : Nat) (amount : Int)
    (h1 : IsInt (s.available r - amount)) (h2 : IsInt (s.allocation p r + amount)) :
    trial s p r amount = tentative s p r amount := by
  unfold trial tentative
  rw [wrap_int_of_isInt _ h1, wrap_int_of_isInt _ h2]

/-! ## The detection result -/

/-- Claim C1. For every state with `0 <= num_processes <= MAX_PROCESSES`,
`detect_deadlock` returns, and its result partitions the process indices: every
index below `num_processes` occurs exactly once in `safe_sequence` or exactly once
in `deadlocked_processes`, never in both, no other value occurs, and
`safe_sequence_length + num_deadlocked = num_processes`. -/
theorem detect_deadlock_partition (s : SystemState) (h0 : 0 ≤ s.num_processes)
    (_hmax : s.num_processes ≤ MAX_PROCESSES) :
    ∃ s1 r, detect_deadlock s = some (s1, r) ∧ PartitionsProcesses s.num_processes r := by
  obtain ⟨fin, hinv, -, -, hrun⟩ := detect_deadlock_run s
  refine ⟨_, _, hrun _ (le_refl _), ?_⟩
  have hperm := scan_partition s fin hinv
  have hlt : ∀ i : Nat, (i : Int) < s.num_processes ↔ i < s.num_processes.toNat := by
    intro i
    omega
  refine ⟨?_, ?_, ?_⟩
  · intro i hi
    have hc := hperm.count_eq i
    rw [List.count_append,
      List.count_eq_one_of_mem (List.nodup_range _) (List.mem_range.2 ((hlt i).1 hi))] at hc
    show (fin.safe_sequence.count i = 1 ∧ (unfinished s fin.finish).count i = 0) ∨
      (fin.safe_sequence.count i = 0 ∧ (unfinished s fin.finish).count i = 1)
    omega
  · intro x hx
    exact (hlt x).2 (List.mem_range.1 ((hperm.mem_iff).1 hx))
  · have hl := hperm.length_eq
    rw [List.length_append, List.length_range] at hl
    show ((fin.safe_sequence.length + (unfinished s fin.finish).length : Nat) : Int) = _
    rw [hl]
    omega

theorem detect_deadlock_partition_witness :
    (0 ≤ scenario_B.num_processes ∧ scenario_B.num_processes ≤ MAX_PROCESSES) ∧
      ∃ s1 r, detect_deadlock scenario_B = some (s1, r) ∧
        PartitionsProcesses scenario_B.num_processes r :=
  ⟨by decide, detect_deadlock_partition scenario_B (by decide) (by decide)⟩

/-- Claim C2, counterexample. With `available[0] = INT_MAX` and allocation rows `[1]`,
`[0]` (all non-negative), process 0 then process 1 is a valid discharge order of all
processes, yet `detect_deadlock` reports process 1 deadlocked: the `int` store
`work[0] += 1` wraps to `INT_MIN`. -/
theorem detect_deadlock_misses_order :
    (∀ i, i < overflow_work_state.num_processes.toNat →
      ∀ j, j < overflow_work_state.num_resources.toNat →
        0 ≤ overflow_work_state.allocation i j) ∧
    (detect_deadlock overflow_work_state).map Prod.snd
      = some { is_deadlocked := true, deadlocked_processes := [1], safe_sequence := [0] } ∧
    [0, 1].Perm (List.range overflow_work_state.num_processes.toNat) ∧
    valid_discharge overflow_work_state [0, 1] overflow_work_state.available := by
  refine ⟨by decide, by decide, by decide, ?_⟩
  show (∀ r, r < _ → _) ∧ (∀ r, r < _ → _) ∧ True
  decide

/-- Claim C2, amended. For every state whose in-range allocation entries are
non-negative, whose differences `max_need - allocation` fit in an `int` and whose
resource units fit in an `int`, `detect_deadlock` returns `is_deadlocked = false`
if and only if some ordering of all processes `0 .. num_processes-1` is a valid
discharge order from `work = available`. -/
theorem detect_deadlock_safe_iff_order (s : SystemState)
    (hpos : ∀ i, i < s.num_processes.toNat → ∀ j, j < s.num_resources.toNat →
      0 ≤ s.allocation i j)
    (hN : NeedFits s) (hW : WorkFits s) :
    ∃ s1 r, detect_deadlock s = some (s1, r) ∧
      (r.is_deadlocked = false ↔
        ∃ order : List Nat, order.Perm (List.range s.num_processes.toNat) ∧
          valid_discharge s order s.available) := by
  obtain ⟨fin, hinv, hstuck, hrun⟩ := detect_deadlock_spec s hN hW
  refine ⟨_, _, hrun _ (le_refl _), ?_⟩
  show (!(unfinished s fin.finish).isEmpty) = false ↔ _
  have hdl : (!(unfinished s fin.finish).isEmpty) = false ↔
      ∀ i, i < s.num_processes.toNat → fin.finish i = true := by
    rw [← unfinished_eq_nil_iff]
    simp [List.isEmpty_iff]
  rw [hdl]
  constructor
  · intro hall
    refine ⟨fin.safe_sequence, ?_, hinv.valid⟩
    have hperm := scan_partition s fin hinv.shape
    rwa [(unfinished_eq_nil_iff s fin.finish).2 hall, List.append_nil] at hperm
  · rintro ⟨order, hperm, hok⟩ i hi
    refine order_finished s fin hinv hstuck hpos order ∅ s.available ?_ ?_ ?_ ?_ ?_ hok i ?_
    · intro q hq
      simp at hq
    · intro r _
      simp
    · exact hperm.nodup_iff.2 (List.nodup_range _)
    · intro x _
      simp
    · intro x hx
      exact List.mem_range.1 (hperm.mem_iff.1 hx)
    · exact hperm.mem_iff.2 (List.mem_range.2 hi)

theorem detect_deadlock_safe_iff_order_witness :
    ((∀ i, i < scenario_A.num_processes.toNat → ∀ j, j < scenario_A.num_resources.toNat →
        0 ≤ scenario_A.allocation i j) ∧ NeedFits scenario_A ∧ WorkFits scenario_A) ∧
      ∃ s1 r, detect_deadlock scenario_A = some (s1, r) ∧
        (r.is_deadlocked = false ↔
          ∃ order : List Nat, order.Perm (List.range scenario_A.num_processes.toNat) ∧
            valid_discharge scenario_A order scenario_A.available) :=
  ⟨by decide, detect_deadlock_safe_iff_order scenario_A (by decide) (by decide) (by decide)⟩

/-- Claim C4. On scenario A `detect_deadlock` returns `is_deadlocked = false`, no
deadlocked process (`num_deadlocked = 0`) and the safe sequence `1, 3, 4, 0, 2`. -/
theorem detect_deadlock_scenario_A :
    (detect_deadlock scenario_A).map Prod.snd
      = some { is_deadlocked := false
               deadlocked_processes := []
               safe_sequence := [1, 3, 4, 0, 2] } := by
  decide

/-- Claim C5. On scenario B `detect_deadlock` returns `is_deadlocked = true`, the
deadlocked processes `0, 1, 2, 3` and an empty safe sequence. -/
theorem detect_deadlock_scenario_B :
    (detect_deadlock scenario_B).map Prod.snd
      = some { is_deadlocked := true
               deadlocked_processes := [0, 1, 2, 3]
               safe_sequence := [] } := by
  decide

/-- Claim C6. `detect_deadlock` is idempotent and deterministic: a second call on
the state left behind by the first returns the same result (and leaves the same
state), and every state with the same `num_processes`, `num_resources`,
`available`, `allocation` and `max_need` gets the same result, whatever its stored
need matrix. -/
theorem detect_deadlock_idempotent (s : SystemState) :
    ∃ s1 r, detect_deadlock s = some (s1, r) ∧ detect_deadlock s1 = some (s1, r) ∧
      ∀ t : SystemState, t.num_processes = s.num_processes →
        t.num_resources = s.num_resources → t.available = s.available →
        t.allocation = s.allocation → t.max_need = s.max_need →
        (detect_deadlock t).map Prod.snd = some r := by
  obtain ⟨r, hs, hs1⟩ := detect_deadlock_calculate s
  refine ⟨_, r, hs, hs1, ?_⟩
  intro t hnp hnr hav hal hmx
  rw [detect_deadlock_congr s t hnp hnr hav hal hmx, hs]
  rfl

/-- Claim C7, counterexample. On scenario B after `apply_victim` has terminated
process 3 (the state on which `cmd_resolve` calls `detect_deadlock` again) the
stored `need[3][0]` is `1` before the call and `0` after it. -/
theorem detect_deadlock_overwrites_need :
    (apply_victim scenario_B 3).need 3 0 = 1 ∧
      (detect_deadlock (apply_victim scenario_B 3)).map (fun out => out.1.need 3 0) = some 0 := by
  decide

/-- Claim C7, amended. `detect_deadlock` leaves `num_processes`, `num_resources`,
`available`, `allocation` and `max_need` as they were; it overwrites every in-range
entry `need[p][r]` with the `int` difference of `max_need[p][r]` and
`allocation[p][r]`, which is `max_need[p][r] - allocation[p][r]` whenever that
number fits in an `int`, and leaves the other entries of `need` as they were. -/
theorem detect_deadlock_frame (s : SystemState) :
    ∃ s1 r, detect_deadlock s = some (s1, r) ∧
      s1.num_processes = s.num_processes ∧ s1.num_resources = s.num_resources ∧
      s1.available = s.available ∧ s1.allocation = s.allocation ∧
      s1.max_need = s.max_need ∧
      (∀ p r, s1.need p r =
        if p < s.num_processes.toNat ∧ r < s.num_resources.toNat
        then wrap_int (s.max_need p r - s.allocation p r) else s.need p r) ∧
      ∀ p r, p < s.num_processes.toNat → r < s.num_resources.toNat →
        IsInt (s.max_need p r - s.allocation p r) →
        s1.need p r = s.max_need p r - s.allocation p r := by
  obtain ⟨fin, -, -, -, hrun⟩ := detect_deadlock_run s
  refine ⟨_, _, hrun _ (le_refl _), ?_⟩
  refine ⟨calculate_need_matrix_num_processes s, calculate_need_matrix_num_resources s,
    calculate_need_matrix_available s, calculate_need_matrix_allocation s,
    calculate_need_matrix_max_need s, ?_, ?_⟩
  · intro p r
    rw [calculate_need_matrix_eq]
  · intro p r hp hr hfit
    exact calculate_need_matrix_need_exact s p r hp hr hfit

/-- Claim C8. For every state with `0 <= num_processes <= MAX_PROCESSES` the
`do`-`while` loop of `detect_deadlock` terminates: for some `k <= num_processes` it
makes exactly `k + 1` passes, of which the first `k` discharge at least one process
each and the last discharges none; and `detect_deadlock` returns the same result
for every fuel from `num_processes + 1` on. -/
theorem detect_deadlock_terminates (s : SystemState) (h0 : 0 ≤ s.num_processes)
    (_hmax : s.num_processes ≤ MAX_PROCESSES) :
    (∃ k : Nat, (k : Int) ≤ s.num_processes ∧
      RunsPasses (calculate_need_matrix s) (scan_init (calculate_need_matrix s)) k) ∧
    ∃ res, ∀ fuel, s.num_processes.toNat + 1 ≤ fuel → detect_deadlock_fuel fuel s = some res := by
  constructor
  · have hnp : (calculate_need_matrix s).num_processes = s.num_processes := by
      rw [calculate_need_matrix_eq]
    obtain ⟨k, hk, hdis, hlast, hsome, hnone, -⟩ :=
      do_while_passes (calculate_need_matrix s)
        s.num_processes.toNat (scan_init (calculate_need_matrix s))
        (scan_init_shape _) (by rw [hnp]; exact Nat.sub_le _ _)
    refine ⟨k, by omega, hdis, hlast, ?_, hsome, hnone⟩
    rw [Function.iterate_succ_apply'] at hlast ⊢
    rw [(scan_pass_fixed _ _ hlast).1]
  · obtain ⟨fin, -, -, -, hrun⟩ := detect_deadlock_run s
    exact ⟨_, hrun⟩

theorem detect_deadlock_terminates_witness :
    (0 ≤ scenario_A.num_processes ∧ scenario_A.num_processes ≤ MAX_PROCESSES) ∧
      ((∃ k : Nat, (k : Int) ≤ scenario_A.num_processes ∧
        RunsPasses (calculate_need_matrix scenario_A)
          (scan_init (calculate_need_matrix scenario_A)) k) ∧
      ∃ res, ∀ fuel, scenario_A.num_processes.toNat + 1 ≤ fuel →
        detect_deadlock_fuel fuel scenario_A = some res) :=
  ⟨by decide, detect_deadlock_terminates scenario_A (by decide) (by decide)⟩

/-! ## Request simulation -/

/-- The exit paths of `cmd_simulate`, one disjunct per `return`. -/
theorem cmd_simulate_cases (s : SystemState) (pi rj amount : Int) :
    ((amount ≤ 0 ∨ pi < 0 ∨ pi ≥ s.num_processes ∨ rj < 0 ∨ rj ≥ s.num_resources) ∧
      cmd_simulate s pi rj amount
        = some (s, ⟨false, false, "Invalid process_index, resource_index, or amount."⟩)) ∨
    (¬(amount ≤ 0 ∨ pi < 0 ∨ pi ≥ s.num_processes ∨ rj < 0 ∨ rj ≥ s.num_resources) ∧
      to_unsigned amount > to_unsigned (s.available rj.toNat) ∧
      cmd_simulate s pi rj amount
        = some (s, ⟨false, false, "Request exceeds available resources."⟩)) ∨
    (¬(amount ≤ 0 ∨ pi < 0 ∨ pi ≥ s.num_processes ∨ rj < 0 ∨ rj ≥ s.num_resources) ∧
      ¬ to_unsigned amount > to_unsigned (s.available rj.toNat) ∧
      amount > wrap_int (s.max_need pi.toNat rj.toNat - s.allocation pi.toNat rj.toNat) ∧
      cmd_simulate s pi rj amount
        = some (calculate_need_matrix s, ⟨false, false, "Request exceeds remaining need."⟩)) ∨
    (¬(amount ≤ 0 ∨ pi < 0 ∨ pi ≥ s.num_processes ∨ rj < 0 ∨ rj ≥ s.num_resources) ∧
      ¬ to_unsigned amount > to_unsigned (s.available rj.toNat) ∧
      ¬ amount > wrap_int (s.max_need pi.toNat rj.toNat - s.allocation pi.toNat rj.toNat) ∧
      ∃ res, (detect_deadlock (trial s pi.toNat rj.toNat amount)).map Prod.snd = some res ∧
        cmd_simulate s pi rj amount
          = some ({ s with
                available := upd s.available rj.toNat (wrap_int (s.available rj.toNat))
                allocation := upd2 s.allocation pi.toNat rj.toNat
                  (wrap_int (s.allocation pi.toNat rj.toNat))
                need := (calculate_need_matrix (trial s pi.toNat rj.toNat amount)).need },
              if res.is_deadlocked = false
              then ⟨true, true, "Granting would keep the system safe."⟩
              else ⟨false, false, "Granting would lead to unsafe state."⟩)) := by
  by_cases h1 : amount ≤ 0 ∨ pi < 0 ∨ pi ≥ s.num_processes ∨ rj < 0 ∨ rj ≥ s.num_resources
  · left
    refine ⟨h1, ?_⟩
    unfold cmd_simulate
    rw [if_pos h1]
  right
  by_cases h2 : to_unsigned amount > to_unsigned (s.available rj.toNat)
  · left
    refine ⟨h1, h2, ?_⟩
    unfold cmd_simulate
    rw [if_neg h1, if_pos h2]
  right
  have hp : pi.toNat < s.num_processes.toNat := by omega
  have hr : rj.toNat < s.num_resources.toNat := by omega
  have hneed := calculate_need_matrix_need s pi.toNat rj.toNat hp hr
  by_cases h3 : amount > wrap_int (s.max_need pi.toNat rj.toNat - s.allocation pi.toNat rj.toNat)
  · left
    refine ⟨h1, h2, h3, ?_⟩
    unfold cmd_simulate
    rw [if_neg h1, if_neg h2]
    dsimp only
    rw [hneed, if_pos h3]
  right
  refine ⟨h1, h2, h3, ?_⟩
  unfold cmd_simulate
  rw [if_neg h1, if_neg h2]
  dsimp only
  rw [hneed, if_neg h3]
  have hT : ({ num_processes := (calculate_need_matrix s).num_processes
               num_resources := (calculate_need_matrix s).num_resources
               available := upd (calculate_need_matrix s).available rj.toNat
                 (wrap_int ((calculate_need_matrix s).available rj.toNat - amount))
               allocation := upd2 (calculate_need_matrix s).allocation pi.toNat rj.toNat
                 (wrap_int ((calculate_need_matrix s).allocation pi.toNat rj.toNat + amount))
               max_need := (calculate_need_matrix s).max_need
               need := (calculate_need_matrix s).need } : SystemState)
      = { trial s pi.toNat rj.toNat amount with need := (calculate_need_matrix s).need } := by
    simp only [trial, calculate_need_matrix_num_processes, calculate_need_matrix_num_resources,
      calculate_need_matrix_available, calculate_need_matrix_allocation,
      calculate_need_matrix_max_need]
  rw [hT, calculate_need_matrix_trial]
  obtain ⟨res, hres, hres1⟩ := detect_deadlock_calculate (trial s pi.toNat rj.toNat amount)
  refine ⟨res, by rw [hres]; rfl, ?_⟩
  rw [hres1]
  have hstate : ({ num_processes := (calculate_need_matrix (trial s pi.toNat rj.toNat amount)).num_processes
                   num_resources := (calculate_need_matrix (trial s pi.toNat rj.toNat amount)).num_resources
                   available := upd (calculate_need_matrix (trial s pi.toNat rj.toNat amount)).available rj.toNat
                     (wrap_int ((calculate_need_matrix (trial s pi.toNat rj.toNat amount)).available rj.toNat
                       + amount))
                   allocation := upd2 (calculate_need_matrix (trial s pi.toNat rj.toNat amount)).allocation
                     pi.toNat rj.toNat
                     (wrap_int ((calculate_need_matrix (trial s pi.toNat rj.toNat amount)).allocation
                       pi.toNat rj.toNat - amount))
                   max_need := (calculate_need_matrix (trial s pi.toNat rj.toNat amount)).max_need
                   need := (calculate_need_matrix (trial s pi.toNat rj.toNat amount)).need } : SystemState)
      = { s with
          available := upd s.available rj.toNat (wrap_int (s.available rj.toNat))
          allocation := upd2 s.allocation pi.toNat rj.toNat
            (wrap_int (s.allocation pi.toNat rj.toNat))
          need := (calculate_need_matrix (trial s pi.toNat rj.toNat amount)).need } := by
    simp only [calculate_need_matrix_num_processes, calculate_need_matrix_num_resources,
      calculate_need_matrix_available, calculate_need_matrix_allocation,
      calculate_need_matrix_max_need]
    simp only [trial, upd_revert, upd2_revert]
  dsimp only
  rw [hstate]
  cases res.is_deadlocked <;> rfl

/-- On its trial path `cmd_simulate` leaves a state of `int` values as it found it,
apart from the need matrix. -/
theorem cmd_simulate_restored (s : SystemState) (pi rj : Int) (n : Nat → Nat → Int)
    (hint : IntState s) (hp : pi.toNat < s.num_processes.toNat)
    (hr : rj.toNat < s.num_resources.toNat) :
    ({ s with
        available := upd s.available rj.toNat (wrap_int (s.available rj.toNat))
        allocation := upd2 s.allocation pi.toNat rj.toNat
          (wrap_int (s.allocation pi.toNat rj.toNat))
        need := n } : SystemState) = { s with need := n } := by
  rw [wrap_int_of_isInt _ (hint.1 _ hr), wrap_int_of_isInt _ (hint.2 _ hp _ hr).1,
    upd_self, upd2_self]

theorem to_unsigned_of_nonneg (x : Int) (h0 : 0 ≤ x) (h1 : x ≤ INT_MAX) : to_unsigned x = x := by
  unfold to_unsigned
  unfold INT_MAX at h1
  exact Int.emod_eq_of_lt h0 (by omega)

theorem isInt_of_need_fit (s : SystemState) (pi rj amount : Int) (hint : IntState s)
    (hp : pi.toNat < s.num_processes.toNat) (hr : rj.toNat < s.num_resources.toNat)
    (ha : 0 < amount)
    (hle : amount ≤ s.max_need pi.toNat rj.toNat - s.allocation pi.toNat rj.toNat) :
    IsInt (s.allocation pi.toNat rj.toNat + amount) := by
  obtain ⟨h1, h2⟩ := hint.2 _ hp _ hr
  unfold IsInt at h1 h2 ⊢
  constructor <;> omega

/-- Claim C9. `cmd_simulate` returns on every input, and on every exit path
(malformed, exceeds available, exceeds need, granted, unsafe) the `available`
vector, the `allocation` matrix and the `max_need` matrix after the call are
identical to those before the call, as are the two dimensions. The state is one of
the program: its in-range entries are `int` values. -/
theorem cmd_simulate_preserves_state (s : SystemState) (pi rj amount : Int)
    (hint : IntState s) :
    ∃ s1 reply, cmd_simulate s pi rj amount = some (s1, reply) ∧
      s1.num_processes = s.num_processes ∧ s1.num_resources = s.num_resources ∧
      s1.available = s.available ∧ s1.allocation = s.allocation ∧
      s1.max_need = s.max_need := by
  rcases cmd_simulate_cases s pi rj amount with
    ⟨-, h⟩ | ⟨-, -, h⟩ | ⟨-, -, -, h⟩ | ⟨hin, -, -, res, -, h⟩
  · exact ⟨_, _, h, rfl, rfl, rfl, rfl, rfl⟩
  · exact ⟨_, _, h, rfl, rfl, rfl, rfl, rfl⟩
  · exact ⟨_, _, h, calculate_need_matrix_num_processes s,
      calculate_need_matrix_num_resources s, calculate_need_matrix_available s,
      calculate_need_matrix_allocation s, calculate_need_matrix_max_need s⟩
  · rw [cmd_simulate_restored s pi rj _ hint (by omega) (by omega)] at h
    exact ⟨_, _, h, rfl, rfl, rfl, rfl, rfl⟩

theorem cmd_simulate_preserves_state_witness :
    IntState scenario_A ∧
    ∃ s1 reply, cmd_simulate scenario_A 1 0 1 = some (s1, reply) ∧
      s1.num_processes = scenario_A.num_processes ∧
      s1.num_resources = scenario_A.num_resources ∧
      s1.available = scenario_A.available ∧ s1.allocation = scenario_A.allocation ∧
      s1.max_need = scenario_A.max_need :=
  ⟨by decide, cmd_simulate_preserves_state scenario_A 1 0 1 (by decide)⟩

/-- Claim C10, counterexample. With `available[0] = INT_MAX`, `allocation[0][0] = 1`
and `max_need[0][0] = INT_MIN` the request (process 0, resource 0, amount 1) is
granted although `amount <= max_need[0][0] - allocation[0][0]` is false: the stored
need is the wrapped difference `INT_MAX`. -/
theorem cmd_simulate_grants_beyond_need :
    (∀ j, j < underflow_need_state.num_resources.toNat →
      0 ≤ underflow_need_state.available j) ∧
    (cmd_simulate underflow_need_state 0 0 1).map (fun out => out.2.granted) = some true ∧
    ¬ ((1 : Int) ≤ underflow_need_state.max_need 0 0 - underflow_need_state.allocation 0 0) := by
  decide

/-- Claim C10, amended. For every state of `int` values with non-negative
`available` whose differences `max_need - allocation` fit in an `int`, and every
request (the `int` value `amount` being at most `INT_MAX`), `cmd_simulate` reports
`granted = true` if and only if `amount > 0`, `process` and `resource` are in
range, `amount <= available[resource]`,
`amount <= max_need[process][resource] - allocation[process][resource]`, and
`detect_deadlock` on the tentative state returns `is_deadlocked = false`; in every
outcome the reported `is_safe` equals `granted`. -/
theorem cmd_simulate_granted_iff (s : SystemState) (pi rj amount : Int)
    (havail : ∀ j, j < s.num_resources.toNat → 0 ≤ s.available j)
    (hint : IntState s) (hN : NeedFits s)
    (hamount_int : amount ≤ INT_MAX) :
    ∃ s1 reply, cmd_simulate s pi rj amount = some (s1, reply) ∧
      reply.is_safe = reply.granted ∧
      (reply.granted = true ↔
        0 < amount ∧ 0 ≤ pi ∧ pi < s.num_processes ∧ 0 ≤ rj ∧ rj < s.num_resources ∧
        amount ≤ s.available rj.toNat ∧
        amount ≤ s.max_need pi.toNat rj.toNat - s.allocation pi.toNat rj.toNat ∧
        ∃ t r, detect_deadlock (tentative s pi.toNat rj.toNat amount) = some (t, r) ∧
          r.is_deadlocked = false) := by
  have hcmp : ¬(amount ≤ 0 ∨ pi < 0 ∨ pi ≥ s.num_processes ∨ rj < 0 ∨ rj ≥ s.num_resources) →
      (to_unsigned amount > to_unsigned (s.available rj.toNat) ↔
        amount > s.available rj.toNat) := by
    intro h1
    have hr : rj.toNat < s.num_resources.toNat := by omega
    rw [to_unsigned_of_nonneg amount (by omega) hamount_int,
      to_unsigned_of_nonneg _ (havail _ hr) (hint.1 _ hr).2]
  have hwrap : ¬(amount ≤ 0 ∨ pi < 0 ∨ pi ≥ s.num_processes ∨ rj < 0 ∨ rj ≥ s.num_resources) →
      wrap_int (s.max_need pi.toNat rj.toNat - s.allocation pi.toNat rj.toNat)
        = s.max_need pi.toNat rj.toNat - s.allocation pi.toNat rj.toNat := by
    intro h1
    exact wrap_int_of_isInt _ (hN _ (by omega) _ (by omega))
  rcases cmd_simulate_cases s pi rj amount with
    ⟨h1, h⟩ | ⟨h1, h2, h⟩ | ⟨h1, h2, h3, h⟩ | ⟨h1, h2, h3, res, hres, h⟩
  · refine ⟨_, _, h, rfl, ?_⟩
    constructor
    · intro hg
      exact absurd hg (by decide)
    · rintro ⟨ha, hp0, hp1, hr0, hr1, -⟩
      omega
  · refine ⟨_, _, h, rfl, ?_⟩
    constructor
    · intro hg
      exact absurd hg (by decide)
    · rintro ⟨-, -, -, -, -, hav, -⟩
      have := (hcmp h1).1 h2
      omega
  · refine ⟨_, _, h, rfl, ?_⟩
    rw [hwrap h1] at h3
    constructor
    · intro hg
      exact absurd hg (by decide)
    · rintro ⟨-, -, -, -, -, -, hnd, -⟩
      omega
  · rw [hwrap h1] at h3
    have hrj : rj.toNat < s.num_resources.toNat := by omega
    have hpi : pi.toNat < s.num_processes.toNat := by omega
    have hle : amount ≤ s.available rj.toNat := by
      have := mt (hcmp h1).2 h2
      omega
    have htrial : trial s pi.toNat rj.toNat amount = tentative s pi.toNat rj.toNat amount := by
      apply trial_eq_tentative
      · have h0 := havail _ hrj
        have h9 := (hint.1 _ hrj).2
        unfold IsInt INT_MIN
        unfold INT_MAX at h9 ⊢
        constructor <;> omega
      · exact isInt_of_need_fit s pi rj amount hint hpi hrj (by omega) (by omega)
    rw [htrial] at hres
    refine ⟨_, _, h, ?_, ?_⟩
    · split_ifs <;> rfl
    · constructor
      · intro hg
        refine ⟨by omega, by omega, by omega, by omega, by omega, hle, by omega, ?_⟩
        cases hd : detect_deadlock (tentative s pi.toNat rj.toNat amount) with
        | none => rw [hd] at hres; exact absurd hres (by simp)
        | some out =>
          rw [hd] at hres
          simp only [Option.map_some', Option.some.injEq] at hres
          refine ⟨out.1, out.2, rfl, ?_⟩
          rw [hres]
          by_contra hne
          rw [if_neg hne] at hg
          exact absurd hg (by decide)
      · rintro ⟨-, -, -, -, -, -, -, t, r, hd, hr⟩
        rw [hd] at hres
        simp only [Option.map_some', Option.some.injEq] at hres
        rw [← hres, if_pos hr]

theorem cmd_simulate_granted_iff_witness :
    ((∀ j, j < scenario_A.num_resources.toNat → 0 ≤ scenario_A.available j) ∧
      IntState scenario_A ∧ NeedFits scenario_A ∧ (1 : Int) ≤ INT_MAX) ∧
    ∃ s1 reply, cmd_simulate scenario_A 1 0 1 = some (s1, reply) ∧
      reply.is_safe = reply.granted ∧
      (reply.granted = true ↔
        0 < (1 : Int) ∧ 0 ≤ (1 : Int) ∧ 1 < scenario_A.num_processes ∧ 0 ≤ (0 : Int) ∧
        0 < scenario_A.num_resources ∧
        1 ≤ scenario_A.available (0 : Int).toNat ∧
        1 ≤ scenario_A.max_need (1 : Int).toNat (0 : Int).toNat
          - scenario_A.allocation (1 : Int).toNat (0 : Int).toNat ∧
        ∃ t r, detect_deadlock (tentative scenario_A (1 : Int).toNat (0 : Int).toNat 1)
            = some (t, r) ∧
          r.is_deadlocked = false) :=
  ⟨by decide, cmd_simulate_granted_iff scenario_A 1 0 1 (by decide) (by decide) (by decide)
    (by decide)⟩

/-- Claim C11, the code at the failing input. With `available[0] = -1` the request
`(process 0, resource 0, amount 1)` has `amount > available[0]`, yet the unsigned
comparison lets it through: the trial mutation is made and the reply is the one of
the safety check, not "Request exceeds available resources.". -/
theorem cmd_simulate_negative_available :
    (1 : Int) > negative_available_state.available 0 ∧
      (cmd_simulate negative_available_state 0 0 1).map Prod.snd
        = some ⟨false, false, "Granting would lead to unsafe state."⟩ := by
  decide

/-- Claim C12, counterexample. With `available[0] = INT_MAX`, `allocation[0][0] = 1`
and `max_need[0][0] = INT_MIN` the request (process 0, resource 0, amount 1) is
well-formed, does not exceed `available[0]` and exceeds
`max_need[0][0] - allocation[0][0]`, yet the reply is not
"Request exceeds remaining need.": the stored need is the wrapped difference. -/
theorem cmd_simulate_misses_need_check :
    (∀ j, j < underflow_need_state.num_resources.toNat →
      0 ≤ underflow_need_state.available j) ∧
    ¬((1 : Int) ≤ 0 ∨ (0 : Int) < 0 ∨ 0 ≥ underflow_need_state.num_processes ∨ (0 : Int) < 0 ∨
      0 ≥ underflow_need_state.num_resources) ∧
    (1 : Int) ≤ underflow_need_state.available 0 ∧
    (1 : Int) > underflow_need_state.max_need 0 0 - underflow_need_state.allocation 0 0 ∧
    (cmd_simulate underflow_need_state 0 0 1).map (fun out => out.2.message)
      = some "Granting would keep the system safe." := by
  decide

/-- Claim C12, amended. For every state of `int` values with non-negative
`available` whose differences `max_need - allocation` fit in an `int` (the `int`
value `amount` being at most `INT_MAX`), `cmd_simulate` reports the reason of the
first failing check: a malformed request is invalid; a well-formed one with
`amount > available[resource]` exceeds available, whether or not it also exceeds
the remaining need; one that passes both checks and has
`amount > max_need[process][resource] - allocation[process][resource]` exceeds the
remaining need. Every such reply has `granted = false`. -/
theorem cmd_simulate_reason_order (s : SystemState) (pi rj amount : Int)
    (havail : ∀ j, j < s.num_resources.toNat → 0 ≤ s.available j)
    (hint : IntState s) (hN : NeedFits s)
    (hamount_int : amount ≤ INT_MAX) :
    ∃ s1 reply, cmd_simulate s pi rj amount = some (s1, reply) ∧
      ((amount ≤ 0 ∨ pi < 0 ∨ pi ≥ s.num_processes ∨ rj < 0 ∨ rj ≥ s.num_resources) →
        reply = ⟨false, false, "Invalid process_index, resource_index, or amount."⟩) ∧
      (¬(amount ≤ 0 ∨ pi < 0 ∨ pi ≥ s.num_processes ∨ rj < 0 ∨ rj ≥ s.num_resources) →
        amount > s.available rj.toNat →
        reply = ⟨false, false, "Request exceeds available resources."⟩) ∧
      (¬(amount ≤ 0 ∨ pi < 0 ∨ pi ≥ s.num_processes ∨ rj < 0 ∨ rj ≥ s.num_resources) →
        amount ≤ s.available rj.toNat →
        amount > s.max_need pi.toNat rj.toNat - s.allocation pi.toNat rj.toNat →
        reply = ⟨false, false, "Request exceeds remaining need."⟩) := by
  have hcmp : ¬(amount ≤ 0 ∨ pi < 0 ∨ pi ≥ s.num_processes ∨ rj < 0 ∨ rj ≥ s.num_resources) →
      (to_unsigned amount > to_unsigned (s.available rj.toNat) ↔
        amount > s.available rj.toNat) := by
    intro h1
    have hr : rj.toNat < s.num_resources.toNat := by omega
    rw [to_unsigned_of_nonneg amount (by omega) hamount_int,
      to_unsigned_of_nonneg _ (havail _ hr) (hint.1 _ hr).2]
  have hwrap : ¬(amount ≤ 0 ∨ pi < 0 ∨ pi ≥ s.num_processes ∨ rj < 0 ∨ rj ≥ s.num_resources) →
      wrap_int (s.max_need pi.toNat rj.toNat - s.allocation pi.toNat rj.toNat)
        = s.max_need pi.toNat rj.toNat - s.allocation pi.toNat rj.toNat := by
    intro h1
    exact wrap_int_of_isInt _ (hN _ (by omega) _ (by omega))
  rcases cmd_simulate_cases s pi rj amount with
    ⟨h1, h⟩ | ⟨h1, h2, h⟩ | ⟨h1, h2, h3, h⟩ | ⟨h1, h2, h3, res, -, h⟩
  · exact ⟨_, _, h, fun _ => rfl, fun hn => absurd h1 hn, fun hn => absurd h1 hn⟩
  · refine ⟨_, _, h, fun hn => absurd hn h1, fun _ _ => rfl, ?_⟩
    intro _ hle _
    have := (hcmp h1).1 h2
    omega
  · refine ⟨_, _, h, fun hn => absurd hn h1, ?_, fun _ _ _ => rfl⟩
    intro _ hgt
    exact absurd ((hcmp h1).2 hgt) h2
  · rw [hwrap h1] at h3
    refine ⟨_, _, h, fun hn => absurd hn h1, ?_, ?_⟩
    · intro _ hgt
      exact absurd ((hcmp h1).2 hgt) h2
    · intro _ _ hgt
      exact absurd hgt h3

theorem cmd_simulate_reason_order_witness :
    ((∀ j, j < scenario_A.num_resources.toNat → 0 ≤ scenario_A.available j) ∧
      IntState scenario_A ∧ NeedFits scenario_A ∧ (4 : Int) ≤ INT_MAX) ∧
    ∃ s1 reply, cmd_simulate scenario_A 1 0 4 = some (s1, reply) ∧
      (((4 : Int) ≤ 0 ∨ (1 : Int) < 0 ∨ 1 ≥ scenario_A.num_processes ∨ (0 : Int) < 0 ∨
          0 ≥ scenario_A.num_resources) →
        reply = ⟨false, false, "Invalid process_index, resource_index, or amount."⟩) ∧
      (¬((4 : Int) ≤ 0 ∨ (1 : Int) < 0 ∨ 1 ≥ scenario_A.num_processes ∨ (0 : Int) < 0 ∨
          0 ≥ scenario_A.num_resources) →
        4 > scenario_A.available (0 : Int).toNat →
        reply = ⟨false, false, "Request exceeds available resources."⟩) ∧
      (¬((4 : Int) ≤ 0 ∨ (1 : Int) < 0 ∨ 1 ≥ scenario_A.num_processes ∨ (0 : Int) < 0 ∨
          0 ≥ scenario_A.num_resources) →
        4 ≤ scenario_A.available (0 : Int).toNat →
        4 > scenario_A.max_need (1 : Int).toNat (0 : Int).toNat
          - scenario_A.allocation (1 : Int).toNat (0 : Int).toNat →
        reply = ⟨false, false, "Request exceeds remaining need."⟩) :=
  ⟨by decide, cmd_simulate_reason_order scenario_A 1 0 4 (by decide) (by decide) (by decide)
    (by decide)⟩

/-! ## Victim selection -/

/-- A loop `total += f j` whose terms fit in an `int` when taken in absolute value
computes the exact sum. -/
theorem foldl_add_range (f : Nat → Int) (n : Nat)
    (hfit : ∑ j in Finset.range n, |f j| ≤ INT_MAX) :
    (List.range n).foldl (fun total j => wrap_int (total + f j)) 0
      = ∑ j in Finset.range n, f j := by
  induction n with
  | zero => rfl
  | succ n ih =>
    have hn : ∑ j in Finset.range n, |f j| ≤ INT_MAX := by
      rw [Finset.sum_range_succ] at hfit
      have := abs_nonneg (f n)
      omega
    rw [List.range_succ, List.foldl_append, ih hn]
    show wrap_int (∑ j in Finset.range n, f j + f n) = _
    rw [← Finset.sum_range_succ]
    apply wrap_int_of_isInt
    have h1 : |∑ j in Finset.range (n + 1), f j| ≤ ∑ j in Finset.range (n + 1), |f j| :=
      Finset.abs_sum_le_sum_abs _ _
    have h2 := abs_le.1 (le_refl |∑ j in Finset.range (n + 1), f j|)
    unfold INT_MAX at hfit
    unfold IsInt INT_MIN INT_MAX
    constructor <;> omega

/-- The total computed for a process whose allocation row fits in an `int` is its
row sum. -/
theorem row_total_eq_row_sum (s : SystemState) (p : Nat)
    (hfit : ∑ j in Finset.range s.num_resources.toNat, |s.allocation p j| ≤ INT_MAX) :
    row_total s p = row_sum s p :=
  foldl_add_range (fun j => s.allocation p j) _ hfit

/-- The minimum scan keeps the first entry whose value is minimal: the entries
before it are strictly larger, those after it are at least as large. -/
theorem select_fold (f : Nat → Int) (l : List Nat) (v : Nat) (l1 l2 : List Nat)
    (h1 : ∀ p, p ∈ l1 → f v < f p) (h2 : ∀ p, p ∈ l2 → f v ≤ f p) :
    ∃ w k1 k2,
      l.foldl (fun (acc : Nat × Int) p => if f p < acc.2 then (p, f p) else acc) (v, f v)
          = (w, f w) ∧
        l1 ++ v :: l2 ++ l = k1 ++ w :: k2 ∧
        (∀ p, p ∈ k1 → f w < f p) ∧ (∀ p, p ∈ k2 → f w ≤ f p) := by
  induction l generalizing v l1 l2 with
  | nil => exact ⟨v, l1, l2, rfl, by simp, h1, h2⟩
  | cons q l ih =>
    simp only [List.foldl_cons]
    by_cases hq : f q < f v
    · rw [if_pos hq]
      obtain ⟨w, k1, k2, hw, hsplit, hk1, hk2⟩ := ih q (l1 ++ v :: l2) [] (by
        intro p hp
        rcases List.mem_append.1 hp with hp | hp
        · exact lt_trans hq (h1 p hp)
        · rcases List.mem_cons.1 hp with hp | hp
          · exact hp ▸ hq
          · exact lt_of_lt_of_le hq (h2 p hp)) (by simp)
      refine ⟨w, k1, k2, hw, ?_, hk1, hk2⟩
      rw [← hsplit]
      simp
    · rw [if_neg hq]
      obtain ⟨w, k1, k2, hw, hsplit, hk1, hk2⟩ := ih v l1 (l2 ++ [q]) h1 (by
        intro p hp
        rcases List.mem_append.1 hp with hp | hp
        · exact h2 p hp
        · rw [List.mem_singleton.1 hp]
          exact not_lt.1 hq)
      refine ⟨w, k1, k2, hw, ?_, hk1, hk2⟩
      rw [← hsplit]
      simp

theorem pick_victim_eq (s : SystemState) (res : DetectionResult) :
    pick_victim s res =
      (res.deadlocked_processes.tail.foldl
        (fun (acc : Nat × Int) p => if row_total s p < acc.2 then (p, row_total s p) else acc)
        (res.deadlocked_processes.getD 0 0, row_total s (res.deadlocked_processes.getD 0 0))).1 :=
  rfl

/-- The selection loop of `resolve_deadlock` chooses the process `pick_victim` chooses. -/
theorem resolve_select_eq (s : SystemState) (res : DetectionResult) :
    resolve_select s res = pick_victim s res := by
  rw [pick_victim_eq]
  have key : ∀ (l : List Nat) (v : Nat) (m : Int),
      (l.foldl (fun (acc : Int × Nat) proc =>
          if row_total s proc < acc.1 then (row_total s proc, proc) else acc) (m, v)).2
        = (l.foldl (fun (acc : Nat × Int) p =>
            if row_total s p < acc.2 then (p, row_total s p) else acc) (v, m)).1 := by
    intro l
    induction l with
    | nil => intro v m; rfl
    | cons q l ih =>
      intro v m
      simp only [List.foldl_cons]
      by_cases hq : row_total s q < m
      · rw [if_pos hq, if_pos hq]
        exact ih q _
      · rw [if_neg hq, if_neg hq]
        exact ih v m
  exact key _ _ _

/-- The victim `pick_victim` chooses from a non-empty, strictly ascending list of
deadlocked processes: a member with the least computed total, and the lowest such
index. -/
theorem pick_victim_spec (s : SystemState) (res : DetectionResult)
    (hne : res.deadlocked_processes ≠ [])
    (hsorted : res.deadlocked_processes.Pairwise (fun a b => a < b)) :
    pick_victim s res ∈ res.deadlocked_processes ∧
      (∀ p, p ∈ res.deadlocked_processes → row_total s (pick_victim s res) ≤ row_total s p) ∧
      (∀ p, p ∈ res.deadlocked_processes → p < pick_victim s res →
        row_total s (pick_victim s res) < row_total s p) := by
  rw [pick_victim_eq]
  obtain ⟨d, ds, hd⟩ : ∃ d ds, res.deadlocked_processes = d :: ds := by
    cases h : res.deadlocked_processes with
    | nil => exact absurd h hne
    | cons d ds => exact ⟨d, ds, rfl⟩
  rw [hd] at hsorted ⊢
  simp only [List.getD_cons_zero, List.tail_cons]
  obtain ⟨w, k1, k2, hw, hsplit, hk1, hk2⟩ :=
    select_fold (row_total s) ds d [] [] (by simp) (by simp)
  rw [hw]
  simp only [List.nil_append] at hsplit
  have hsplit1 : d :: ds = k1 ++ w :: k2 := by simpa using hsplit
  rw [hsplit1] at hsorted ⊢
  refine ⟨by simp, ?_, ?_⟩
  · intro p hp
    rcases List.mem_append.1 hp with hp | hp
    · exact le_of_lt (hk1 p hp)
    · rcases List.mem_cons.1 hp with hp | hp
      · rw [hp]
      · exact hk2 p hp
  · intro p hp hlt
    rcases List.mem_append.1 hp with hp | hp
    · exact hk1 p hp
    · exfalso
      have hw2 := (List.pairwise_append.1 hsorted).2.1
      rcases List.mem_cons.1 hp with hp | hp
      · omega
      · have := (List.pairwise_cons.1 hw2).1 p hp
        omega

/-- Shape of a result of `detect_deadlock`: the state left behind, the ascending
list of deadlocked processes, all in range, and the flag set exactly when the list
is non-empty. -/
theorem detect_deadlock_shape (s s1 : SystemState) (r : DetectionResult)
    (h : detect_deadlock s = some (s1, r)) :
    s1 = calculate_need_matrix s ∧
      r.deadlocked_processes.Pairwise (fun a b => a < b) ∧
      (∀ p, p ∈ r.deadlocked_processes → p < s.num_processes.toNat) ∧
      (r.is_deadlocked = true ↔ r.deadlocked_processes ≠ []) := by
  obtain ⟨fin, -, -, -, hrun⟩ := detect_deadlock_run s
  rw [detect_deadlock_eq, hrun _ (le_refl _)] at h
  simp only [Option.some.injEq, Prod.mk.injEq] at h
  obtain ⟨h1, h2⟩ := h
  subst h2
  refine ⟨h1.symm, ?_, ?_, ?_⟩
  · exact List.Pairwise.filter _ (List.pairwise_lt_range _)
  · intro p hp
    exact List.mem_range.1 (List.mem_filter.1 hp).1
  · show (!(unfinished s fin.finish).isEmpty) = true ↔ unfinished s fin.finish ≠ []
    cases unfinished s fin.finish <;> simp

/-! ## Closed forms of the two release loops -/

theorem apply_victim_fold (s : SystemState) (v n : Nat) :
    (List.range n).foldl (fun st j =>
        { st with
          available := upd st.available j (wrap_int (st.available j + st.allocation v j))
          allocation := upd2 st.allocation v j 0
          max_need := upd2 st.max_need v j 0 }) s
      = { s with
          available := fun j => if j < n then wrap_int (s.available j + s.allocation v j) else s.available j
          allocation := fun a b => if a = v ∧ b < n then 0 else s.allocation a b
          max_need := fun a b => if a = v ∧ b < n then 0 else s.max_need a b } := by
  induction n with
  | zero => simp
  | succ n ih =>
    rw [List.range_succ, List.foldl_append, ih]
    simp only [List.foldl_cons, List.foldl_nil]
    congr 1
    · funext j
      simp only [upd_apply]
      by_cases hj : j = n
      · subst hj
        simp
      · have h1 : (j < n + 1) = (j < n) := by
          apply propext
          omega
        simp [hj, h1]
    · funext a b
      rw [upd2_apply]
      by_cases ha : a = v ∧ b = n
      · simp [ha]
      · have h1 : (a = v ∧ b < n + 1) = (a = v ∧ b < n) := by
          apply propext
          constructor
          · rintro ⟨h2, h3⟩
            exact ⟨h2, by
              have : b ≠ n := fun hb => ha ⟨h2, hb⟩
              omega⟩
          · rintro ⟨h2, h3⟩
            exact ⟨h2, by omega⟩
        simp [ha, h1]
    · funext a b
      rw [upd2_apply]
      by_cases ha : a = v ∧ b = n
      · simp [ha]
      · have h1 : (a = v ∧ b < n + 1) = (a = v ∧ b < n) := by
          apply propext
          constructor
          · rintro ⟨h2, h3⟩
            exact ⟨h2, by
              have : b ≠ n := fun hb => ha ⟨h2, hb⟩
              omega⟩
          · rintro ⟨h2, h3⟩
            exact ⟨h2, by omega⟩
        simp [ha, h1]

/-- Closed form of `apply_victim`. -/
theorem apply_victim_eq (s : SystemState) (v : Nat) :
    apply_victim s v
      = { s with
          available := fun j =>
            if j < s.num_resources.toNat then wrap_int (s.available j + s.allocation v j)
            else s.available j
          allocation := fun a b =>
            if a = v ∧ b < s.num_resources.toNat then 0 else s.allocation a b
          max_need := fun a b =>
            if a = v ∧ b < s.num_resources.toNat then 0 else s.max_need a b } :=
  apply_victim_fold s v _

theorem resolve_release_fold (s : SystemState) (v n : Nat) :
    (List.range n).foldl (fun st j =>
        if st.allocation v j > 0 then
          { st with
            available := upd st.available j (wrap_int (st.available j + st.allocation v j))
            allocation := upd2 st.allocation v j 0
            max_need := upd2 st.max_need v j 0 }
        else st) s
      = { s with
          available := fun j =>
            if j < n ∧ s.allocation v j > 0 then wrap_int (s.available j + s.allocation v j)
            else s.available j
          allocation := fun a b =>
            if a = v ∧ b < n ∧ s.allocation v b > 0 then 0 else s.allocation a b
          max_need := fun a b =>
            if a = v ∧ b < n ∧ s.allocation v b > 0 then 0 else s.max_need a b } := by
  induction n with
  | zero => simp
  | succ n ih =>
    rw [List.range_succ, List.foldl_append, ih]
    simp only [List.foldl_cons, List.foldl_nil]
    have hlt : ¬ (n < n) := lt_irrefl n
    by_cases hpos : s.allocation v n > 0
    · simp only [lt_irrefl, false_and, and_false, if_false, if_pos hpos]
      congr 1
      · funext j
        simp only [upd_apply]
        by_cases hj : j = n
        · subst hj
          simp [hpos]
        · have h1 : (j < n + 1) = (j < n) := by
            apply propext
            omega
          simp [hj, h1]
      · funext a b
        rw [upd2_apply]
        by_cases ha : a = v ∧ b = n
        · obtain ⟨ha1, ha2⟩ := ha
          subst ha1 ha2
          simp [hpos]
        · by_cases hb : b = n
          · have hav : a ≠ v := fun h => ha ⟨h, hb⟩
            simp [hav, hb]
          · have h1 : (b < n + 1) = (b < n) := by
              apply propext
              omega
            simp [hb, h1]
      · funext a b
        rw [upd2_apply]
        by_cases ha : a = v ∧ b = n
        · obtain ⟨ha1, ha2⟩ := ha
          subst ha1 ha2
          simp [hpos]
        · by_cases hb : b = n
          · have hav : a ≠ v := fun h => ha ⟨h, hb⟩
            simp [hav, hb]
          · have h1 : (b < n + 1) = (b < n) := by
              apply propext
              omega
            simp [hb, h1]
    · simp only [lt_irrefl, false_and, and_false, if_false, if_neg hpos]
      congr 1
      · funext j
        by_cases hj : j = n
        · subst hj
          simp [hpos]
        · have h1 : (j < n + 1) = (j < n) := by
            apply propext
            omega
          simp [h1]
      · funext a b
        by_cases hb : b = n
        · subst hb
          simp [hpos]
        · have h1 : (b < n + 1) = (b < n) := by
            apply propext
            omega
          simp [h1]
      · funext a b
        by_cases hb : b = n
        · subst hb
          simp [hpos]
        · have h1 : (b < n + 1) = (b < n) := by
            apply propext
            omega
          simp [h1]

/-- Closed form of the release loop of `resolve_deadlock`. -/
theorem resolve_release_eq (s : SystemState) (v : Nat) :
    resolve_release s v
      = { s with
          available := fun j =>
            if j < s.num_resources.toNat ∧ s.allocation v j > 0
            then wrap_int (s.available j + s.allocation v j) else s.available j
          allocation := fun a b =>
            if a = v ∧ b < s.num_resources.toNat ∧ s.allocation v b > 0 then 0
            else s.allocation a b
          max_need := fun a b =>
            if a = v ∧ b < s.num_resources.toNat ∧ s.allocation v b > 0 then 0
            else s.max_need a b } :=
  resolve_release_fold s v _

/-! ## The exit paths of `cmd_resolve` -/

theorem any_victim_iff (l : List Nat) (ov : Int) (h0 : 0 ≤ ov) :
    l.any (fun p => decide ((p : Int) = ov)) = true ↔ ov.toNat ∈ l := by
  rw [List.any_eq_true]
  constructor
  · rintro ⟨p, hp, hd⟩
    have : (p : Int) = ov := of_decide_eq_true hd
    have hp2 : ov.toNat = p := by omega
    rw [hp2]
    exact hp
  · intro h
    exact ⟨ov.toNat, h, decide_eq_true (by omega)⟩

/-- The exit paths of `cmd_resolve`, one disjunct per `return` and per way of
choosing the victim. -/
theorem cmd_resolve_cases (s : SystemState) (ov : Int) :
    ∃ r, detect_deadlock s = some (calculate_need_matrix s, r) ∧
      ((r.is_deadlocked = false ∧
          cmd_resolve s ov = some (calculate_need_matrix s,
            .error "State is not deadlocked; resolution not applicable.")) ∨
        (r.is_deadlocked = true ∧ ov < 0 ∧ ∃ r2,
          detect_deadlock (apply_victim (calculate_need_matrix s)
              (pick_victim (calculate_need_matrix s) r))
            = some (calculate_need_matrix (apply_victim (calculate_need_matrix s)
                (pick_victim (calculate_need_matrix s) r)), r2) ∧
          cmd_resolve s ov
            = some (calculate_need_matrix (apply_victim (calculate_need_matrix s)
                (pick_victim (calculate_need_matrix s) r)),
              .resolved r2 (pick_victim (calculate_need_matrix s) r : Nat))) ∨
        (r.is_deadlocked = true ∧ 0 ≤ ov ∧ ov.toNat ∉ r.deadlocked_processes ∧
          cmd_resolve s ov = some (calculate_need_matrix s,
            .error "Invalid or non-deadlocked victim_process_index.")) ∨
        (r.is_deadlocked = true ∧ 0 ≤ ov ∧ ov.toNat ∈ r.deadlocked_processes ∧ ∃ r2,
          detect_deadlock (apply_victim (calculate_need_matrix s) ov.toNat)
            = some (calculate_need_matrix (apply_victim (calculate_need_matrix s) ov.toNat), r2) ∧
          cmd_resolve s ov
            = some (calculate_need_matrix (apply_victim (calculate_need_matrix s) ov.toNat),
              .resolved r2 ov))) := by
  obtain ⟨r, hs, hc⟩ := detect_deadlock_calculate s
  obtain ⟨-, -, hlt, hflag⟩ := detect_deadlock_shape s _ r hs
  refine ⟨r, hs, ?_⟩
  unfold cmd_resolve
  dsimp only
  rw [hc]
  dsimp only
  by_cases hd : r.is_deadlocked = true
  · right
    have hne := hflag.1 hd
    have hlen : r.deadlocked_processes.length ≠ 0 := by
      intro h0
      exact hne (List.length_eq_zero.1 h0)
    have hcond : (!r.is_deadlocked || r.deadlocked_processes.length == 0) = false := by
      simp [hd, hlen]
    rw [hcond]
    simp only [Bool.false_eq_true, if_false]
    by_cases hov : ov < 0
    · left
      refine ⟨hd, hov, ?_⟩
      obtain ⟨r2, hr2, -⟩ := detect_deadlock_calculate
        (apply_victim (calculate_need_matrix s) (pick_victim (calculate_need_matrix s) r))
      refine ⟨r2, hr2, ?_⟩
      rw [if_pos hov]
      dsimp only
      rw [Int.toNat_ofNat, hr2]
    · right
      have h0 : 0 ≤ ov := by omega
      rw [if_neg hov]
      by_cases hmem : ov.toNat ∈ r.deadlocked_processes
      · right
        refine ⟨hd, h0, hmem, ?_⟩
        obtain ⟨r2, hr2, -⟩ := detect_deadlock_calculate
          (apply_victim (calculate_need_matrix s) ov.toNat)
        refine ⟨r2, hr2, ?_⟩
        have hany := (any_victim_iff r.deadlocked_processes ov h0).2 hmem
        have hlt2 := hlt _ hmem
        have hnp : ¬ ov ≥ (calculate_need_matrix s).num_processes := by
          rw [calculate_need_matrix_num_processes]
          omega
        simp only [hany, hov, hnp, decide_False, Bool.not_true, Bool.or_self, Bool.false_eq_true,
          if_false]
        rw [hr2]
      · left
        refine ⟨hd, h0, hmem, ?_⟩
        have hany : r.deadlocked_processes.any (fun p => decide ((p : Int) = ov)) = false := by
          rw [Bool.eq_false_iff]
          exact fun h => hmem ((any_victim_iff r.deadlocked_processes ov h0).1 h)
        simp only [hany, Bool.not_false, Bool.true_or, if_true]
  · left
    have hd2 : r.is_deadlocked = false := by simpa using hd
    refine ⟨hd2, ?_⟩
    simp [hd2]

theorem detect_deadlock_of_result (s : SystemState) (res : DetectionResult)
    (h : (detect_deadlock s).map Prod.snd = some res) :
    detect_deadlock s = some (calculate_need_matrix s, res) := by
  obtain ⟨r, hs, -⟩ := detect_deadlock_calculate s
  rw [hs] at h
  simp only [Option.map_some', Option.some.injEq] at h
  rw [hs, h]

theorem pick_victim_calculate (s : SystemState) (res : DetectionResult) :
    pick_victim (calculate_need_matrix s) res = pick_victim s res := by
  unfold pick_victim
  rw [calculate_need_matrix_num_resources, calculate_need_matrix_allocation]

/-! ## Resolution -/

/-- Claim C13, counterexample. In a deadlocked state with allocation rows
`[INT_MAX, 1]` and `[1, 0]`, `pick_victim` and the selection loop of
`resolve_deadlock` choose process 0, whose row sum is the larger one: the `int`
total of its row wraps to `INT_MIN`. -/
theorem victim_selection_wraps :
    (detect_deadlock overflow_row_state).map Prod.snd
      = some { is_deadlocked := true, deadlocked_processes := [0, 1], safe_sequence := [] } ∧
    pick_victim overflow_row_state ⟨true, [0, 1], []⟩ = 0 ∧
    resolve_select overflow_row_state ⟨true, [0, 1], []⟩ = 0 ∧
    row_sum overflow_row_state 1 < row_sum overflow_row_state 0 := by
  decide

/-- Claim C13, amended. For every deadlocked result of `detect_deadlock` on a state
in which the allocation row of every process fits in an `int`, `pick_victim` and
the selection loop of `resolve_deadlock` choose the same process `v`: it is a
member of `deadlocked_processes`, its allocation row sum is at most that of every
deadlocked process, and every deadlocked process with a smaller index has a
strictly larger row sum; `cmd_resolve` without a supplied victim reports `v`, and
`resolve_deadlock` releases `v`. On scenario B the victim is process 3. -/
theorem victim_selection (s : SystemState) (res : DetectionResult) (hR : RowFits s)
    (hdet : (detect_deadlock s).map Prod.snd = some res) (hdl : res.is_deadlocked = true) :
    resolve_select (calculate_need_matrix s) res = pick_victim (calculate_need_matrix s) res ∧
    pick_victim (calculate_need_matrix s) res ∈ res.deadlocked_processes ∧
    (∀ p, p ∈ res.deadlocked_processes →
      row_sum s (pick_victim (calculate_need_matrix s) res) ≤ row_sum s p) ∧
    (∀ p, p ∈ res.deadlocked_processes → p < pick_victim (calculate_need_matrix s) res →
      row_sum s (pick_victim (calculate_need_matrix s) res) < row_sum s p) ∧
    (∀ ov : Int, ov < 0 → ∃ s2 r2, cmd_resolve s ov
      = some (s2, .resolved r2 (pick_victim (calculate_need_matrix s) res : Nat))) ∧
    resolve_deadlock (calculate_need_matrix s) res
      = detect_deadlock (resolve_release (calculate_need_matrix s)
          (pick_victim (calculate_need_matrix s) res)) ∧
    (detect_deadlock scenario_B).map (fun out => pick_victim out.1 out.2) = some 3 := by
  have hfull := detect_deadlock_of_result s res hdet
  obtain ⟨-, hsorted, hlt, hflag⟩ := detect_deadlock_shape s _ res hfull
  have hne := hflag.1 hdl
  obtain ⟨hmem, hmin, hfirst⟩ := pick_victim_spec s res hne hsorted
  have hsum : ∀ p, p ∈ res.deadlocked_processes → row_total s p = row_sum s p :=
    fun p hp => row_total_eq_row_sum s p (hR p (hlt p hp))
  rw [pick_victim_calculate]
  refine ⟨?_, hmem, ?_, ?_, ?_, ?_, by decide⟩
  · rw [resolve_select_eq, pick_victim_calculate]
  · intro p hp
    rw [← hsum p hp, ← hsum _ hmem]
    exact hmin p hp
  · intro p hp hlt2
    rw [← hsum p hp, ← hsum _ hmem]
    exact hfirst p hp hlt2
  · intro ov hov
    obtain ⟨r, hr, hcases⟩ := cmd_resolve_cases s ov
    rw [hfull] at hr
    simp only [Option.some.injEq, Prod.mk.injEq, true_and] at hr
    subst hr
    rcases hcases with ⟨hf, -⟩ | ⟨-, -, r2, -, h⟩ | ⟨-, h0, -⟩ | ⟨-, h0, -⟩
    · rw [hdl] at hf
      exact absurd hf (by decide)
    · rw [pick_victim_calculate] at h
      exact ⟨_, _, h⟩
    · omega
    · omega
  · have hlen : res.deadlocked_processes.length ≠ 0 := by
      intro h0
      exact hne (List.length_eq_zero.1 h0)
    have hcond : (!res.is_deadlocked || res.deadlocked_processes.length == 0) = false := by
      simp [hdl, hlen]
    unfold resolve_deadlock
    rw [hcond]
    simp only [Bool.false_eq_true, if_false]
    rw [resolve_select_eq, pick_victim_calculate]

theorem victim_selection_witness :
    (RowFits scenario_B ∧
      (detect_deadlock scenario_B).map Prod.snd = some ⟨true, [0, 1, 2, 3], []⟩ ∧
      (⟨true, [0, 1, 2, 3], []⟩ : DetectionResult).is_deadlocked = true) ∧
    pick_victim (calculate_need_matrix scenario_B) ⟨true, [0, 1, 2, 3], []⟩
      ∈ (⟨true, [0, 1, 2, 3], []⟩ : DetectionResult).deadlocked_processes :=
  ⟨by decide, (victim_selection scenario_B ⟨true, [0, 1, 2, 3], []⟩ (by decide) (by decide)
    (by decide)).2.1⟩

theorem apply_victim_calculate (s : SystemState) (v : Nat) :
    (apply_victim (calculate_need_matrix s) v).num_processes = s.num_processes ∧
    (apply_victim (calculate_need_matrix s) v).num_resources = s.num_resources ∧
    (apply_victim (calculate_need_matrix s) v).available = (apply_victim s v).available ∧
    (apply_victim (calculate_need_matrix s) v).allocation = (apply_victim s v).allocation ∧
    (apply_victim (calculate_need_matrix s) v).max_need = (apply_victim s v).max_need := by
  rw [apply_victim_eq, apply_victim_eq]
  simp only [calculate_need_matrix_num_processes, calculate_need_matrix_num_resources,
    calculate_need_matrix_available, calculate_need_matrix_allocation,
    calculate_need_matrix_max_need, and_self]

theorem apply_victim_num_processes (s : SystemState) (v : Nat) :
    (apply_victim s v).num_processes = s.num_processes := by
  rw [apply_victim_eq]

theorem apply_victim_num_resources (s : SystemState) (v : Nat) :
    (apply_victim s v).num_resources = s.num_resources := by
  rw [apply_victim_eq]

theorem apply_victim_available (s : SystemState) (v j : Nat) (hj : j < s.num_resources.toNat) :
    (apply_victim s v).available j = wrap_int (s.available j + s.allocation v j) := by
  rw [apply_victim_eq]
  simp [hj]

/-- Releasing the row of a process does not leave the `int` range while the units
of every resource fit in an `int`. -/
theorem isInt_release (s : SystemState) (hW : WorkFits s) (v j : Nat)
    (hv : v < s.num_processes.toNat) (hj : j < s.num_resources.toNat) :
    IsInt (s.available j + s.allocation v j) :=
  replay_work_isInt s hW [v] (List.nodup_singleton v)
    (fun i hi => by rw [List.mem_singleton.1 hi]; exact hv) j hj

theorem apply_victim_available_exact (s : SystemState) (hW : WorkFits s) (v j : Nat)
    (hv : v < s.num_processes.toNat) (hj : j < s.num_resources.toNat) :
    (apply_victim s v).available j = s.available j + s.allocation v j := by
  rw [apply_victim_available s v j hj, wrap_int_of_isInt _ (isInt_release s hW v j hv hj)]

theorem apply_victim_allocation (s : SystemState) (v p j : Nat)
    (hj : j < s.num_resources.toNat) :
    (apply_victim s v).allocation p j = if p = v then 0 else s.allocation p j := by
  rw [apply_victim_eq]
  simp [hj]

theorem apply_victim_max_need (s : SystemState) (v p j : Nat)
    (hj : j < s.num_resources.toNat) :
    (apply_victim s v).max_need p j = if p = v then 0 else s.max_need p j := by
  rw [apply_victim_eq]
  simp [hj]

/-- What a successful `cmd_resolve` leaves behind: the state `apply_victim` produces
for the reported victim (with the need matrix recomputed) and the detection result
of that state. -/
theorem cmd_resolve_resolved (s : SystemState) (res : DetectionResult) (ov : Int)
    (hdet : (detect_deadlock s).map Prod.snd = some res) (hdl : res.is_deadlocked = true)
    (hov : ov < 0 ∨ ov.toNat ∈ res.deadlocked_processes) :
    ∃ s2 r2 v, cmd_resolve s ov = some (s2, .resolved r2 (v : Nat)) ∧
      v ∈ res.deadlocked_processes ∧
      (ov < 0 → v = pick_victim (calculate_need_matrix s) res) ∧
      (0 ≤ ov → (v : Int) = ov) ∧
      s2.num_processes = s.num_processes ∧ s2.num_resources = s.num_resources ∧
      s2.available = (apply_victim s v).available ∧
      s2.allocation = (apply_victim s v).allocation ∧
      s2.max_need = (apply_victim s v).max_need ∧
      (detect_deadlock (apply_victim s v)).map Prod.snd = some r2 := by
  have hfull := detect_deadlock_of_result s res hdet
  obtain ⟨-, hsorted, -, hflag⟩ := detect_deadlock_shape s _ res hfull
  have hne := hflag.1 hdl
  obtain ⟨r, hr, hcases⟩ := cmd_resolve_cases s ov
  rw [hfull] at hr
  simp only [Option.some.injEq, Prod.mk.injEq, true_and] at hr
  subst hr
  have hfields : ∀ v : Nat,
      (calculate_need_matrix (apply_victim (calculate_need_matrix s) v)).num_processes
          = s.num_processes ∧
        (calculate_need_matrix (apply_victim (calculate_need_matrix s) v)).num_resources
          = s.num_resources ∧
        (calculate_need_matrix (apply_victim (calculate_need_matrix s) v)).available
          = (apply_victim s v).available ∧
        (calculate_need_matrix (apply_victim (calculate_need_matrix s) v)).allocation
          = (apply_victim s v).allocation ∧
        (calculate_need_matrix (apply_victim (calculate_need_matrix s) v)).max_need
          = (apply_victim s v).max_need := by
    intro v
    obtain ⟨h1, h2, h3, h4, h5⟩ := apply_victim_calculate s v
    rw [calculate_need_matrix_num_processes, calculate_need_matrix_num_resources,
      calculate_need_matrix_available, calculate_need_matrix_allocation,
      calculate_need_matrix_max_need]
    exact ⟨h1, h2, h3, h4, h5⟩
  have hres : ∀ (v : Nat) (r2 : DetectionResult),
      detect_deadlock (apply_victim (calculate_need_matrix s) v)
          = some (calculate_need_matrix (apply_victim (calculate_need_matrix s) v), r2) →
        (detect_deadlock (apply_victim s v)).map Prod.snd = some r2 := by
    intro v r2 h
    obtain ⟨h1, h2, h3, h4, h5⟩ := apply_victim_calculate s v
    rw [← detect_deadlock_congr (apply_victim s v) (apply_victim (calculate_need_matrix s) v)
      (by rw [h1, apply_victim_num_processes]) (by rw [h2, apply_victim_num_resources])
      h3 h4 h5, h]
    rfl
  rcases hcases with ⟨hf, -⟩ | ⟨-, hneg, r2, hr2, h⟩ | ⟨-, h0, hnot, -⟩ | ⟨-, h0, hmem, r2, hr2, h⟩
  · rw [hdl] at hf
    exact absurd hf (by decide)
  · obtain ⟨h1, h2, h3, h4, h5⟩ := hfields (pick_victim (calculate_need_matrix s) res)
    refine ⟨_, r2, pick_victim (calculate_need_matrix s) res, h, ?_, fun _ => rfl,
      fun h0 => by omega, h1, h2, h3, h4, h5, hres _ _ hr2⟩
    rw [pick_victim_calculate]
    exact (pick_victim_spec s res hne hsorted).1
  · rcases hov with hov | hov
    · omega
    · exact absurd hov hnot
  · obtain ⟨h1, h2, h3, h4, h5⟩ := hfields ov.toNat
    have hcast : ((ov.toNat : Nat) : Int) = ov := Int.toNat_of_nonneg h0
    refine ⟨_, r2, ov.toNat, ?_, hmem, fun hneg => by omega, fun _ => hcast,
      h1, h2, h3, h4, h5, hres _ _ hr2⟩
    rw [hcast]
    exact h

/-- Claim C14. After `cmd_resolve` has applied a victim `v` on a deadlocked state
(the victim chosen by `pick_victim`, or a supplied member of the deadlocked set),
`allocation[v][r] = 0` and `max_need[v][r] = 0` for every resource
`r < num_resources`. -/
theorem cmd_resolve_victim_zeroed (s : SystemState) (res : DetectionResult) (ov : Int)
    (hdet : (detect_deadlock s).map Prod.snd = some res) (hdl : res.is_deadlocked = true)
    (hov : ov < 0 ∨ ov.toNat ∈ res.deadlocked_processes) :
    ∃ s2 r2 v, cmd_resolve s ov = some (s2, .resolved r2 (v : Nat)) ∧
      ∀ r, r < s.num_resources.toNat → s2.allocation v r = 0 ∧ s2.max_need v r = 0 := by
  obtain ⟨s2, r2, v, h, -, -, -, -, -, -, hal, hmx, -⟩ := cmd_resolve_resolved s res ov hdet hdl hov
  refine ⟨s2, r2, v, h, ?_⟩
  intro r hr
  rw [hal, hmx, apply_victim_allocation s v v r hr, apply_victim_max_need s v v r hr]
  simp

theorem cmd_resolve_victim_zeroed_witness :
    ((detect_deadlock scenario_B).map Prod.snd = some ⟨true, [0, 1, 2, 3], []⟩ ∧
      (⟨true, [0, 1, 2, 3], []⟩ : DetectionResult).is_deadlocked = true ∧
      ((-1 : Int) < 0 ∨
        (-1 : Int).toNat ∈ (⟨true, [0, 1, 2, 3], []⟩ : DetectionResult).deadlocked_processes)) ∧
    ∃ s2 r2 v, cmd_resolve scenario_B (-1) = some (s2, .resolved r2 (v : Nat)) ∧
      ∀ r, r < scenario_B.num_resources.toNat → s2.allocation v r = 0 ∧ s2.max_need v r = 0 :=
  ⟨by decide, cmd_resolve_victim_zeroed scenario_B ⟨true, [0, 1, 2, 3], []⟩ (-1)
    (by decide) (by decide) (by decide)⟩

/-- Claim C15, the code at the failing input. On scenario B `resolve_deadlock`
selects process 3, whose allocation row is `1, 0, 0` and maximum row `2, 1, 1`;
after the call `max_need[3][1]` and `max_need[3][2]` are still `1`, because the
release loop skips every resource with `allocation[3][j] = 0`. `cmd_resolve` on
the same state leaves `max_need[3][1] = 0`. -/
theorem resolve_deadlock_keeps_max_need :
    resolve_select scenario_B ⟨true, [0, 1, 2, 3], []⟩ = 3 ∧
      (resolve_deadlock scenario_B ⟨true, [0, 1, 2, 3], []⟩).map
          (fun out => (List.range 3).map (fun j => (out.1.allocation 3 j, out.1.max_need 3 j)))
        = some [(0, 0), (0, 1), (0, 1)] ∧
      (cmd_resolve scenario_B (-1)).map
          (fun out => (List.range 3).map (fun j => (out.1.allocation 3 j, out.1.max_need 3 j)))
        = some [(0, 0), (0, 0), (0, 0)] := by
  decide

theorem sum_zero_at (f : Nat → Int) (n v : Nat) (hv : v < n) :
    ∑ p in Finset.range n, (if p = v then 0 else f p) = (∑ p in Finset.range n, f p) - f v := by
  rw [← Finset.add_sum_erase _ f (Finset.mem_range.2 hv),
    ← Finset.add_sum_erase _ (fun p => if p = v then 0 else f p) (Finset.mem_range.2 hv)]
  have hrest : ∑ p in (Finset.range n).erase v, (if p = v then 0 else f p)
      = ∑ p in (Finset.range n).erase v, f p := by
    refine Finset.sum_congr rfl ?_
    intro p hp
    rw [if_neg (Finset.ne_of_mem_erase hp)]
  rw [hrest]
  simp

theorem resolve_release_calculate (s : SystemState) (v : Nat) :
    (resolve_release (calculate_need_matrix s) v).num_processes = s.num_processes ∧
    (resolve_release (calculate_need_matrix s) v).num_resources = s.num_resources ∧
    (resolve_release (calculate_need_matrix s) v).available = (resolve_release s v).available ∧
    (resolve_release (calculate_need_matrix s) v).allocation = (resolve_release s v).allocation ∧
    (resolve_release (calculate_need_matrix s) v).max_need = (resolve_release s v).max_need := by
  rw [resolve_release_eq, resolve_release_eq]
  simp only [calculate_need_matrix_num_processes, calculate_need_matrix_num_resources,
    calculate_need_matrix_available, calculate_need_matrix_allocation,
    calculate_need_matrix_max_need, and_self]

/-- What `resolve_deadlock` leaves behind on a deadlocked result of
`detect_deadlock`: the state of its release loop for the selected victim (need
matrix recomputed) and the detection result of that state. -/
theorem resolve_deadlock_resolved (s : SystemState) (res : DetectionResult)
    (hdet : (detect_deadlock s).map Prod.snd = some res) (hdl : res.is_deadlocked = true) :
    ∃ s2 r2, resolve_deadlock (calculate_need_matrix s) res = some (s2, r2) ∧
      pick_victim s res ∈ res.deadlocked_processes ∧
      pick_victim s res < s.num_processes.toNat ∧
      s2.num_processes = s.num_processes ∧ s2.num_resources = s.num_resources ∧
      s2.available = (resolve_release s (pick_victim s res)).available ∧
      s2.allocation = (resolve_release s (pick_victim s res)).allocation ∧
      s2.max_need = (resolve_release s (pick_victim s res)).max_need ∧
      (detect_deadlock (resolve_release s (pick_victim s res))).map Prod.snd = some r2 := by
  have hfull := detect_deadlock_of_result s res hdet
  obtain ⟨-, hsorted, hlt, hflag⟩ := detect_deadlock_shape s _ res hfull
  have hne := hflag.1 hdl
  have hmem := (pick_victim_spec s res hne hsorted).1
  have hlen : res.deadlocked_processes.length ≠ 0 := by
    intro h0
    exact hne (List.length_eq_zero.1 h0)
  have hcond : (!res.is_deadlocked || res.deadlocked_processes.length == 0) = false := by
    simp [hdl, hlen]
  obtain ⟨r2, hr2, -⟩ := detect_deadlock_calculate
    (resolve_release (calculate_need_matrix s) (pick_victim s res))
  obtain ⟨h1, h2, h3, h4, h5⟩ := resolve_release_calculate s (pick_victim s res)
  refine ⟨calculate_need_matrix (resolve_release (calculate_need_matrix s) (pick_victim s res)),
    r2, ?_, hmem, hlt _ hmem, ?_, ?_, ?_, ?_, ?_, ?_⟩
  · unfold resolve_deadlock
    rw [hcond]
    simp only [Bool.false_eq_true, if_false]
    rw [resolve_select_eq, pick_victim_calculate]
    exact hr2
  · rw [calculate_need_matrix_num_processes, h1]
  · rw [calculate_need_matrix_num_resources, h2]
  · rw [calculate_need_matrix_available, h3]
  · rw [calculate_need_matrix_allocation, h4]
  · rw [calculate_need_matrix_max_need, h5]
  · rw [← detect_deadlock_congr (resolve_release s (pick_victim s res))
      (resolve_release (calculate_need_matrix s) (pick_victim s res))
      (by rw [h1, resolve_release_eq]) (by rw [h2, resolve_release_eq]) h3 h4 h5, hr2]
    rfl

/-- Claim C16, counterexample. On a deadlocked state with `allocation[0][0] = -1`
`resolve_deadlock` selects process 0 and leaves `available[0]` at `0`, whereas
`available[0]` before plus the victim's former allocation is `-1`. -/
theorem resolve_deadlock_skips_negative :
    (detect_deadlock negative_allocation_state).map Prod.snd = some ⟨true, [0], []⟩ ∧
      resolve_select negative_allocation_state ⟨true, [0], []⟩ = 0 ∧
      (resolve_deadlock negative_allocation_state ⟨true, [0], []⟩).map
          (fun out => out.1.available 0) = some 0 ∧
      negative_allocation_state.available 0 + negative_allocation_state.allocation 0 0 = -1 := by
  decide

/-- Claim C16, amended. For every deadlocked result of `detect_deadlock` on a state
whose resource units fit in an `int`, and every resource `r < num_resources`: after
`cmd_resolve` (victim `v` chosen or supplied), `available[r]` is `available[r]` before plus the victim's former `allocation[v][r]`;
after `resolve_deadlock` the same holds when that allocation is not negative, and
`available[r]` is unchanged when it is negative; in both cases
`available[r]` plus the sum of `allocation[p][r]` over all processes is the same
before and after. -/
theorem resolution_conserves_units (s : SystemState) (res : DetectionResult)
    (hW : WorkFits s)
    (hdet : (detect_deadlock s).map Prod.snd = some res) (hdl : res.is_deadlocked = true) :
    (∀ ov : Int, ov < 0 ∨ ov.toNat ∈ res.deadlocked_processes →
      ∃ s2 r2 v, cmd_resolve s ov = some (s2, .resolved r2 (v : Nat)) ∧
        ∀ r, r < s.num_resources.toNat →
          s2.available r = s.available r + s.allocation v r ∧
            resource_total s2 r = resource_total s r) ∧
    ∃ s2 r2, resolve_deadlock (calculate_need_matrix s) res = some (s2, r2) ∧
      ∀ r, r < s.num_resources.toNat →
        (0 ≤ s.allocation (resolve_select (calculate_need_matrix s) res) r →
          s2.available r
            = s.available r + s.allocation (resolve_select (calculate_need_matrix s) res) r) ∧
        (s.allocation (resolve_select (calculate_need_matrix s) res) r < 0 →
          s2.available r = s.available r) ∧
        resource_total s2 r = resource_total s r := by
  have hfull := detect_deadlock_of_result s res hdet
  obtain ⟨-, -, hlt, -⟩ := detect_deadlock_shape s _ res hfull
  constructor
  · intro ov hov
    obtain ⟨s2, r2, v, h, hmem, -, -, hnp, -, hav, hal, -, -⟩ :=
      cmd_resolve_resolved s res ov hdet hdl hov
    refine ⟨s2, r2, v, h, ?_⟩
    intro r hr
    have havr := apply_victim_available_exact s hW v r (hlt v hmem) hr
    refine ⟨by rw [hav, havr], ?_⟩
    unfold resource_total
    rw [hnp, hav, hal, havr]
    have hsum : ∑ p in Finset.range s.num_processes.toNat, (apply_victim s v).allocation p r
        = ∑ p in Finset.range s.num_processes.toNat, (if p = v then 0 else s.allocation p r) :=
      Finset.sum_congr rfl (fun p _ => apply_victim_allocation s v p r hr)
    rw [hsum, sum_zero_at _ _ v (hlt v hmem)]
    ring
  · obtain ⟨s2, r2, h, hmem, hvlt, hnp, -, hav, hal, -, -⟩ :=
      resolve_deadlock_resolved s res hdet hdl
    refine ⟨s2, r2, h, ?_⟩
    rw [resolve_select_eq, pick_victim_calculate]
    intro r hr
    have havr : s2.available r =
        if s.allocation (pick_victim s res) r > 0
        then s.available r + s.allocation (pick_victim s res) r else s.available r := by
      rw [hav, resolve_release_eq]
      simp only [hr, true_and]
      rw [wrap_int_of_isInt _ (isInt_release s hW _ r hvlt hr)]
    have halr : ∀ p, s2.allocation p r =
        if p = pick_victim s res ∧ s.allocation (pick_victim s res) r > 0 then 0
        else s.allocation p r := by
      intro p
      rw [hal, resolve_release_eq]
      simp [hr]
    refine ⟨?_, ?_, ?_⟩
    · intro h0
      rw [havr]
      split_ifs with hpos
      · rfl
      · have : s.allocation (pick_victim s res) r = 0 := by omega
        rw [this]
        ring
    · intro hneg
      rw [havr, if_neg (by omega)]
    · unfold resource_total
      rw [hnp, havr]
      by_cases hpos : s.allocation (pick_victim s res) r > 0
      · rw [if_pos hpos]
        have hsum : ∑ p in Finset.range s.num_processes.toNat, s2.allocation p r
            = ∑ p in Finset.range s.num_processes.toNat,
                (if p = pick_victim s res then 0 else s.allocation p r) := by
          refine Finset.sum_congr rfl (fun p _ => ?_)
          rw [halr p]
          simp [hpos]
        rw [hsum, sum_zero_at _ _ _ hvlt]
        ring
      · rw [if_neg hpos]
        have hsum : ∑ p in Finset.range s.num_processes.toNat, s2.allocation p r
            = ∑ p in Finset.range s.num_processes.toNat, s.allocation p r := by
          refine Finset.sum_congr rfl (fun p _ => ?_)
          rw [halr p]
          simp [hpos]
        rw [hsum]

theorem resolution_conserves_units_witness :
    (WorkFits scenario_B ∧
      (detect_deadlock scenario_B).map Prod.snd = some ⟨true, [0, 1, 2, 3], []⟩ ∧
      (⟨true, [0, 1, 2, 3], []⟩ : DetectionResult).is_deadlocked = true) ∧
    ∃ s2 r2, resolve_deadlock (calculate_need_matrix scenario_B) ⟨true, [0, 1, 2, 3], []⟩
        = some (s2, r2) ∧
      ∀ r, r < scenario_B.num_resources.toNat →
        (0 ≤ scenario_B.allocation
            (resolve_select (calculate_need_matrix scenario_B) ⟨true, [0, 1, 2, 3], []⟩) r →
          s2.available r = scenario_B.available r + scenario_B.allocation
            (resolve_select (calculate_need_matrix scenario_B) ⟨true, [0, 1, 2, 3], []⟩) r) ∧
        (scenario_B.allocation
            (resolve_select (calculate_need_matrix scenario_B) ⟨true, [0, 1, 2, 3], []⟩) r < 0 →
          s2.available r = scenario_B.available r) ∧
        resource_total s2 r = resource_total scenario_B r :=
  ⟨by decide, (resolution_conserves_units scenario_B ⟨true, [0, 1, 2, 3], []⟩
    (by decide) (by decide) (by decide)).2⟩

/-- Claim C17. Resolution on a non-deadlocked state is a reported no-op: when
`detect_deadlock` on the state is not deadlocked, `cmd_resolve` emits the error
"State is not deadlocked; resolution not applicable." and leaves `available`,
`allocation` and `max_need` unchanged; and `resolve_deadlock` called with a result
whose `is_deadlocked` is false, or whose `num_deadlocked` is `0`, returns with the
state and the result unchanged. -/
theorem resolve_not_applicable (s : SystemState) (res : DetectionResult) (ov : Int)
    (hdet : (detect_deadlock s).map Prod.snd = some res) (hnd : res.is_deadlocked = false) :
    (∃ s2, cmd_resolve s ov
        = some (s2, .error "State is not deadlocked; resolution not applicable.") ∧
      s2.available = s.available ∧ s2.allocation = s.allocation ∧
      s2.max_need = s.max_need) ∧
    ∀ (st : SystemState) (result : DetectionResult),
      result.is_deadlocked = false ∨ result.deadlocked_processes.length = 0 →
        resolve_deadlock st result = some (st, result) := by
  constructor
  · have hfull := detect_deadlock_of_result s res hdet
    obtain ⟨r, hr, hcases⟩ := cmd_resolve_cases s ov
    rw [hfull] at hr
    simp only [Option.some.injEq, Prod.mk.injEq, true_and] at hr
    subst hr
    rcases hcases with ⟨-, h⟩ | ⟨hd, -⟩ | ⟨hd, -⟩ | ⟨hd, -⟩
    · exact ⟨_, h, calculate_need_matrix_available s, calculate_need_matrix_allocation s,
        calculate_need_matrix_max_need s⟩
    · rw [hnd] at hd
      exact absurd hd (by decide)
    · rw [hnd] at hd
      exact absurd hd (by decide)
    · rw [hnd] at hd
      exact absurd hd (by decide)
  · intro st result h
    have hcond : (!result.is_deadlocked || result.deadlocked_processes.length == 0) = true := by
      rcases h with h | h
      · simp [h]
      · simp [h]
    unfold resolve_deadlock
    rw [if_pos hcond]

theorem resolve_not_applicable_witness :
    ((detect_deadlock scenario_A).map Prod.snd = some ⟨false, [], [1, 3, 4, 0, 2]⟩ ∧
      (⟨false, [], [1, 3, 4, 0, 2]⟩ : DetectionResult).is_deadlocked = false) ∧
    ∃ s2, cmd_resolve scenario_A (-1)
        = some (s2, .error "State is not deadlocked; resolution not applicable.") ∧
      s2.available = scenario_A.available ∧ s2.allocation = scenario_A.allocation ∧
      s2.max_need = scenario_A.max_need :=
  ⟨by decide, (resolve_not_applicable scenario_A ⟨false, [], [1, 3, 4, 0, 2]⟩ (-1)
    (by decide) (by decide)).1⟩

/-- Claim C18. For every deadlocked state and every supplied victim index `>= 0`:
if the index is not a member of `deadlocked_processes` (in particular if it is
`>= num_processes`), `cmd_resolve` reports the error
"Invalid or non-deadlocked victim_process_index." and leaves `available`,
`allocation` and `max_need` unchanged; if it is a member, that exact index is the
victim reported and the one `apply_victim` was applied to. -/
theorem cmd_resolve_supplied_victim (s : SystemState) (res : DetectionResult) (ov : Int)
    (hdet : (detect_deadlock s).map Prod.snd = some res) (hdl : res.is_deadlocked = true)
    (h0 : 0 ≤ ov) :
    (ov.toNat ∉ res.deadlocked_processes →
      ∃ s2, cmd_resolve s ov
          = some (s2, .error "Invalid or non-deadlocked victim_process_index.") ∧
        s2.available = s.available ∧ s2.allocation = s.allocation ∧
        s2.max_need = s.max_need) ∧
    (ov ≥ s.num_processes → ov.toNat ∉ res.deadlocked_processes) ∧
    (ov.toNat ∈ res.deadlocked_processes →
      ∃ s2 r2, cmd_resolve s ov = some (s2, .resolved r2 ov) ∧
        s2.available = (apply_victim s ov.toNat).available ∧
        s2.allocation = (apply_victim s ov.toNat).allocation ∧
        s2.max_need = (apply_victim s ov.toNat).max_need ∧
        (detect_deadlock (apply_victim s ov.toNat)).map Prod.snd = some r2) := by
  have hfull := detect_deadlock_of_result s res hdet
  obtain ⟨-, -, hlt, -⟩ := detect_deadlock_shape s _ res hfull
  refine ⟨?_, ?_, ?_⟩
  · intro hnot
    obtain ⟨r, hr, hcases⟩ := cmd_resolve_cases s ov
    rw [hfull] at hr
    simp only [Option.some.injEq, Prod.mk.injEq, true_and] at hr
    subst hr
    rcases hcases with ⟨hf, -⟩ | ⟨-, hneg, -⟩ | ⟨-, -, -, h⟩ | ⟨-, -, hmem, -⟩
    · rw [hdl] at hf
      exact absurd hf (by decide)
    · omega
    · exact ⟨_, h, calculate_need_matrix_available s, calculate_need_matrix_allocation s,
        calculate_need_matrix_max_need s⟩
    · exact absurd hmem hnot
  · intro hge hmem
    have := hlt _ hmem
    omega
  · intro hmem
    obtain ⟨s2, r2, v, h, -, -, hv, -, -, hav, hal, hmx, hres⟩ :=
      cmd_resolve_resolved s res ov hdet hdl (Or.inr hmem)
    have hv0 := hv h0
    have hveq : v = ov.toNat := by omega
    subst hveq
    rw [hv0] at h
    exact ⟨s2, r2, h, hav, hal, hmx, hres⟩

theorem cmd_resolve_supplied_victim_witness :
    ((detect_deadlock scenario_B).map Prod.snd = some ⟨true, [0, 1, 2, 3], []⟩ ∧
      (⟨true, [0, 1, 2, 3], []⟩ : DetectionResult).is_deadlocked = true ∧ (0 : Int) ≤ 7) ∧
    ((7 : Int).toNat ∉ (⟨true, [0, 1, 2, 3], []⟩ : DetectionResult).deadlocked_processes →
      ∃ s2, cmd_resolve scenario_B 7
          = some (s2, .error "Invalid or non-deadlocked victim_process_index.") ∧
        s2.available = scenario_B.available ∧ s2.allocation = scenario_B.allocation ∧
        s2.max_need = scenario_B.max_need) :=
  ⟨by decide, (cmd_resolve_supplied_victim scenario_B ⟨true, [0, 1, 2, 3], []⟩ 7
    (by decide) (by decide) (by decide)).1⟩

/-! ## The graph built by `build_rag` -/

theorem zero_row_fold (rg : RAG) (i m : Nat) :
    (List.range m).foldl (fun rg j => { rg with adj_matrix := upd2 rg.adj_matrix i j 0 }) rg
      = { rg with adj_matrix := fun a b => if a = i ∧ b < m then 0 else rg.adj_matrix a b } := by
  induction m with
  | zero => simp
  | succ m ih =>
    rw [List.range_succ, List.foldl_append, ih]
    simp only [List.foldl_cons, List.foldl_nil]
    congr 1
    funext a b
    rw [upd2_apply]
    by_cases ha : a = i
    · by_cases hb : b = m
      · simp [ha, hb]
      · have h1 : (b < m + 1) = (b < m) := by
          apply propext
          omega
        simp [ha, hb, h1]
    · simp [ha]

theorem zero_fold (rg : RAG) (n m : Nat) :
    (List.range m).foldl (fun rg i =>
      (List.range n).foldl (fun rg j =>
        { rg with adj_matrix := upd2 rg.adj_matrix i j 0 }) rg) rg
      = { rg with adj_matrix := fun a b => if a < m ∧ b < n then 0 else rg.adj_matrix a b } := by
  induction m with
  | zero => simp
  | succ m ih =>
    rw [List.range_succ, List.foldl_append, ih]
    simp only [List.foldl_cons, List.foldl_nil]
    rw [zero_row_fold]
    congr 1
    funext a b
    by_cases ha : a = m
    · subst ha
      simp
    · have h1 : (a < m + 1) = (a < m) := by
        apply propext
        omega
      simp [ha, h1]

theorem build_rag_cell_eq (s : SystemState) (rg : RAG) (i j : Nat) :
    build_rag_cell s rg i j
      = { rg with
          edges := rg.edges ++ cell_edges s i j
          adj_matrix := write_all (cell_edges s i j) rg.adj_matrix } := by
  unfold build_rag_cell cell_edges write_all
  by_cases h1 : s.allocation i j > 0
  · by_cases h2 : s.need i j > 0
    · simp [h1, h2, edge_code]
    · simp [h1, h2, edge_code]
  · by_cases h2 : s.need i j > 0
    · simp [h1, h2, edge_code]
    · simp [h1, h2]

theorem write_all_append (es fs : List Edge) (adj : Nat → Nat → Int) :
    write_all (es ++ fs) adj = write_all fs (write_all es adj) := by
  unfold write_all
  rw [List.foldl_append]

/-- A loop whose body appends edges and makes the stores that go with them appends
the concatenation of all those edges. -/
theorem edges_fold {α : Type} (step : RAG → α → RAG) (E : α → List Edge)
    (hstep : ∀ rg x, step rg x
      = { rg with edges := rg.edges ++ E x, adj_matrix := write_all (E x) rg.adj_matrix })
    (l : List α) (rg : RAG) :
    l.foldl step rg
      = { rg with
          edges := rg.edges ++ l.flatMap E
          adj_matrix := write_all (l.flatMap E) rg.adj_matrix } := by
  induction l generalizing rg with
  | nil => simp [write_all]
  | cons x l ih =>
    simp only [List.foldl_cons, List.flatMap_cons]
    rw [ih, hstep, write_all_append]
    simp

/-- All edges `build_rag` appends, in order. -/
theorem build_rag_eq (s : SystemState) (rag : RAG) :
    build_rag s rag
      = { num_processes := s.num_processes
          num_resources := s.num_resources
          edges := (List.range s.num_processes.toNat).flatMap (fun i =>
            (List.range s.num_resources.toNat).flatMap (cell_edges s i))
          adj_matrix := write_all
            ((List.range s.num_processes.toNat).flatMap (fun i =>
              (List.range s.num_resources.toNat).flatMap (cell_edges s i)))
            (fun a b =>
              if a < (s.num_processes + s.num_resources).toNat ∧
                b < (s.num_processes + s.num_resources).toNat then 0
              else rag.adj_matrix a b) } := by
  unfold build_rag
  dsimp only
  rw [zero_fold]
  have hinner : ∀ (rg : RAG) (i : Nat),
      (List.range s.num_resources.toNat).foldl (fun rg j => build_rag_cell s rg i j) rg
        = { rg with
            edges := rg.edges ++ (List.range s.num_resources.toNat).flatMap (cell_edges s i)
            adj_matrix := write_all
              ((List.range s.num_resources.toNat).flatMap (cell_edges s i)) rg.adj_matrix } :=
    fun rg i => edges_fold (fun rg j => build_rag_cell s rg i j) (cell_edges s i)
      (fun rg j => build_rag_cell_eq s rg i j) _ rg
  rw [edges_fold _ (fun i => (List.range s.num_resources.toNat).flatMap (cell_edges s i))
    (fun rg i => hinner rg i)]
  simp

theorem mem_cell_edges (s : SystemState) (i j : Nat) (e : Edge) :
    e ∈ cell_edges s i j ↔
      (s.allocation i j > 0 ∧
        e = { from_node := s.num_processes + j, to_node := i, type := .ASSIGNMENT }) ∨
      (s.need i j > 0 ∧
        e = { from_node := i, to_node := s.num_processes + j, type := .REQUEST }) := by
  unfold cell_edges
  by_cases h1 : s.allocation i j > 0
  · by_cases h2 : s.need i j > 0
    · simp [h1, h2]
    · simp [h1, h2]
  · by_cases h2 : s.need i j > 0
    · simp [h1, h2]
    · simp [h1, h2]

theorem mem_all_edges (s : SystemState) (e : Edge) :
    e ∈ all_edges s ↔
      ∃ i j, i < s.num_processes.toNat ∧ j < s.num_resources.toNat ∧ e ∈ cell_edges s i j := by
  unfold all_edges
  simp only [List.mem_flatMap, List.mem_range]
  constructor
  · rintro ⟨i, hi, j, hj, he⟩
    exact ⟨i, j, hi, hj, he⟩
  · rintro ⟨i, j, hi, hj, he⟩
    exact ⟨i, hi, j, hj, he⟩

/-- An edge belongs to the cell of one process and one resource only. -/
theorem cell_edges_inj (s : SystemState) (i j k l : Nat) (e : Edge)
    (h1 : e ∈ cell_edges s i j) (h2 : e ∈ cell_edges s k l) : i = k ∧ j = l := by
  rw [mem_cell_edges] at h1 h2
  rcases h1 with ⟨-, h1⟩ | ⟨-, h1⟩ <;> rcases h2 with ⟨-, h2⟩ | ⟨-, h2⟩
  · rw [h1] at h2
    simp only [Edge.mk.injEq, and_true] at h2
    omega
  · rw [h1] at h2
    simp at h2
  · rw [h1] at h2
    simp at h2
  · rw [h1] at h2
    simp only [Edge.mk.injEq, and_true] at h2
    omega

theorem cell_edges_nodup (s : SystemState) (i j : Nat) : (cell_edges s i j).Nodup := by
  unfold cell_edges
  by_cases h1 : s.allocation i j > 0
  · by_cases h2 : s.need i j > 0
    · simp [h1, h2]
    · simp [h1, h2]
  · by_cases h2 : s.need i j > 0
    · simp [h1, h2]
    · simp [h1, h2]

theorem all_edges_nodup (s : SystemState) : (all_edges s).Nodup := by
  unfold all_edges
  rw [List.nodup_flatMap]
  constructor
  · intro i _
    rw [List.nodup_flatMap]
    constructor
    · intro j _
      exact cell_edges_nodup s i j
    · refine List.Pairwise.imp ?_ (List.nodup_range _)
      intro j l hjl
      show List.Disjoint (cell_edges s i j) (cell_edges s i l)
      intro e he1 he2
      exact hjl (cell_edges_inj s i j i l e he1 he2).2
  · refine List.Pairwise.imp ?_ (List.nodup_range _)
    intro i k hik
    show List.Disjoint _ _
    intro e he1 he2
    obtain ⟨j, -, hj⟩ := List.mem_flatMap.1 he1
    obtain ⟨l, -, hl⟩ := List.mem_flatMap.1 he2
    exact hik (cell_edges_inj s i j k l e hj hl).1

theorem write_all_cons (x : Edge) (xs : List Edge) (adj : Nat → Nat → Int) :
    write_all (x :: xs) adj
      = write_all xs (upd2 adj x.from_node.toNat x.to_node.toNat (edge_code x.type)) := rfl

theorem write_all_not_mem (es : List Edge) (adj : Nat → Nat → Int) (a b : Nat)
    (h : ∀ e, e ∈ es → ¬(e.from_node.toNat = a ∧ e.to_node.toNat = b)) :
    write_all es adj a b = adj a b := by
  induction es generalizing adj with
  | nil => rfl
  | cons x xs ih =>
    rw [write_all_cons, ih _ (fun e he => h e (List.mem_cons_of_mem _ he)), upd2_apply]
    have hx := h x (List.mem_cons_self _ _)
    rw [if_neg (fun hc => hx ⟨hc.1.symm, hc.2.symm⟩)]

theorem write_all_mem (es : List Edge) (adj : Nat → Nat → Int) (e : Edge) (he : e ∈ es)
    (hloc : ∀ x y, x ∈ es → y ∈ es → x.from_node.toNat = y.from_node.toNat →
      x.to_node.toNat = y.to_node.toNat → x = y)
    (hnd : es.Nodup) :
    write_all es adj e.from_node.toNat e.to_node.toNat = edge_code e.type := by
  induction es generalizing adj with
  | nil => simp at he
  | cons x xs ih =>
    rw [write_all_cons]
    have hnd2 := List.nodup_cons.1 hnd
    rcases List.mem_cons.1 he with hex | hex
    · subst hex
      rw [write_all_not_mem, upd2_apply]
      · simp
      · intro y hy hc
        have := hloc y e (List.mem_cons_of_mem _ hy) (List.mem_cons_self _ _) hc.1 hc.2
        exact hnd2.1 (this ▸ hy)
    · exact ih _ hex
        (fun a b ha hb => hloc a b (List.mem_cons_of_mem _ ha) (List.mem_cons_of_mem _ hb))
        hnd2.2

/-- The shape of an appended edge: an assignment edge from a resource node to a
process, or a request edge from a process to a resource node. -/
theorem all_edges_shape (s : SystemState) (e : Edge) (he : e ∈ all_edges s) :
    ∃ i j, i < s.num_processes.toNat ∧ j < s.num_resources.toNat ∧
      ((s.allocation i j > 0 ∧ e.from_node.toNat = s.num_processes.toNat + j ∧
          e.to_node.toNat = i ∧ e.type = .ASSIGNMENT ∧
          e = { from_node := s.num_processes + j, to_node := i, type := .ASSIGNMENT }) ∨
        (s.need i j > 0 ∧ e.from_node.toNat = i ∧
          e.to_node.toNat = s.num_processes.toNat + j ∧ e.type = .REQUEST ∧
          e = { from_node := i, to_node := s.num_processes + j, type := .REQUEST })) := by
  obtain ⟨i, j, hi, hj, hc⟩ := (mem_all_edges s e).1 he
  refine ⟨i, j, hi, hj, ?_⟩
  rcases (mem_cell_edges s i j e).1 hc with ⟨h1, h2⟩ | ⟨h1, h2⟩
  · left
    subst h2
    refine ⟨h1, ?_, ?_, rfl, rfl⟩
    · show (s.num_processes + (j : Int)).toNat = _
      omega
    · show ((i : Nat) : Int).toNat = i
      omega
  · right
    subst h2
    refine ⟨h1, ?_, ?_, rfl, rfl⟩
    · show ((i : Nat) : Int).toNat = i
      omega
    · show (s.num_processes + (j : Int)).toNat = _
      omega

theorem all_edges_loc_inj (s : SystemState) (x y : Edge) (hx : x ∈ all_edges s)
    (hy : y ∈ all_edges s) (h1 : x.from_node.toNat = y.from_node.toNat)
    (h2 : x.to_node.toNat = y.to_node.toNat) : x = y := by
  obtain ⟨i, j, hi, hj, hc⟩ := all_edges_shape s x hx
  obtain ⟨k, l, hk, hl, hd⟩ := all_edges_shape s y hy
  rcases hc with ⟨-, a1, a2, -, a3⟩ | ⟨-, a1, a2, -, a3⟩ <;>
    rcases hd with ⟨-, b1, b2, -, b3⟩ | ⟨-, b1, b2, -, b3⟩
  · have hik : i = k := by omega
    have hjl : j = l := by omega
    rw [a3, b3, hik, hjl]
  · omega
  · omega
  · have hik : i = k := by omega
    have hjl : j = l := by omega
    rw [a3, b3, hik, hjl]

/-- The adjacency matrix `build_rag` leaves over the nodes of the graph. -/
theorem build_rag_adj (s : SystemState) (rag : RAG) (a b : Nat)
    (ha : a < (s.num_processes + s.num_resources).toNat)
    (hb : b < (s.num_processes + s.num_resources).toNat) :
    (build_rag s rag).adj_matrix a b =
      if s.num_processes.toNat ≤ a ∧ b < s.num_processes.toNat then
        if s.allocation b (a - s.num_processes.toNat) > 0 then 2 else 0
      else if a < s.num_processes.toNat ∧ s.num_processes.toNat ≤ b then
        if s.need a (b - s.num_processes.toNat) > 0 then 1 else 0
      else 0 := by
  rw [build_rag_eq]
  show write_all (all_edges s) _ a b = _
  have hbase : (fun a b : Nat =>
      if a < (s.num_processes + s.num_resources).toNat ∧
        b < (s.num_processes + s.num_resources).toNat then (0 : Int)
      else rag.adj_matrix a b) a b = 0 := by
    simp [ha, hb]
  have hnone : (∀ e, e ∈ all_edges s → ¬(e.from_node.toNat = a ∧ e.to_node.toNat = b)) →
      write_all (all_edges s) (fun a b : Nat =>
        if a < (s.num_processes + s.num_resources).toNat ∧
          b < (s.num_processes + s.num_resources).toNat then (0 : Int)
        else rag.adj_matrix a b) a b = 0 := by
    intro h
    rw [write_all_not_mem _ _ a b h]
    exact hbase
  have hsome : ∀ e, e ∈ all_edges s → e.from_node.toNat = a → e.to_node.toNat = b →
      write_all (all_edges s) (fun a b : Nat =>
        if a < (s.num_processes + s.num_resources).toNat ∧
          b < (s.num_processes + s.num_resources).toNat then (0 : Int)
        else rag.adj_matrix a b) a b = edge_code e.type := by
    intro e he h1 h2
    rw [← h1, ← h2]
    exact write_all_mem _ _ e he (all_edges_loc_inj s) (all_edges_nodup s)
  by_cases hA : s.num_processes.toNat ≤ a ∧ b < s.num_processes.toNat
  · rw [if_pos hA]
    have hr : a - s.num_processes.toNat < s.num_resources.toNat := by omega
    by_cases hpos : s.allocation b (a - s.num_processes.toNat) > 0
    · rw [if_pos hpos]
      have hmem : ({ from_node := s.num_processes + ((a - s.num_processes.toNat : Nat) : Int)
                     to_node := b, type := .ASSIGNMENT } : Edge) ∈ all_edges s :=
        (mem_all_edges s _).2 ⟨b, a - s.num_processes.toNat, hA.2, hr,
          (mem_cell_edges s _ _ _).2 (Or.inl ⟨hpos, rfl⟩)⟩
      rw [hsome _ hmem (by
        show (s.num_processes + ((a - s.num_processes.toNat : Nat) : Int)).toNat = a
        omega) (by
        show ((b : Nat) : Int).toNat = b
        omega)]
      rfl
    · rw [if_neg hpos]
      apply hnone
      intro e he hc
      obtain ⟨i, j, hi, hj, hsh⟩ := all_edges_shape s e he
      rcases hsh with ⟨hp, a1, a2, -⟩ | ⟨-, a1, a2, -⟩
      · have hib : i = b := by omega
        have hja : j = a - s.num_processes.toNat := by omega
        rw [hib, hja] at hp
        exact hpos hp
      · omega
  · rw [if_neg hA]
    by_cases hR : a < s.num_processes.toNat ∧ s.num_processes.toNat ≤ b
    · rw [if_pos hR]
      have hr : b - s.num_processes.toNat < s.num_resources.toNat := by omega
      by_cases hpos : s.need a (b - s.num_processes.toNat) > 0
      · rw [if_pos hpos]
        have hmem : ({ from_node := a
                       to_node := s.num_processes + ((b - s.num_processes.toNat : Nat) : Int)
                       type := .REQUEST } : Edge) ∈ all_edges s :=
          (mem_all_edges s _).2 ⟨a, b - s.num_processes.toNat, hR.1, hr,
            (mem_cell_edges s _ _ _).2 (Or.inr ⟨hpos, rfl⟩)⟩
        rw [hsome _ hmem (by
          show ((a : Nat) : Int).toNat = a
          omega) (by
          show (s.num_processes + ((b - s.num_processes.toNat : Nat) : Int)).toNat = b
          omega)]
        rfl
      · rw [if_neg hpos]
        apply hnone
        intro e he hc
        obtain ⟨i, j, hi, hj, hsh⟩ := all_edges_shape s e he
        rcases hsh with ⟨-, a1, a2, -⟩ | ⟨hp, a1, a2, -⟩
        · omega
        · have hia : i = a := by omega
          have hjb : j = b - s.num_processes.toNat := by omega
          rw [hia, hjb] at hp
          exact hpos hp
    · rw [if_neg hR]
      apply hnone
      intro e he hc
      obtain ⟨i, j, hi, hj, hsh⟩ := all_edges_shape s e he
      rcases hsh with ⟨-, a1, a2, -⟩ | ⟨-, a1, a2, -⟩
      · omega
      · omega

theorem sum_map_range (f : Nat → Nat) (n : Nat) :
    ((List.range n).map f).sum = ∑ i in Finset.range n, f i := by
  induction n with
  | zero => rfl
  | succ n ih =>
    rw [List.range_succ, List.map_append, List.sum_append, ih, Finset.sum_range_succ]
    simp

theorem cell_edges_length (s : SystemState) (i j : Nat) :
    (cell_edges s i j).length
      = (if s.allocation i j > 0 then 1 else 0) + (if s.need i j > 0 then 1 else 0) := by
  unfold cell_edges
  by_cases h1 : s.allocation i j > 0
  · by_cases h2 : s.need i j > 0
    · simp [h1, h2]
    · simp [h1, h2]
  · by_cases h2 : s.need i j > 0
    · simp [h1, h2]
    · simp [h1, h2]

theorem all_edges_length (s : SystemState) :
    (all_edges s).length =
      ∑ i in Finset.range s.num_processes.toNat, ∑ j in Finset.range s.num_resources.toNat,
        ((if s.allocation i j > 0 then 1 else 0) + (if s.need i j > 0 then 1 else 0)) := by
  unfold all_edges
  rw [List.length_flatMap, sum_map_range]
  refine Finset.sum_congr rfl (fun i _ => ?_)
  show ((List.range s.num_resources.toNat).flatMap (cell_edges s i)).length = _
  rw [List.length_flatMap, sum_map_range]
  exact Finset.sum_congr rfl (fun j _ => cell_edges_length s i j)

theorem build_rag_edges (s : SystemState) (rag : RAG) :
    (build_rag s rag).edges = all_edges s := by
  rw [build_rag_eq]
  rfl

/-- Claim C19, counterexample. With `allocation[0][0] = -1` and
`max_need[0][0] = INT_MAX` the difference `max_need[0][0] - allocation[0][0]` is
positive, so the specified graph has the request edge from process 0 to the
resource node 1; the graph built has no edge, because the stored need is the
wrapped difference `INT_MIN`. -/
theorem build_rag_misses_request :
    (overflow_need_state.num_processes ≤ MAX_PROCESSES ∧
      overflow_need_state.num_resources ≤ MAX_RESOURCES) ∧
    overflow_need_state.max_need 0 0 - overflow_need_state.allocation 0 0 > 0 ∧
    spec_adj overflow_need_state 0 1 = 1 ∧
    (build_rag (calculate_need_matrix overflow_need_state) empty_rag).adj_matrix 0 1 = 0 ∧
    (build_rag (calculate_need_matrix overflow_need_state) empty_rag).edges = [] := by
  decide

/-- Claim C19, amended. For every state with `num_processes <= MAX_PROCESSES` and
`num_resources <= MAX_RESOURCES` whose differences `max_need - allocation` fit in an
`int`, the graph built by `calculate_need_matrix` followed by `build_rag` is the
specified one: among the
`num_processes + num_resources` nodes, `adj_matrix[num_processes + r][p]` is `2`
when `allocation[p][r] > 0`, `adj_matrix[p][num_processes + r]` is `1` when
`max_need[p][r] - allocation[p][r] > 0`, and every other entry is `0`; the edge list
holds exactly one assignment edge per positive allocation and one request edge per
positive need, and `num_edges` is the number of such pairs. -/
theorem build_rag_specified (s : SystemState) (rag : RAG)
    (_hp : s.num_processes ≤ MAX_PROCESSES) (_hr : s.num_resources ≤ MAX_RESOURCES)
    (hN : NeedFits s) :
    IsSpecifiedGraph s (build_rag (calculate_need_matrix s) rag) := by
  have hnp := calculate_need_matrix_num_processes s
  have hnr := calculate_need_matrix_num_resources s
  have hal := calculate_need_matrix_allocation s
  refine ⟨?_, ?_, ?_, ?_, ?_, ?_⟩
  · rw [build_rag_eq, hnp]
  · rw [build_rag_eq, hnr]
  · intro a b ha hb
    rw [build_rag_adj _ _ a b (by rw [hnp, hnr]; exact ha) (by rw [hnp, hnr]; exact hb)]
    unfold spec_adj
    rw [hnp, hal]
    by_cases hA : s.num_processes.toNat ≤ a ∧ b < s.num_processes.toNat
    · rw [if_pos hA, if_pos hA]
    · rw [if_neg hA, if_neg hA]
      by_cases hR : a < s.num_processes.toNat ∧ s.num_processes.toNat ≤ b
      · rw [if_pos hR, if_pos hR,
          calculate_need_matrix_need_exact s a (b - s.num_processes.toNat) hR.1 (by omega)
          (hN _ hR.1 _ (by omega))]
      · rw [if_neg hR, if_neg hR]
  · rw [build_rag_edges]
    exact all_edges_nodup _
  · intro e
    rw [build_rag_edges, mem_all_edges, hnp, hnr]
    constructor
    · rintro ⟨i, j, hi, hj, hc⟩
      rw [mem_cell_edges, hnp, hal,
        calculate_need_matrix_need_exact s i j hi hj (hN i hi j hj)] at hc
      rcases hc with ⟨h1, h2⟩ | ⟨h1, h2⟩
      · exact Or.inl ⟨i, j, hi, hj, h1, h2⟩
      · exact Or.inr ⟨i, j, hi, hj, h1, h2⟩
    · rintro (⟨i, j, hi, hj, h1, h2⟩ | ⟨i, j, hi, hj, h1, h2⟩)
      · refine ⟨i, j, hi, hj, ?_⟩
        rw [mem_cell_edges, hnp, hal]
        exact Or.inl ⟨h1, h2⟩
      · refine ⟨i, j, hi, hj, ?_⟩
        rw [mem_cell_edges, hnp, calculate_need_matrix_need_exact s i j hi hj (hN i hi j hj)]
        exact Or.inr ⟨h1, h2⟩
  · rw [build_rag_edges, all_edges_length, hnp, hnr, hal]
    refine Finset.sum_congr rfl (fun i hi => Finset.sum_congr rfl (fun j hj => ?_))
    rw [calculate_need_matrix_need_exact s i j (Finset.mem_range.1 hi) (Finset.mem_range.1 hj)
      (hN i (Finset.mem_range.1 hi) j (Finset.mem_range.1 hj))]

theorem build_rag_specified_witness :
    (scenario_B.num_processes ≤ MAX_PROCESSES ∧ scenario_B.num_resources ≤ MAX_RESOURCES ∧
        NeedFits scenario_B) ∧
      IsSpecifiedGraph scenario_B (build_rag (calculate_need_matrix scenario_B) empty_rag) :=
  ⟨by decide, build_rag_specified scenario_B empty_rag (by decide) (by decide) (by decide)⟩

/-! ## Cycle detection -/

theorem unvisited_card_mono (g : RAG) (m m1 : Marks)
    (h : ∀ i, m.visited i = true → m1.visited i = true) :
    (unvisited g m1).card ≤ (unvisited g m).card := by
  apply Finset.card_le_card
  intro i hi
  unfold unvisited at hi ⊢
  rw [Finset.mem_filter] at hi ⊢
  refine ⟨hi.1, ?_⟩
  by_contra hne
  have := h i (by simpa using hne)
  rw [hi.2] at this
  exact absurd this (by decide)

theorem unvisited_card_mark (g : RAG) (m : Marks) (node : Nat) (r : Nat → Bool)
    (hn : node < (g.num_processes + g.num_resources).toNat) (hv : m.visited node = false) :
    (unvisited g { visited := upd m.visited node true, rec_stack := r }).card
      < (unvisited g m).card := by
  apply Finset.card_lt_card
  rw [Finset.ssubset_iff_of_subset]
  · refine ⟨node, ?_, ?_⟩
    · unfold unvisited
      rw [Finset.mem_filter]
      exact ⟨Finset.mem_range.2 hn, hv⟩
    · unfold unvisited
      rw [Finset.mem_filter]
      simp [upd_apply]
  · intro i hi
    unfold unvisited at hi ⊢
    rw [Finset.mem_filter] at hi ⊢
    refine ⟨hi.1, ?_⟩
    have h2 := hi.2
    simp only [upd_apply] at h2
    by_cases hin : i = node
    · rw [if_pos hin] at h2
      exact absurd h2 (by decide)
    · rw [if_neg hin] at h2
      exact h2

/-- Everything reachable from a finished node is finished. -/
theorem done_reach (g : RAG) (m : Marks) (hinv : DfsInv g m) (u v : Nat)
    (hu : m.visited u = true ∧ m.rec_stack u = false)
    (h : Relation.ReflTransGen (rag_edge g) u v) :
    m.visited v = true ∧ m.rec_stack v = false := by
  induction h with
  | refl => exact hu
  | tail _ hbc ih => exact hinv.done_closed _ _ ih.1 ih.2 hbc

/-- The scan of the successors of a node on the recursion path, given the
behaviour of the recursive calls it makes. -/
theorem dfs_cycle_loop_spec (g : RAG) (call : Nat → Marks → Option (Bool × Marks))
    (fuel node : Nat) (hnode : node < (g.num_processes + g.num_resources).toNat)
    (hcall : ∀ i m, i < (g.num_processes + g.num_resources).toNat → m.visited i = false →
      DfsInv g m →
      (∀ x, m.rec_stack x = true → Relation.ReflTransGen (rag_edge g) x i) →
      (unvisited g m).card ≤ fuel →
      ∃ b m1, call i m = some (b, m1) ∧ (b = true → has_cycle g) ∧
        (b = false → DfsInv g m1 ∧ m1.rec_stack = m.rec_stack ∧
          (∀ x, m.visited x = true → m1.visited x = true) ∧ m1.visited i = true))
    (l : List Nat) (m : Marks)
    (hl : ∀ i, i ∈ l → i < (g.num_processes + g.num_resources).toNat)
    (hon : m.rec_stack node = true) (hinv : DfsInv g m)
    (hpath : ∀ x, m.rec_stack x = true → Relation.ReflTransGen (rag_edge g) x node)
    (hcard : (unvisited g m).card ≤ fuel) :
    ∃ b m1, dfs_cycle_loop g call node l m = some (b, m1) ∧ (b = true → has_cycle g) ∧
      (b = false → DfsInv g m1 ∧ m1.rec_stack = m.rec_stack ∧
        (∀ x, m.visited x = true → m1.visited x = true) ∧
        ∀ i, i ∈ l → g.adj_matrix node i ≠ 0 →
          m1.visited i = true ∧ m1.rec_stack i = false) := by
  induction l generalizing m with
  | nil =>
    refine ⟨false, m, rfl, fun h => absurd h (by decide), fun _ => ⟨hinv, rfl, fun _ h => h, ?_⟩⟩
    intro i hi
    simp at hi
  | cons i rest ih =>
    have hrest : ∀ k, k ∈ rest → k < (g.num_processes + g.num_resources).toNat :=
      fun k hk => hl k (List.mem_cons_of_mem _ hk)
    have hi : i < (g.num_processes + g.num_resources).toNat := hl i (List.mem_cons_self _ _)
    by_cases hadj : g.adj_matrix node i ≠ 0
    · by_cases hvis : m.visited i = true
      · by_cases hrec : m.rec_stack i = true
        · refine ⟨true, m, ?_, fun _ => ?_, fun h => absurd h (by decide)⟩
          · simp only [dfs_cycle_loop, hadj, hvis, hrec, ne_eq, not_false_eq_true, if_true,
              Bool.not_true, Bool.false_eq_true, if_false]
          · exact ⟨node, Relation.TransGen.head' ⟨hnode, hi, hadj⟩ (hpath i hrec)⟩
        · have hrec2 : m.rec_stack i = false := by simpa using hrec
          obtain ⟨b, m1, hrun, hcyc, hok⟩ := ih m hrest hon hinv hpath hcard
          refine ⟨b, m1, ?_, hcyc, fun hb => ?_⟩
          · simp only [dfs_cycle_loop, hadj, hvis, hrec2, ne_eq, not_false_eq_true, if_true,
              Bool.not_true, Bool.false_eq_true, if_false]
            exact hrun
          · obtain ⟨h1, h2, h3, h4⟩ := hok hb
            refine ⟨h1, h2, h3, ?_⟩
            intro k hk hkadj
            rcases List.mem_cons.1 hk with hk | hk
            · subst hk
              exact ⟨h3 _ hvis, by rw [h2]; exact hrec2⟩
            · exact h4 k hk hkadj
      · have hvis2 : m.visited i = false := by simpa using hvis
        have hreci : m.rec_stack i = false := by
          by_contra hne
          have := hinv.path_visited i (by simpa using hne)
          rw [hvis2] at this
          exact absurd this (by decide)
        obtain ⟨b1, m1, hc1, hcyc1, hok1⟩ := hcall i m hi hvis2 hinv
          (fun x hx => Relation.ReflTransGen.tail (hpath x hx) ⟨hnode, hi, hadj⟩) hcard
        cases b1 with
        | true =>
          refine ⟨true, m1, ?_, fun _ => hcyc1 rfl, fun h => absurd h (by decide)⟩
          simp only [dfs_cycle_loop, hadj, hvis2, hc1, ne_eq, not_false_eq_true, if_true,
            Bool.not_false]
        | false =>
          obtain ⟨k1, k2, k3, k4⟩ := hok1 rfl
          obtain ⟨b, m2, hrun, hcyc, hok⟩ := ih m1 hrest (by rw [k2]; exact hon) k1
            (fun x hx => hpath x (by rw [← k2]; exact hx))
            (le_trans (unvisited_card_mono g m m1 k3) hcard)
          refine ⟨b, m2, ?_, hcyc, fun hb => ?_⟩
          · simp only [dfs_cycle_loop, hadj, hvis2, hc1, ne_eq, not_false_eq_true, if_true,
              Bool.not_false]
            exact hrun
          · obtain ⟨h1, h2, h3, h4⟩ := hok hb
            refine ⟨h1, by rw [h2, k2], fun x hx => h3 x (k3 x hx), ?_⟩
            intro k hk hkadj
            rcases List.mem_cons.1 hk with hk | hk
            · subst hk
              exact ⟨h3 _ k4, by rw [h2, k2]; exact hreci⟩
            · exact h4 k hk hkadj
    · have hadj2 : g.adj_matrix node i = 0 := by simpa using hadj
      obtain ⟨b, m1, hrun, hcyc, hok⟩ := ih m hrest hon hinv hpath hcard
      refine ⟨b, m1, ?_, hcyc, fun hb => ?_⟩
      · simp only [dfs_cycle_loop, hadj2, ne_eq, not_true_eq_false, if_false]
        exact hrun
      · obtain ⟨h1, h2, h3, h4⟩ := hok hb
        refine ⟨h1, h2, h3, ?_⟩
        intro k hk hkadj
        rcases List.mem_cons.1 hk with hk | hk
        · subst hk
          exact absurd hadj2 hkadj
        · exact h4 k hk hkadj

/-- A call of `dfs_cycle` on an unvisited node with enough fuel returns; `true`
only when the graph has a cycle, `false` with the node and all it reached finished
and the recursion path as it was. -/
theorem dfs_cycle_spec (g : RAG) (fuel : Nat) :
    ∀ i m, i < (g.num_processes + g.num_resources).toNat → m.visited i = false →
      DfsInv g m →
      (∀ x, m.rec_stack x = true → Relation.ReflTransGen (rag_edge g) x i) →
      (unvisited g m).card ≤ fuel →
      ∃ b m1, dfs_cycle g fuel i m = some (b, m1) ∧ (b = true → has_cycle g) ∧
        (b = false → DfsInv g m1 ∧ m1.rec_stack = m.rec_stack ∧
          (∀ x, m.visited x = true → m1.visited x = true) ∧ m1.visited i = true) := by
  induction fuel with
  | zero =>
    intro i m hi hvis _ _ hcard
    exfalso
    have hmem : i ∈ unvisited g m := by
      unfold unvisited
      rw [Finset.mem_filter]
      exact ⟨Finset.mem_range.2 hi, hvis⟩
    have := Finset.card_pos.2 ⟨i, hmem⟩
    omega
  | succ fuel ih =>
    intro node m hnode hvis hinv hpath hcard
    have hrecn : m.rec_stack node = false := by
      by_contra hne
      have := hinv.path_visited node (by simpa using hne)
      rw [hvis] at this
      exact absurd this (by decide)
    have hinv1 : DfsInv g
        { visited := upd m.visited node true, rec_stack := upd m.rec_stack node true } := by
      refine ⟨?_, ?_, ?_⟩
      · intro x hx
        simp only [upd_apply] at hx ⊢
        by_cases hxn : x = node
        · rw [if_pos hxn]
        · rw [if_neg hxn] at hx ⊢
          exact hinv.path_visited x hx
      · intro u v hu1 hu2 huv
        simp only [upd_apply] at hu1 hu2 ⊢
        by_cases hun : u = node
        · rw [if_pos hun] at hu2
          exact absurd hu2 (by decide)
        · rw [if_neg hun] at hu1 hu2
          obtain ⟨hv1, hv2⟩ := hinv.done_closed u v hu1 hu2 huv
          have hvn : v ≠ node := by
            intro hvn
            rw [hvn, hvis] at hv1
            exact absurd hv1 (by decide)
          rw [if_neg hvn, if_neg hvn]
          exact ⟨hv1, hv2⟩
      · intro u hu1 hu2
        simp only [upd_apply] at hu1 hu2
        by_cases hun : u = node
        · rw [if_pos hun] at hu2
          exact absurd hu2 (by decide)
        · rw [if_neg hun] at hu1 hu2
          exact hinv.done_acyclic u hu1 hu2
    have hpath1 : ∀ x, (upd m.rec_stack node true) x = true →
        Relation.ReflTransGen (rag_edge g) x node := by
      intro x hx
      simp only [upd_apply] at hx
      by_cases hxn : x = node
      · rw [hxn]
      · rw [if_neg hxn] at hx
        exact hpath x hx
    have hcard1 : (unvisited g
        { visited := upd m.visited node true, rec_stack := upd m.rec_stack node true }).card
          ≤ fuel := by
      have := unvisited_card_mark g m node (upd m.rec_stack node true) hnode hvis
      omega
    obtain ⟨b, m2, hrun, hcyc, hok⟩ := dfs_cycle_loop_spec g (dfs_cycle g fuel) fuel node hnode ih
      (List.range (g.num_processes + g.num_resources).toNat)
      { visited := upd m.visited node true, rec_stack := upd m.rec_stack node true }
      (fun k hk => List.mem_range.1 hk) (by simp [upd_apply]) hinv1 hpath1 hcard1
    cases b with
    | true =>
      refine ⟨true, m2, ?_, hcyc, fun h => absurd h (by decide)⟩
      simp only [dfs_cycle, hrun]
    | false =>
      obtain ⟨k1, k2, k3, k4⟩ := hok rfl
      have k2' : m2.rec_stack = upd m.rec_stack node true := k2
      have hvn2 : m2.visited node = true := k3 node (by simp [upd_apply])
      refine ⟨false, { m2 with rec_stack := upd m2.rec_stack node false }, ?_,
        fun h => absurd h (by decide), fun _ => ⟨?_, ?_, ?_, hvn2⟩⟩
      · simp only [dfs_cycle, hrun]
      · have hsucc : ∀ v, rag_edge g node v → m2.visited v = true ∧ m2.rec_stack v = false :=
          fun v hv => k4 v (List.mem_range.2 hv.2.1) hv.2.2
        refine ⟨?_, ?_, ?_⟩
        · intro x hx
          simp only [upd_apply] at hx
          by_cases hxn : x = node
          · rw [if_pos hxn] at hx
            exact absurd hx (by decide)
          · rw [if_neg hxn] at hx
            exact k1.path_visited x hx
        · intro u v hu1 hu2 huv
          simp only [upd_apply] at hu2 ⊢
          have hv : m2.visited v = true ∧ m2.rec_stack v = false := by
            by_cases hun : u = node
            · exact hsucc v (hun ▸ huv)
            · rw [if_neg hun] at hu2
              exact k1.done_closed u v hu1 hu2 huv
          refine ⟨hv.1, ?_⟩
          by_cases hvn : v = node
          · rw [if_pos hvn]
          · rw [if_neg hvn]
            exact hv.2
        · intro u hu1 hu2 hcycle
          simp only [upd_apply] at hu2
          by_cases hun : u = node
          · subst hun
            obtain ⟨v, huv, hvu⟩ := Relation.TransGen.head'_iff.1 hcycle
            have hback := done_reach g m2 k1 v u (hsucc v huv) hvu
            rw [k2'] at hback
            simp [upd_apply] at hback
          · rw [if_neg hun] at hu2
            exact k1.done_acyclic u hu1 hu2 hcycle
      · show upd m2.rec_stack node false = m.rec_stack
        rw [k2']
        funext x
        simp only [upd_apply]
        by_cases hxn : x = node
        · rw [if_pos hxn, hxn, hrecn]
        · rw [if_neg hxn, if_neg hxn]
      · intro x hx
        exact k3 x (by
          simp only [upd_apply]
          by_cases hxn : x = node
          · rw [if_pos hxn]
          · rw [if_neg hxn]
            exact hx)

/-- The loop of `detect_cycle_rag` over the start nodes, entered with an empty
recursion path. -/
theorem detect_cycle_loop_spec (g : RAG) (fuel : Nat) (l : List Nat) (m : Marks)
    (hl : ∀ i, i ∈ l → i < (g.num_processes + g.num_resources).toNat)
    (hinv : DfsInv g m) (hoff : ∀ x, m.rec_stack x = false)
    (hcard : (unvisited g m).card ≤ fuel) :
    ∃ b, detect_cycle_loop g fuel l m = some b ∧ (b = true → has_cycle g) ∧
      (b = false → ∃ m1, DfsInv g m1 ∧ (∀ x, m1.rec_stack x = false) ∧
        (∀ x, m.visited x = true → m1.visited x = true) ∧
        ∀ i, i ∈ l → m1.visited i = true) := by
  induction l generalizing m with
  | nil =>
    refine ⟨false, rfl, fun h => absurd h (by decide), fun _ => ⟨m, hinv, hoff, fun _ h => h, ?_⟩⟩
    intro i hi
    simp at hi
  | cons i rest ih =>
    have hrest : ∀ k, k ∈ rest → k < (g.num_processes + g.num_resources).toNat :=
      fun k hk => hl k (List.mem_cons_of_mem _ hk)
    have hi : i < (g.num_processes + g.num_resources).toNat := hl i (List.mem_cons_self _ _)
    by_cases hvis : m.visited i = true
    · obtain ⟨b, hrun, hcyc, hok⟩ := ih m hrest hinv hoff hcard
      refine ⟨b, ?_, hcyc, fun hb => ?_⟩
      · simp only [detect_cycle_loop, hvis, Bool.not_true, Bool.false_eq_true, if_false]
        exact hrun
      · obtain ⟨m1, h1, h2, h3, h4⟩ := hok hb
        refine ⟨m1, h1, h2, h3, ?_⟩
        intro k hk
        rcases List.mem_cons.1 hk with hk | hk
        · subst hk
          exact h3 _ hvis
        · exact h4 k hk
    · have hvis2 : m.visited i = false := by simpa using hvis
      obtain ⟨b1, m1, hc1, hcyc1, hok1⟩ := dfs_cycle_spec g fuel i m hi hvis2 hinv
        (fun x hx => by rw [hoff x] at hx; exact absurd hx (by decide)) hcard
      cases b1 with
      | true =>
        refine ⟨true, ?_, fun _ => hcyc1 rfl, fun h => absurd h (by decide)⟩
        simp only [detect_cycle_loop, hvis2, hc1, Bool.not_false, if_true]
      | false =>
        obtain ⟨k1, k2, k3, k4⟩ := hok1 rfl
        obtain ⟨b, hrun, hcyc, hok⟩ := ih m1 hrest k1 (fun x => by rw [k2]; exact hoff x)
          (le_trans (unvisited_card_mono g m m1 k3) hcard)
        refine ⟨b, ?_, hcyc, fun hb => ?_⟩
        · simp only [detect_cycle_loop, hvis2, hc1, Bool.not_false, if_true]
          exact hrun
        · obtain ⟨m2, h1, h2, h3, h4⟩ := hok hb
          refine ⟨m2, h1, h2, fun x hx => h3 x (k3 x hx), ?_⟩
          intro k hk
          rcases List.mem_cons.1 hk with hk | hk
          · subst hk
            exact h3 _ k4
          · exact h4 k hk

/-- With recursion depth at least the number of nodes, `detect_cycle_rag` returns,
and returns `true` exactly when the graph has a cycle. -/
theorem detect_cycle_rag_fuel_spec (g : RAG) (fuel : Nat)
    (hfuel : (g.num_processes + g.num_resources).toNat ≤ fuel) :
    ∃ b, detect_cycle_rag_fuel fuel g = some b ∧ (b = true ↔ has_cycle g) := by
  have hinv : DfsInv g { visited := fun _ => false, rec_stack := fun _ => false } :=
    ⟨fun _ h => absurd h Bool.false_ne_true, fun _ _ h => absurd h Bool.false_ne_true,
      fun _ h => absurd h Bool.false_ne_true⟩
  have hcard : (unvisited g { visited := fun _ => false, rec_stack := fun _ => false }).card
      ≤ fuel := by
    refine le_trans (Finset.card_filter_le _ _) ?_
    rw [Finset.card_range]
    exact hfuel
  obtain ⟨b, hrun, hcyc, hok⟩ := detect_cycle_loop_spec g fuel
    (List.range (g.num_processes + g.num_resources).toNat)
    { visited := fun _ => false, rec_stack := fun _ => false }
    (fun k hk => List.mem_range.1 hk) hinv (fun _ => rfl) hcard
  refine ⟨b, hrun, hcyc, ?_⟩
  rintro ⟨u, hu⟩
  by_contra hb
  obtain ⟨m1, h1, h2, -, h4⟩ := hok (by simpa using hb)
  obtain ⟨v, huv, -⟩ := Relation.TransGen.head'_iff.1 hu
  exact h1.done_acyclic u (h4 u (List.mem_range.2 huv.1)) (h2 u) hu

/-- Claim C20. For every `RAG` with
`num_processes + num_resources <= MAX_PROCESSES + MAX_RESOURCES` and any adjacency
matrix, `detect_cycle_rag` terminates (every recursion depth from the number of
nodes on gives the same answer) and returns `true` if and only if the directed
graph of the non-zero `adj_matrix` entries among the nodes contains a directed
cycle. -/
theorem detect_cycle_rag_correct (g : RAG)
    (_hsize : g.num_processes + g.num_resources ≤ ((MAX_PROCESSES + MAX_RESOURCES : Nat) : Int)) :
    ∃ b, detect_cycle_rag g = some b ∧ (b = true ↔ has_cycle g) ∧
      ∀ fuel, (g.num_processes + g.num_resources).toNat ≤ fuel →
        detect_cycle_rag_fuel fuel g = some b := by
  obtain ⟨b, hrun, hiff⟩ := detect_cycle_rag_fuel_spec g
    ((g.num_processes + g.num_resources).toNat + 1) (Nat.le_succ _)
  refine ⟨b, hrun, hiff, ?_⟩
  intro fuel hfuel
  obtain ⟨b1, hrun1, hiff1⟩ := detect_cycle_rag_fuel_spec g fuel hfuel
  rw [hrun1]
  have : b1 = b := by
    cases b <;> cases b1 <;> simp_all
  rw [this]

theorem detect_cycle_rag_correct_witness :
    ((build_rag scenario_B empty_rag).num_processes + (build_rag scenario_B empty_rag).num_resources
        ≤ ((MAX_PROCESSES + MAX_RESOURCES : Nat) : Int)) ∧
      ∃ b, detect_cycle_rag (build_rag scenario_B empty_rag) = some b ∧
        (b = true ↔ has_cycle (build_rag scenario_B empty_rag)) ∧
        ∀ fuel, ((build_rag scenario_B empty_rag).num_processes
            + (build_rag scenario_B empty_rag).num_resources).toNat ≤ fuel →
          detect_cycle_rag_fuel fuel (build_rag scenario_B empty_rag) = some b :=
  ⟨by decide, detect_cycle_rag_correct (build_rag scenario_B empty_rag) (by decide)⟩

/-! ## The graph of a state and its cycles -/

theorem build_rag_calculate_adj (s : SystemState) (rag : RAG) (a b : Nat)
    (ha : a < (s.num_processes + s.num_resources).toNat)
    (hb : b < (s.num_processes + s.num_resources).toNat) :
    (build_rag (calculate_need_matrix s) rag).adj_matrix a b = stored_adj s a b := by
  have hnp := calculate_need_matrix_num_processes s
  have hnr := calculate_need_matrix_num_resources s
  have hal := calculate_need_matrix_allocation s
  rw [build_rag_adj _ _ a b (by rw [hnp, hnr]; exact ha) (by rw [hnp, hnr]; exact hb)]
  unfold stored_adj
  rw [hnp, hal]
  by_cases hA : s.num_processes.toNat ≤ a ∧ b < s.num_processes.toNat
  · rw [if_pos hA, if_pos hA]
  · rw [if_neg hA, if_neg hA]
    by_cases hR : a < s.num_processes.toNat ∧ s.num_processes.toNat ≤ b
    · rw [if_pos hR, if_pos hR,
        calculate_need_matrix_need s a (b - s.num_processes.toNat) hR.1 (by omega)]
    · rw [if_neg hR, if_neg hR]

theorem build_rag_calculate_nodes (s : SystemState) (rag : RAG) :
    (build_rag (calculate_need_matrix s) rag).num_processes
        + (build_rag (calculate_need_matrix s) rag).num_resources
      = s.num_processes + s.num_resources := by
  rw [build_rag_eq, calculate_need_matrix_num_processes, calculate_need_matrix_num_resources]

/-- The edges of the graph of a state: from the node of resource `r` to process `p`
when `p` holds units of `r`, from process `p` to the node of `r` when the stored
need of `p` for `r` is positive. -/
theorem rag_edge_iff (s : SystemState) (rag : RAG) (u v : Nat) :
    rag_edge (build_rag (calculate_need_matrix s) rag) u v ↔
      (∃ p r, p < s.num_processes.toNat ∧ r < s.num_resources.toNat ∧
        s.allocation p r > 0 ∧ u = s.num_processes.toNat + r ∧ v = p) ∨
      (∃ p r, p < s.num_processes.toNat ∧ r < s.num_resources.toNat ∧
        wrap_int (s.max_need p r - s.allocation p r) > 0 ∧ u = p ∧
          v = s.num_processes.toNat + r) := by
  unfold rag_edge
  rw [build_rag_calculate_nodes]
  constructor
  · rintro ⟨hu, hv, hadj⟩
    rw [build_rag_calculate_adj s rag u v hu hv] at hadj
    unfold stored_adj at hadj
    by_cases hA : s.num_processes.toNat ≤ u ∧ v < s.num_processes.toNat
    · rw [if_pos hA] at hadj
      left
      refine ⟨v, u - s.num_processes.toNat, hA.2, by omega, ?_, by omega, rfl⟩
      by_contra hno
      rw [if_neg hno] at hadj
      exact hadj rfl
    · rw [if_neg hA] at hadj
      by_cases hR : u < s.num_processes.toNat ∧ s.num_processes.toNat ≤ v
      · rw [if_pos hR] at hadj
        right
        refine ⟨u, v - s.num_processes.toNat, hR.1, by omega, ?_, rfl, by omega⟩
        by_contra hno
        rw [if_neg hno] at hadj
        exact hadj rfl
      · rw [if_neg hR] at hadj
        exact absurd rfl hadj
  · rintro (⟨p, r, hp, hr, hpos, hu, hv⟩ | ⟨p, r, hp, hr, hpos, hu, hv⟩)
    · have hu1 : u < (s.num_processes + s.num_resources).toNat := by omega
      have hv1 : v < (s.num_processes + s.num_resources).toNat := by omega
      refine ⟨hu1, hv1, ?_⟩
      rw [build_rag_calculate_adj s rag u v hu1 hv1]
      unfold stored_adj
      have hA : s.num_processes.toNat ≤ u ∧ v < s.num_processes.toNat := by omega
      have hsub : u - s.num_processes.toNat = r := by omega
      rw [if_pos hA, hsub, hv, if_pos hpos]
      decide
    · have hu1 : u < (s.num_processes + s.num_resources).toNat := by omega
      have hv1 : v < (s.num_processes + s.num_resources).toNat := by omega
      refine ⟨hu1, hv1, ?_⟩
      rw [build_rag_calculate_adj s rag u v hu1 hv1]
      unfold stored_adj
      have hA : ¬(s.num_processes.toNat ≤ u ∧ v < s.num_processes.toNat) := by omega
      have hR : u < s.num_processes.toNat ∧ s.num_processes.toNat ≤ v := by omega
      have hsub : v - s.num_processes.toNat = r := by omega
      rw [if_neg hA, if_pos hR, hsub, hu, if_pos hpos]
      decide

/-- The answer of `detect_cycle_rag` on a graph with a cycle. -/
theorem detect_cycle_rag_of_cycle (g : RAG) (h : has_cycle g) : detect_cycle_rag g = some true := by
  obtain ⟨b, hrun, hiff⟩ := detect_cycle_rag_fuel_spec g
    ((g.num_processes + g.num_resources).toNat + 1) (Nat.le_succ _)
  have hb : b = true := hiff.2 h
  rw [hb] at hrun
  exact hrun

/-- The answer of `detect_cycle_rag` on a graph without a cycle. -/
theorem detect_cycle_rag_of_acyclic (g : RAG) (h : ¬ has_cycle g) :
    detect_cycle_rag g = some false := by
  obtain ⟨b, hrun, hiff⟩ := detect_cycle_rag_fuel_spec g
    ((g.num_processes + g.num_resources).toNat + 1) (Nat.le_succ _)
  have hb : b = false := by
    cases b
    · rfl
    · exact absurd (hiff.1 rfl) h
  rw [hb] at hrun
  exact hrun

/-- A process that holds units of a resource and whose stored need of the same
resource is positive closes a cycle of length two. -/
theorem hold_and_stored_need_cycle (s : SystemState) (rag : RAG) (p r : Nat)
    (hp : p < s.num_processes.toNat) (hr : r < s.num_resources.toNat)
    (hhold : s.allocation p r > 0)
    (hstored : wrap_int (s.max_need p r - s.allocation p r) > 0) :
    has_cycle (build_rag (calculate_need_matrix s) rag) := by
  have h1 : rag_edge (build_rag (calculate_need_matrix s) rag) p (s.num_processes.toNat + r) :=
    (rag_edge_iff s rag _ _).2 (Or.inr ⟨p, r, hp, hr, hstored, rfl, rfl⟩)
  have h2 : rag_edge (build_rag (calculate_need_matrix s) rag) (s.num_processes.toNat + r) p :=
    (rag_edge_iff s rag _ _).2 (Or.inl ⟨p, r, hp, hr, hhold, rfl, rfl⟩)
  exact ⟨p, Relation.TransGen.tail (Relation.TransGen.single h1) h2⟩

/-- A process that holds units of a resource and still needs units of the same
resource closes a cycle of length two. -/
theorem hold_and_need_cycle (s : SystemState) (rag : RAG) (p r : Nat)
    (hp : p < s.num_processes.toNat) (hr : r < s.num_resources.toNat)
    (hmax : s.max_need p r ≤ INT_MAX)
    (hhold : s.allocation p r > 0) (hneed : s.max_need p r - s.allocation p r > 0) :
    has_cycle (build_rag (calculate_need_matrix s) rag) := by
  have hfit : IsInt (s.max_need p r - s.allocation p r) := by
    unfold IsInt INT_MIN
    unfold INT_MAX at hmax ⊢
    constructor <;> omega
  have hstored : wrap_int (s.max_need p r - s.allocation p r) > 0 := by
    rw [wrap_int_of_isInt _ hfit]
    exact hneed
  exact hold_and_stored_need_cycle s rag p r hp hr hhold hstored

/-- Claim C22. On scenario B's state, `calculate_need_matrix`, then `build_rag`
(into any `RAG` variable), then `detect_cycle_rag` returns `true`. -/
theorem scenario_B_has_cycle (rag : RAG) :
    detect_cycle_rag (build_rag (calculate_need_matrix scenario_B) rag) = some true :=
  detect_cycle_rag_of_cycle _
    (hold_and_need_cycle scenario_B rag 0 0 (by decide) (by decide) (by decide) (by decide)
      (by decide))

/-- Claim C23. Cycle existence and deadlock need not coincide for multi-instance
resources: on scenario A `detect_deadlock` returns `is_deadlocked = false` while
`detect_cycle_rag` on the graph built from the same state returns `true`; and in
every state, a process `p` with `allocation[p][r] > 0` and `need[p][r] > 0` for the
same in-range `r` makes `detect_cycle_rag` return `true`, the need being the one
`calculate_need_matrix` stores; so does a process with `allocation[p][r] > 0` and
`max_need[p][r] - allocation[p][r] > 0`, `max_need[p][r]` being an `int` value. -/
theorem cycle_without_deadlock :
    ((detect_deadlock scenario_A).map (fun out => out.2.is_deadlocked) = some false ∧
      ∀ rag, detect_cycle_rag (build_rag (calculate_need_matrix scenario_A) rag) = some true) ∧
    (∀ (s : SystemState) (rag : RAG) (p r : Nat),
      p < s.num_processes.toNat → r < s.num_resources.toNat →
      s.allocation p r > 0 → (calculate_need_matrix s).need p r > 0 →
      detect_cycle_rag (build_rag (calculate_need_matrix s) rag) = some true) ∧
    ∀ (s : SystemState) (rag : RAG) (p r : Nat),
      p < s.num_processes.toNat → r < s.num_resources.toNat →
      s.max_need p r ≤ INT_MAX →
      s.allocation p r > 0 → s.max_need p r - s.allocation p r > 0 →
      detect_cycle_rag (build_rag (calculate_need_matrix s) rag) = some true := by
  refine ⟨⟨by decide, fun rag => ?_⟩, ?_, ?_⟩
  · exact detect_cycle_rag_of_cycle _
      (hold_and_need_cycle scenario_A rag 1 0 (by decide) (by decide) (by decide) (by decide)
        (by decide))
  · intro s rag p r hp hr hhold hneed
    rw [calculate_need_matrix_need s p r hp hr] at hneed
    exact detect_cycle_rag_of_cycle _ (hold_and_stored_need_cycle s rag p r hp hr hhold hneed)
  · intro s rag p r hp hr hmax hhold hneed
    exact detect_cycle_rag_of_cycle _ (hold_and_need_cycle s rag p r hp hr hmax hhold hneed)

/-! ## Negative need -/

/-- Claim C24, counterexample. With `max_need[0][0] = 0 < allocation[0][0] = 1`
`detect_deadlock` stores `need[0][0] = -1`, discharges process 0 into the safe
sequence and reports `is_deadlocked = false`. -/
theorem detect_deadlock_accepts_negative_need :
    negative_need_state.max_need 0 0 < negative_need_state.allocation 0 0 ∧
      (detect_deadlock negative_need_state).map (fun out => (out.2, out.1.need 0 0))
        = some ({ is_deadlocked := false, deadlocked_processes := [], safe_sequence := [0] },
            -1) := by
  decide

/-- Claim C24, amended. For every state in which `max_need[p][r] < allocation[p][r]`
for some in-range `p` and `r`, the difference being at least `INT_MIN`,
`detect_deadlock` returns and stores the exact (unclamped) negative difference in
`need[p][r]`; the verdict is an ordinary one, in which `p` is listed in the safe
sequence or among the deadlocked processes. -/
theorem detect_deadlock_negative_need (s : SystemState) (p r : Nat)
    (hp : p < s.num_processes.toNat) (hr : r < s.num_resources.toNat)
    (hneg : s.max_need p r < s.allocation p r)
    (hfit : INT_MIN ≤ s.max_need p r - s.allocation p r) :
    ∃ s1 res, detect_deadlock s = some (s1, res) ∧
      s1.need p r = s.max_need p r - s.allocation p r ∧ s1.need p r < 0 ∧
      (p ∈ res.safe_sequence ∨ p ∈ res.deadlocked_processes) := by
  obtain ⟨fin, hshape, -, -, hrun⟩ := detect_deadlock_run s
  have hint : IsInt (s.max_need p r - s.allocation p r) := by
    unfold IsInt INT_MAX
    unfold INT_MIN at hfit ⊢
    constructor <;> omega
  refine ⟨_, _, hrun _ (le_refl _), ?_, ?_, ?_⟩
  · exact calculate_need_matrix_need_exact s p r hp hr hint
  · rw [calculate_need_matrix_need_exact s p r hp hr hint]
    omega
  · have hperm := scan_partition s fin hshape
    exact List.mem_append.1 (hperm.mem_iff.2 (List.mem_range.2 hp))

theorem detect_deadlock_negative_need_witness :
    ((0 : Nat) < negative_need_state.num_processes.toNat ∧
      (0 : Nat) < negative_need_state.num_resources.toNat ∧
      negative_need_state.max_need 0 0 < negative_need_state.allocation 0 0 ∧
      INT_MIN ≤ negative_need_state.max_need 0 0 - negative_need_state.allocation 0 0) ∧
    ∃ s1 res, detect_deadlock negative_need_state = some (s1, res) ∧
      s1.need 0 0 = negative_need_state.max_need 0 0 - negative_need_state.allocation 0 0 ∧
      s1.need 0 0 < 0 ∧ (0 ∈ res.safe_sequence ∨ 0 ∈ res.deadlocked_processes) :=
  ⟨by decide, detect_deadlock_negative_need negative_need_state 0 0
    (by decide) (by decide) (by decide) (by decide)⟩

/-! ## The deadlocked set -/

theorem replay_work_split (s : SystemState) (l1 l2 : List Nat) (w : Nat → Int) :
    replay_work s (l1 ++ l2) w = replay_work s l2 (replay_work s l1 w) := by
  induction l1 generalizing w with
  | nil => rfl
  | cons q l ih => exact ih _

theorem valid_discharge_split (s : SystemState) (l1 l2 : List Nat) (w : Nat → Int) :
    valid_discharge s (l1 ++ l2) w ↔
      valid_discharge s l1 w ∧ valid_discharge s l2 (replay_work s l1 w) := by
  induction l1 generalizing w with
  | nil => simp [valid_discharge, replay_work]
  | cons q l ih =>
    show (_ ∧ valid_discharge s (l ++ l2) _) ↔ _
    rw [ih]
    simp only [valid_discharge, replay_work, and_assoc]

/-- In a valid discharge order the need of each process fits the work vector left
by the processes before it. -/
theorem valid_discharge_need_le (s : SystemState) (l1 l2 : List Nat) (p : Nat) (w : Nat → Int)
    (h : valid_discharge s (l1 ++ p :: l2) w) (r : Nat) (hr : r < s.num_resources.toNat) :
    s.max_need p r - s.allocation p r ≤ replay_work s l1 w r :=
  ((valid_discharge_split s l1 (p :: l2) w).1 h).2.1 r hr

/-- With non-negative allocations the work vector only grows along a discharge. -/
theorem replay_work_mono (s : SystemState) (l1 l2 : List Nat) (w : Nat → Int) (r : Nat)
    (h : ∀ q, q ∈ l2 → 0 ≤ s.allocation q r) :
    replay_work s l1 w r ≤ replay_work s (l1 ++ l2) w r := by
  rw [replay_work_sum, replay_work_sum, List.map_append, List.sum_append]
  have : 0 ≤ (l2.map (fun q => s.allocation q r)).sum := by
    apply List.sum_nonneg
    intro x hx
    obtain ⟨q, hq, rfl⟩ := List.mem_map.1 hx
    exact h q hq
  omega

/-- Claim C25, counterexample. With `allocation[1][0] = -1` both processes are
discharged (`deadlocked_processes` is empty), yet at the final work vector, `0`,
process 0 has `max_need[0][0] - allocation[0][0] = 1 > work[0]`. -/
theorem finished_process_exceeds_final_work :
    (detect_deadlock shrinking_work_state).map Prod.snd
        = some { is_deadlocked := false, deadlocked_processes := [], safe_sequence := [0, 1] } ∧
      replay_work shrinking_work_state [0, 1] shrinking_work_state.available 0 = 0 ∧
      shrinking_work_state.max_need 0 0 - shrinking_work_state.allocation 0 0 = 1 := by
  decide

/-- Claim C25, amended. For every state whose in-range allocation entries are
non-negative and whose differences `max_need - allocation` and resource units fit in
an `int`, `deadlocked_processes` returned by `detect_deadlock` is the strictly
ascending list of exactly those processes `p` for which, at the final work vector
(`available` plus the allocation rows of all processes in `safe_sequence`), some
resource `r` has `max_need[p][r] - allocation[p][r] > work[r]`; and `is_deadlocked`
is true if and only if this list is non-empty. -/
theorem deadlocked_processes_characterised (s : SystemState)
    (hpos : ∀ i, i < s.num_processes.toNat → ∀ j, j < s.num_resources.toNat →
      0 ≤ s.allocation i j)
    (hN : NeedFits s) (hW : WorkFits s) :
    ∃ s1 res, detect_deadlock s = some (s1, res) ∧
      res.deadlocked_processes.Pairwise (fun a b => a < b) ∧
      (∀ p, p ∈ res.deadlocked_processes ↔
        p < s.num_processes.toNat ∧ ∃ r, r < s.num_resources.toNat ∧
          s.max_need p r - s.allocation p r
            > replay_work s res.safe_sequence s.available r) ∧
      (res.is_deadlocked = true ↔ res.deadlocked_processes ≠ []) := by
  obtain ⟨fin, hinv, hstuck, hrun⟩ := detect_deadlock_spec s hN hW
  have hfull := hrun _ (le_refl _)
  rw [← detect_deadlock_eq] at hfull
  obtain ⟨-, hsorted, -, hflag⟩ := detect_deadlock_shape s _ _ hfull
  refine ⟨_, _, hfull, hsorted, ?_, hflag⟩
  intro p
  show p ∈ unfinished s fin.finish ↔ _
  unfold unfinished
  rw [List.mem_filter, List.mem_range]
  constructor
  · rintro ⟨hp, hf⟩
    obtain ⟨r, hr, hlt⟩ := hstuck p hp (by simpa using hf)
    refine ⟨hp, r, hr, ?_⟩
    show _ > replay_work s fin.safe_sequence s.available r
    rw [← hinv.work_eq r hr]
    exact hlt
  · rintro ⟨hp, r, hr, hgt⟩
    refine ⟨hp, ?_⟩
    by_contra hfin
    have hfin2 : fin.finish p = true := by simpa using hfin
    obtain ⟨l1, l2, hsplit⟩ := List.append_of_mem ((hinv.mem_iff p).2 hfin2)
    have hvalid := hinv.valid
    have hgt2 : s.max_need p r - s.allocation p r
        > replay_work s fin.safe_sequence s.available r := hgt
    rw [hsplit] at hvalid hgt2
    have h1 := valid_discharge_need_le s l1 l2 p s.available hvalid r hr
    have h2 := replay_work_mono s l1 (p :: l2) s.available r (by
      intro q hq
      have hq2 : q ∈ fin.safe_sequence := by
        rw [hsplit]
        exact List.mem_append_right _ hq
      exact hpos q (hinv.lt q hq2) r hr)
    omega

theorem deadlocked_processes_characterised_witness :
    ((∀ i, i < scenario_B.num_processes.toNat → ∀ j, j < scenario_B.num_resources.toNat →
        0 ≤ scenario_B.allocation i j) ∧ NeedFits scenario_B ∧ WorkFits scenario_B) ∧
      ∃ s1 res, detect_deadlock scenario_B = some (s1, res) ∧
        res.deadlocked_processes.Pairwise (fun a b => a < b) ∧
        (∀ p, p ∈ res.deadlocked_processes ↔
          p < scenario_B.num_processes.toNat ∧ ∃ r, r < scenario_B.num_resources.toNat ∧
            scenario_B.max_need p r - scenario_B.allocation p r
              > replay_work scenario_B res.safe_sequence scenario_B.available r) ∧
        (res.is_deadlocked = true ↔ res.deadlocked_processes ≠ []) :=
  ⟨by decide, deadlocked_processes_characterised scenario_B (by decide) (by decide)
    (by decide)⟩

/-! ## The need matrix after an operation -/

/-- Claim C27, counterexample. On scenario A the request (process 1, resource 0,
amount 1) is granted; after the call `need[1][0]` is `0`, the value computed for
the trial allocation, while `max_need[1][0] - allocation[1][0]` is `1`. -/
theorem cmd_simulate_leaves_trial_need :
    (cmd_simulate scenario_A 1 0 1).map
        (fun out => (out.2.granted, out.1.need 1 0, out.1.max_need 1 0 - out.1.allocation 1 0))
      = some (true, 0, 1) := by
  decide

theorem needOK_of_stored (s : SystemState) (h : NeedStored s) (hN : NeedFits s) : NeedOK s := by
  intro i j hi hj
  rw [h i j hi hj, wrap_int_of_isInt _ (hN i hi j hj)]

theorem wrap_int_sub_wrap (x y : Int) : wrap_int (x - wrap_int y) = wrap_int (x - y) := by
  unfold wrap_int
  omega

/-- Claim C27, amended. After `detect_deadlock`, after `cmd_resolve` (on every
exit path), after `resolve_deadlock` on a deadlocked result, and after
`cmd_simulate` on its "exceeds remaining need" path, `need[p][r]` is the `int`
difference of `max_need[p][r]` and `allocation[p][r]` for all in-range `p`, `r`,
with the values the caller sees after the call; it is
`max_need[p][r] - allocation[p][r]` whenever these differences fit in an `int`.
After `cmd_simulate` on its two trial paths (granted or unsafe) the need matrix is
the one of the trial state: `need[process][resource]` is the `int` value of
`max_need - allocation - amount`, and the other in-range entries are the `int`
differences of `max_need` and `allocation`. -/
theorem need_after_operations :
    (∀ s : SystemState, ∃ s1 r, detect_deadlock s = some (s1, r) ∧ NeedStored s1) ∧
    (∀ (s : SystemState) (ov : Int), ∃ s2 reply, cmd_resolve s ov = some (s2, reply) ∧
      NeedStored s2) ∧
    (∀ (st : SystemState) (res : DetectionResult), res.is_deadlocked = true →
      res.deadlocked_processes ≠ [] →
      ∃ s2 r2, resolve_deadlock st res = some (s2, r2) ∧ NeedStored s2) ∧
    (∀ (s : SystemState) (pi rj amount : Int),
      ∃ s2 reply, cmd_simulate s pi rj amount = some (s2, reply) ∧
        (reply.message = "Request exceeds remaining need." → NeedStored s2) ∧
        (reply.message = "Granting would keep the system safe." ∨
            reply.message = "Granting would lead to unsafe state." →
          ∀ p r, p < s2.num_processes.toNat → r < s2.num_resources.toNat →
            s2.need p r = wrap_int (s2.max_need p r - s2.allocation p r
              - (if p = pi.toNat ∧ r = rj.toNat then amount else 0)))) ∧
    ∀ s : SystemState, NeedStored s → NeedFits s → NeedOK s := by
  refine ⟨?_, ?_, ?_, ?_, needOK_of_stored⟩
  · intro s
    obtain ⟨r, hr, -⟩ := detect_deadlock_calculate s
    exact ⟨_, r, hr, calculate_need_matrix_needStored s⟩
  · intro s ov
    obtain ⟨r, -, hcases⟩ := cmd_resolve_cases s ov
    rcases hcases with ⟨-, h⟩ | ⟨-, -, r2, -, h⟩ | ⟨-, -, -, h⟩ | ⟨-, -, -, r2, -, h⟩
    · exact ⟨_, _, h, calculate_need_matrix_needStored _⟩
    · exact ⟨_, _, h, calculate_need_matrix_needStored _⟩
    · exact ⟨_, _, h, calculate_need_matrix_needStored _⟩
    · exact ⟨_, _, h, calculate_need_matrix_needStored _⟩
  · intro st res hdl hne
    have hlen : res.deadlocked_processes.length ≠ 0 := by
      intro h0
      exact hne (List.length_eq_zero.1 h0)
    have hcond : (!res.is_deadlocked || res.deadlocked_processes.length == 0) = false := by
      simp [hdl, hlen]
    obtain ⟨r2, hr2, -⟩ := detect_deadlock_calculate
      (resolve_release st (resolve_select st res))
    refine ⟨calculate_need_matrix (resolve_release st (resolve_select st res)), r2, ?_,
      calculate_need_matrix_needStored _⟩
    unfold resolve_deadlock
    rw [hcond]
    simp only [Bool.false_eq_true, if_false]
    exact hr2
  · intro s pi rj amount
    rcases cmd_simulate_cases s pi rj amount with
      ⟨-, h⟩ | ⟨-, -, h⟩ | ⟨-, -, -, h⟩ | ⟨h1, -, -, res, -, h⟩
    · exact ⟨_, _, h, fun hm => absurd hm (by decide),
        fun hm => absurd hm (by decide)⟩
    · exact ⟨_, _, h, fun hm => absurd hm (by decide),
        fun hm => absurd hm (by decide)⟩
    · exact ⟨_, _, h, fun _ => calculate_need_matrix_needStored s,
        fun hm => absurd hm (by decide)⟩
    · refine ⟨_, _, h, ?_, fun _ => ?_⟩
      · intro hm
        exfalso
        by_cases hd : res.is_deadlocked = false
        · rw [if_pos hd] at hm
          exact absurd hm (by decide)
        · rw [if_neg hd] at hm
          exact absurd hm (by decide)
      · intro p r hp hr
        show (calculate_need_matrix (trial s pi.toNat rj.toNat amount)).need p r
          = wrap_int (s.max_need p r
              - upd2 s.allocation pi.toNat rj.toNat (wrap_int (s.allocation pi.toNat rj.toNat)) p r
              - _)
        have hp2 : p < (trial s pi.toNat rj.toNat amount).num_processes.toNat := hp
        have hr2 : r < (trial s pi.toNat rj.toNat amount).num_resources.toNat := hr
        rw [calculate_need_matrix_need (trial s pi.toNat rj.toNat amount) p r hp2 hr2]
        show wrap_int (s.max_need p r
            - upd2 s.allocation pi.toNat rj.toNat
                (wrap_int (s.allocation pi.toNat rj.toNat + amount)) p r)
          = _
        rw [upd2_apply, upd2_apply]
        by_cases hpr : p = pi.toNat ∧ r = rj.toNat
        · rw [if_pos hpr, if_pos hpr, if_pos hpr, hpr.1, hpr.2, wrap_int_sub_wrap]
          have hrew : s.max_need pi.toNat rj.toNat - wrap_int (s.allocation pi.toNat rj.toNat)
              - amount
              = s.max_need pi.toNat rj.toNat - amount
                - wrap_int (s.allocation pi.toNat rj.toNat) := by ring
          rw [hrew, wrap_int_sub_wrap]
          congr 1
          ring
        · rw [if_neg hpr, if_neg hpr, if_neg hpr, sub_zero]

/-! ## One termination per resolution call -/

theorem apply_victim_other_rows (s : SystemState) (v p r : Nat) (hpv : p ≠ v) :
    (apply_victim s v).allocation p r = s.allocation p r ∧
      (apply_victim s v).max_need p r = s.max_need p r := by
  rw [apply_victim_eq]
  simp [hpv]

theorem resolve_release_other_rows (s : SystemState) (v p r : Nat) (hpv : p ≠ v) :
    (resolve_release s v).allocation p r = s.allocation p r ∧
      (resolve_release s v).max_need p r = s.max_need p r := by
  rw [resolve_release_eq]
  simp [hpv]

/-- Claim C28. One resolution call applies exactly one termination: for
`cmd_resolve` and for `resolve_deadlock` on a deadlocked state, `num_processes` and
`num_resources` are unchanged, the allocation and maximum rows of every process
other than the victim are unchanged, and the result returned (or stored) is what
`detect_deadlock` gives on the state after the termination. -/
theorem one_termination_per_call (s : SystemState) (res : DetectionResult)
    (hdet : (detect_deadlock s).map Prod.snd = some res) (hdl : res.is_deadlocked = true) :
    (∀ ov : Int, ov < 0 ∨ ov.toNat ∈ res.deadlocked_processes →
      ∃ s2 r2 v, cmd_resolve s ov = some (s2, .resolved r2 (v : Nat)) ∧
        s2.num_processes = s.num_processes ∧ s2.num_resources = s.num_resources ∧
        (∀ p r, p ≠ v →
          s2.allocation p r = s.allocation p r ∧ s2.max_need p r = s.max_need p r) ∧
        (detect_deadlock (apply_victim s v)).map Prod.snd = some r2 ∧
        (detect_deadlock s2).map Prod.snd = some r2) ∧
    ∃ s2 r2, resolve_deadlock (calculate_need_matrix s) res = some (s2, r2) ∧
      s2.num_processes = s.num_processes ∧ s2.num_resources = s.num_resources ∧
      (∀ p r, p ≠ resolve_select (calculate_need_matrix s) res →
        s2.allocation p r = s.allocation p r ∧ s2.max_need p r = s.max_need p r) ∧
      (detect_deadlock (resolve_release s (resolve_select (calculate_need_matrix s) res))).map
          Prod.snd = some r2 ∧
      (detect_deadlock s2).map Prod.snd = some r2 := by
  constructor
  · intro ov hov
    obtain ⟨s2, r2, v, h, -, -, -, hnp, hnr, hav, hal, hmx, hres⟩ :=
      cmd_resolve_resolved s res ov hdet hdl hov
    refine ⟨s2, r2, v, h, hnp, hnr, ?_, hres, ?_⟩
    · intro p r hpv
      rw [hal, hmx]
      exact apply_victim_other_rows s v p r hpv
    · rw [detect_deadlock_congr (apply_victim s v) s2
        (by rw [hnp, apply_victim_num_processes]) (by rw [hnr, apply_victim_num_resources])
        hav hal hmx]
      exact hres
  · obtain ⟨s2, r2, h, -, -, hnp, hnr, hav, hal, hmx, hres⟩ :=
      resolve_deadlock_resolved s res hdet hdl
    rw [resolve_select_eq, pick_victim_calculate]
    refine ⟨s2, r2, h, hnp, hnr, ?_, hres, ?_⟩
    · intro p r hpv
      rw [hal, hmx]
      exact resolve_release_other_rows s _ p r hpv
    · rw [detect_deadlock_congr (resolve_release s (pick_victim s res)) s2
        (by rw [hnp, resolve_release_eq]) (by rw [hnr, resolve_release_eq]) hav hal hmx]
      exact hres

theorem one_termination_per_call_witness :
    ((detect_deadlock scenario_B).map Prod.snd = some ⟨true, [0, 1, 2, 3], []⟩ ∧
      (⟨true, [0, 1, 2, 3], []⟩ : DetectionResult).is_deadlocked = true) ∧
    ∃ s2 r2, resolve_deadlock (calculate_need_matrix scenario_B) ⟨true, [0, 1, 2, 3], []⟩
        = some (s2, r2) ∧
      s2.num_processes = scenario_B.num_processes ∧
      s2.num_resources = scenario_B.num_resources ∧
      (∀ p r, p ≠ resolve_select (calculate_need_matrix scenario_B) ⟨true, [0, 1, 2, 3], []⟩ →
        s2.allocation p r = scenario_B.allocation p r ∧
          s2.max_need p r = scenario_B.max_need p r) ∧
      (detect_deadlock (resolve_release scenario_B
          (resolve_select (calculate_need_matrix scenario_B) ⟨true, [0, 1, 2, 3], []⟩))).map
          Prod.snd = some r2 ∧
      (detect_deadlock s2).map Prod.snd = some r2 :=
  ⟨by decide, (one_termination_per_call scenario_B ⟨true, [0, 1, 2, 3], []⟩
    (by decide) (by decide)).2⟩

/-- Claim C30, the code at the failing input. On scenario B, a valid deadlocked
state, `resolve_deadlock` leaves all four processes deadlocked: the victim,
process 3, keeps `max_need[3] = [0, 1, 1]` and cannot be discharged. Every further
call selects process 3 again and changes nothing, so `num_deadlocked` is still `4`
after four calls. -/
theorem resolve_deadlock_no_progress :
    (resolve_deadlock scenario_B ⟨true, [0, 1, 2, 3], []⟩).map Prod.snd
        = some { is_deadlocked := true, deadlocked_processes := [0, 1, 2, 3], safe_sequence := [] } ∧
      (((fun (o : Option (SystemState × DetectionResult)) =>
            o.bind (fun x => resolve_deadlock x.1 x.2))^[4]
          (some (scenario_B, ⟨true, [0, 1, 2, 3], []⟩))).map Prod.snd)
        = some { is_deadlocked := true, deadlocked_processes := [0, 1, 2, 3], safe_sequence := [] } := by
  decide

/-! ## Progress of `cmd_resolve` -/

/-- A result of `detect_deadlock` on a state whose need differences and resource
units fit in an `int`, together with the final loop state it was read from. -/
theorem detect_deadlock_result (s : SystemState) (res : DetectionResult)
    (hN : NeedFits s) (hW : WorkFits s)
    (hdet : (detect_deadlock s).map Prod.snd = some res) :
    ∃ fin : Scan, ScanInv s fin ∧
      (∀ i, i < s.num_processes.toNat → fin.finish i = false →
        ∃ r, r < s.num_resources.toNat ∧ fin.work r < s.max_need i r - s.allocation i r) ∧
      res.safe_sequence = fin.safe_sequence ∧
      res.deadlocked_processes = unfinished s fin.finish := by
  obtain ⟨fin, hinv, hstuck, hrun⟩ := detect_deadlock_spec s hN hW
  have hfull := hrun _ (le_refl _)
  rw [← detect_deadlock_eq] at hfull
  rw [hfull] at hdet
  simp only [Option.map_some', Option.some.injEq] at hdet
  subst hdet
  exact ⟨fin, hinv, hstuck, rfl, rfl⟩

theorem mem_unfinished (s : SystemState) (finish : Nat → Bool) (p : Nat) :
    p ∈ unfinished s finish ↔ p < s.num_processes.toNat ∧ finish p = false := by
  unfold unfinished
  rw [List.mem_filter, List.mem_range]
  simp

/-- A discharge order that avoids process `v` stays valid when the maximum and
allocation rows of `v` change and the work vector does not shrink. -/
theorem valid_discharge_transfer (s t : SystemState) (v : Nat)
    (hnr : t.num_resources = s.num_resources)
    (hal : ∀ p r, p ≠ v → t.allocation p r = s.allocation p r)
    (hmx : ∀ p r, p ≠ v → t.max_need p r = s.max_need p r)
    (l : List Nat) (hl : ∀ p, p ∈ l → p ≠ v) (w w2 : Nat → Int)
    (hw : ∀ r, r < s.num_resources.toNat → w r ≤ w2 r)
    (h : valid_discharge s l w) : valid_discharge t l w2 := by
  induction l generalizing w w2 with
  | nil => trivial
  | cons p ps ih =>
    obtain ⟨h1, h2⟩ := h
    have hpv : p ≠ v := hl p (List.mem_cons_self _ _)
    refine ⟨?_, ?_⟩
    · intro r hr
      rw [hnr] at hr
      rw [hal p r hpv, hmx p r hpv]
      exact le_trans (h1 r hr) (hw r hr)
    · refine ih (fun q hq => hl q (List.mem_cons_of_mem _ hq)) _ _ ?_ h2
      intro r hr
      rw [hal p r hpv]
      have := hw r hr
      omega

theorem restart_scan_pick_none (s : SystemState) (work : Nat → Int) (seq : List Nat) :
    restart_scan_pick s work seq = none ↔
      ∀ p, p < s.num_processes.toNat → p ∉ seq →
        ∃ r, r < s.num_resources.toNat ∧ work r < s.max_need p r - s.allocation p r := by
  unfold restart_scan_pick
  rw [List.find?_eq_none]
  constructor
  · intro h p hp hps
    have h1 := h p (List.mem_range.2 hp)
    simp only [Bool.and_eq_true, Bool.not_eq_true', List.all_eq_true, decide_eq_true_eq,
      List.mem_range, not_and, not_forall, decide_not, decide_eq_false_iff_not] at h1
    obtain ⟨r, hr, hlt⟩ := h1 hps
    exact ⟨r, hr, by omega⟩
  · intro h p hp
    simp only [Bool.and_eq_true, Bool.not_eq_true', List.all_eq_true, decide_eq_true_eq,
      List.mem_range, not_and, not_forall, decide_not, decide_eq_false_iff_not]
    intro hps
    obtain ⟨r, hr, hlt⟩ := h p (List.mem_range.1 hp) hps
    exact ⟨r, hr, by omega⟩

theorem restart_scan_pick_some (s : SystemState) (work : Nat → Int) (seq : List Nat) (p : Nat)
    (h : restart_scan_pick s work seq = some p) :
    p < s.num_processes.toNat ∧ p ∉ seq ∧
      ∀ r, r < s.num_resources.toNat → s.max_need p r - s.allocation p r ≤ work r := by
  unfold restart_scan_pick at h
  have hmem := List.mem_of_find?_eq_some h
  have hprop := List.find?_some h
  simp only [Bool.and_eq_true, Bool.not_eq_true', List.all_eq_true, decide_eq_true_eq,
    List.mem_range, decide_not, decide_eq_false_iff_not] at hprop
  exact ⟨List.mem_range.1 hmem, hprop.1, hprop.2⟩

/-- The reference procedure ends, within the fuel given, in a valid discharge order
that no further process can extend. -/
theorem restart_scan_spec (s : SystemState) (fuel : Nat) :
    ∀ (work : Nat → Int) (seq : List Nat), seq.Nodup →
      (∀ p, p ∈ seq → p < s.num_processes.toNat) →
      valid_discharge s seq s.available → work = replay_work s seq s.available →
      s.num_processes.toNat ≤ fuel + seq.length →
      (restart_scan s fuel work seq).Nodup ∧
        (∀ p, p ∈ restart_scan s fuel work seq → p < s.num_processes.toNat) ∧
        valid_discharge s (restart_scan s fuel work seq) s.available ∧
        restart_scan_pick s (replay_work s (restart_scan s fuel work seq) s.available)
          (restart_scan s fuel work seq) = none := by
  induction fuel with
  | zero =>
    intro work seq hnd hlt hval hw hlen
    have heq : restart_scan s 0 work seq = seq := rfl
    rw [heq]
    refine ⟨hnd, hlt, hval, ?_⟩
    rw [restart_scan_pick_none]
    intro p hp hps
    exfalso
    have hsub : (p :: seq) ⊆ List.range s.num_processes.toNat := by
      intro x hx
      rcases List.mem_cons.1 hx with rfl | hx
      · exact List.mem_range.2 hp
      · exact List.mem_range.2 (hlt x hx)
    have hle := (List.subperm_of_subset (List.nodup_cons.2 ⟨hps, hnd⟩) hsub).length_le
    rw [List.length_range, List.length_cons] at hle
    omega
  | succ fuel ih =>
    intro work seq hnd hlt hval hw hlen
    cases hpick : restart_scan_pick s work seq with
    | none =>
      have heq : restart_scan s (fuel + 1) work seq = seq := by
        simp only [restart_scan, hpick]
      rw [heq]
      exact ⟨hnd, hlt, hval, by rw [← hw]; exact hpick⟩
    | some p =>
      have heq : restart_scan s (fuel + 1) work seq
          = restart_scan s fuel (fun r => work r + s.allocation p r) (seq ++ [p]) := by
        simp only [restart_scan, hpick]
      rw [heq]
      obtain ⟨hp, hps, hfit⟩ := restart_scan_pick_some s work seq p hpick
      apply ih
      · rw [List.nodup_append]
        refine ⟨hnd, List.nodup_singleton p, ?_⟩
        intro x hx hx2
        rw [List.mem_singleton] at hx2
        exact hps (hx2 ▸ hx)
      · intro q hq
        rcases List.mem_append.1 hq with hq | hq
        · exact hlt q hq
        · rw [List.mem_singleton] at hq
          rw [hq]
          exact hp
      · rw [valid_discharge_append]
        refine ⟨hval, ?_⟩
        intro r hr
        rw [← hw]
        exact hfit r hr
      · rw [replay_work_append, hw]
      · rw [List.length_append, List.length_singleton]
        omega

/-- Claim C26, the sequence itself. On the first sample scenario of `main.c`, a
valid state, `detect_deadlock` returns the safe sequence 1, 3, 4, 0, 2 (the order
that `main.c` announces), while the restart-scan reference procedure gives
1, 3, 0, 2, 4. -/
theorem safe_sequence_differs_from_restart_scan :
    NonNegative scenario_A ∧
    (∀ i, i < scenario_A.num_processes.toNat → ∀ j, j < scenario_A.num_resources.toNat →
      scenario_A.allocation i j ≤ scenario_A.max_need i j) ∧
    (detect_deadlock scenario_A).map (fun out => out.2.safe_sequence) = some [1, 3, 4, 0, 2] ∧
    restart_scan_sequence scenario_A = [1, 3, 0, 2, 4] ∧
    (detect_deadlock scenario_A).map (fun out => out.2.safe_sequence)
      ≠ some (restart_scan_sequence scenario_A) :=
  ⟨⟨by decide, by decide⟩, by decide, by decide, by decide, by decide⟩

/-- Claim C26, as the code has it. For every state with non-negative in-range
allocation whose differences `max_need - allocation` and resource units fit in an
`int`, the restart-scan reference procedure stops within `num_processes`
discharges at a valid discharge order that no unfinished process can extend, and
the `safe_sequence` of `detect_deadlock` is a permutation of it: the two procedures
discharge the same processes, in possibly different orders. -/
theorem safe_sequence_perm_restart_scan (s : SystemState) (res : DetectionResult)
    (hpos : ∀ i, i < s.num_processes.toNat → ∀ j, j < s.num_resources.toNat →
      0 ≤ s.allocation i j)
    (hN : NeedFits s) (hW : WorkFits s)
    (hdet : (detect_deadlock s).map Prod.snd = some res) :
    res.safe_sequence.Perm (restart_scan_sequence s) ∧
      valid_discharge s (restart_scan_sequence s) s.available ∧
      restart_scan_pick s (replay_work s (restart_scan_sequence s) s.available)
        (restart_scan_sequence s) = none := by
  obtain ⟨fin, hinv, hstuck, hseq, -⟩ := detect_deadlock_result s res hN hW hdet
  have hspec := restart_scan_spec s s.num_processes.toNat s.available [] List.nodup_nil
    (fun p hp => absurd hp (List.not_mem_nil p)) trivial rfl (by simp)
  change (restart_scan_sequence s).Nodup ∧
    (∀ p, p ∈ restart_scan_sequence s → p < s.num_processes.toNat) ∧
    valid_discharge s (restart_scan_sequence s) s.available ∧
    restart_scan_pick s (replay_work s (restart_scan_sequence s) s.available)
      (restart_scan_sequence s) = none at hspec
  obtain ⟨hnd, hlt, hval, hnone⟩ := hspec
  refine ⟨?_, hval, hnone⟩
  rw [hseq]
  rw [List.perm_ext_iff_of_nodup hinv.nodup hnd]
  intro x
  change x ∈ fin.safe_sequence ↔ x ∈ restart_scan_sequence s
  constructor
  · intro hx
    have hinv2 : ScanInv s
        { work := replay_work s (restart_scan_sequence s) s.available
          finish := fun p => decide (p ∈ restart_scan_sequence s)
          safe_sequence := restart_scan_sequence s
          found := false } :=
      { nodup := hnd
        mem_iff := fun i => by simp
        lt := hlt
        valid := hval
        work_eq := fun r _ => rfl }
    have hstuck2 := (restart_scan_pick_none s _ _).1 hnone
    have h := order_finished s _ hinv2
      (fun i hi hfi => hstuck2 i hi (by simpa using hfi)) hpos
      fin.safe_sequence ∅ s.available (fun q hq => absurd hq (Finset.not_mem_empty q))
      (fun r _ => by simp) hinv.nodup (fun x _ => Finset.not_mem_empty x) hinv.lt hinv.valid x hx
    simpa using h
  · intro hx
    have h := order_finished s fin hinv hstuck hpos
      (restart_scan_sequence s) ∅ s.available (fun q hq => absurd hq (Finset.not_mem_empty q))
      (fun r _ => by simp) hnd (fun x _ => Finset.not_mem_empty x) hlt hval x hx
    exact (hinv.mem_iff x).2 h

theorem safe_sequence_perm_restart_scan_witness :
    ((∀ i, i < scenario_A.num_processes.toNat → ∀ j, j < scenario_A.num_resources.toNat →
        0 ≤ scenario_A.allocation i j) ∧ NeedFits scenario_A ∧ WorkFits scenario_A ∧
      (detect_deadlock scenario_A).map Prod.snd = some ⟨false, [], [1, 3, 4, 0, 2]⟩) ∧
    ([1, 3, 4, 0, 2] : List Nat).Perm (restart_scan_sequence scenario_A) :=
  ⟨⟨by decide, by decide, by decide, by decide⟩,
    (safe_sequence_perm_restart_scan scenario_A ⟨false, [], [1, 3, 4, 0, 2]⟩
      (by decide) (by decide) (by decide) (by decide)).1⟩

/-! ## Single-instance resources -/

theorem transGen_rank_lt (R : Nat → Nat → Prop) (rank : Nat → Nat)
    (h : ∀ u v, R u v → rank v < rank u) (u v : Nat) (huv : Relation.TransGen R u v) :
    rank v < rank u := by
  induction huv with
  | single hab => exact h _ _ hab
  | tail _ hbc ih => exact lt_trans (h _ _ hbc) ih

/-- In a finite non-empty set in which every member reaches a member by a non-empty
path, some path is a cycle. -/
theorem cycle_of_successors (R : Nat → Nat → Prop) (S : Finset Nat) (p0 : Nat) (hp0 : p0 ∈ S)
    (h : ∀ p, p ∈ S → ∃ q, q ∈ S ∧ Relation.TransGen R p q) :
    ∃ u, Relation.TransGen R u u := by
  choose! f hfS hfR using h
  have hiter : ∀ k, f^[k] p0 ∈ S := by
    intro k
    induction k with
    | zero => exact hp0
    | succ k ih =>
      rw [Function.iterate_succ_apply']
      exact hfS _ ih
  have hpath : ∀ i d, Relation.TransGen R (f^[i] p0) (f^[i + (d + 1)] p0) := by
    intro i d
    induction d with
    | zero =>
      have hidx : i + (0 + 1) = i + 1 := rfl
      rw [hidx, Function.iterate_succ_apply']
      exact hfR _ (hiter i)
    | succ d ih =>
      have hidx : i + (d + 1 + 1) = (i + (d + 1)) + 1 := rfl
      rw [hidx, Function.iterate_succ_apply']
      exact Relation.TransGen.trans ih (hfR _ (hiter _))
  have hc : S.card < (Finset.range (S.card + 1)).card := by simp
  have hm : ∀ k ∈ Finset.range (S.card + 1), (fun k => f^[k] p0) k ∈ S := fun k _ => hiter k
  obtain ⟨x, -, y, -, hne, heq⟩ := Finset.exists_ne_map_eq_of_card_lt_of_maps_to hc hm
  change f^[x] p0 = f^[y] p0 at heq
  rcases Nat.lt_or_gt_of_ne hne with hlt | hlt
  · obtain ⟨d, rfl⟩ : ∃ d, y = x + (d + 1) := ⟨y - x - 1, by omega⟩
    have hcyc := hpath x d
    rw [← heq] at hcyc
    exact ⟨_, hcyc⟩
  · obtain ⟨d, rfl⟩ : ∃ d, x = y + (d + 1) := ⟨x - y - 1, by omega⟩
    have hcyc := hpath y d
    rw [← heq] at hcyc
    exact ⟨_, hcyc⟩

theorem workFits_of_single (s : SystemState)
    (hav : ∀ r, r < s.num_resources.toNat → 0 ≤ s.available r)
    (hal : ∀ p, p < s.num_processes.toNat → ∀ r, r < s.num_resources.toNat →
      0 ≤ s.allocation p r)
    (hone : ∀ r, r < s.num_resources.toNat → resource_total s r = 1) : WorkFits s := by
  intro r hr
  have h1 : |s.available r| = s.available r := abs_of_nonneg (hav r hr)
  have h2 : ∑ p in Finset.range s.num_processes.toNat, |s.allocation p r|
      = ∑ p in Finset.range s.num_processes.toNat, s.allocation p r :=
    Finset.sum_congr rfl (fun p hp => abs_of_nonneg (hal p (Finset.mem_range.1 hp) r hr))
  have h3 := hone r hr
  unfold resource_total at h3
  rw [h1, h2, h3]
  decide

/-- With one unit per resource and claims of at most one unit, a process left
unfinished waits for a resource held by an unfinished process. -/
theorem single_instance_successor (s : SystemState) (rag : RAG) (fin : Scan)
    (hshape : ScanShape s fin)
    (hwork : ∀ r, r < s.num_resources.toNat →
      fin.work r = replay_work s fin.safe_sequence s.available r)
    (hstuck : ∀ i, i < s.num_processes.toNat → fin.finish i = false →
      ∃ r, r < s.num_resources.toNat ∧
        fin.work r < wrap_int (s.max_need i r - s.allocation i r))
    (hint : IntState s)
    (hav : ∀ r, r < s.num_resources.toNat → 0 ≤ s.available r)
    (hal : ∀ p, p < s.num_processes.toNat → ∀ r, r < s.num_resources.toNat →
      0 ≤ s.allocation p r)
    (hone : ∀ r, r < s.num_resources.toNat → resource_total s r = 1)
    (hcap : ∀ p, p < s.num_processes.toNat → ∀ r, r < s.num_resources.toNat →
      s.max_need p r ≤ 1)
    (p : Nat) (hp : p < s.num_processes.toNat) (hfin : fin.finish p = false) :
    ∃ q, (q < s.num_processes.toNat ∧ fin.finish q = false) ∧
      Relation.TransGen (rag_edge (build_rag (calculate_need_matrix s) rag)) p q := by
  obtain ⟨r, hr, hlt⟩ := hstuck p hp hfin
  have hwork2 : fin.work r
      = s.available r + ∑ q in fin.safe_sequence.toFinset, s.allocation q r := by
    rw [hwork r hr, replay_work_sum, List.sum_toFinset _ hshape.nodup]
  have hsub : fin.safe_sequence.toFinset ⊆ Finset.range s.num_processes.toNat := by
    intro x hx
    exact Finset.mem_range.2 (hshape.lt x (List.mem_toFinset.1 hx))
  have hsafe : 0 ≤ ∑ q in fin.safe_sequence.toFinset, s.allocation q r :=
    Finset.sum_nonneg (fun q hq => hal q (Finset.mem_range.1 (hsub hq)) r hr)
  have htot := hone r hr
  unfold resource_total at htot
  have hsplit : ∑ q in Finset.range s.num_processes.toNat \ fin.safe_sequence.toFinset,
        s.allocation q r + ∑ q in fin.safe_sequence.toFinset, s.allocation q r
      = ∑ q in Finset.range s.num_processes.toNat, s.allocation q r :=
    Finset.sum_sdiff hsub
  have h1 := hav r hr
  have hneed : wrap_int (s.max_need p r - s.allocation p r) > 0 := by omega
  have e1 : rag_edge (build_rag (calculate_need_matrix s) rag) p (s.num_processes.toNat + r) :=
    (rag_edge_iff s rag _ _).2 (Or.inr ⟨p, r, hp, hr, hneed, rfl, rfl⟩)
  by_cases hown : s.allocation p r > 0
  · have e2 : rag_edge (build_rag (calculate_need_matrix s) rag)
        (s.num_processes.toNat + r) p :=
      (rag_edge_iff s rag _ _).2 (Or.inl ⟨p, r, hp, hr, hown, rfl, rfl⟩)
    exact ⟨p, ⟨hp, hfin⟩, Relation.TransGen.tail (Relation.TransGen.single e1) e2⟩
  · have h3 := hal p hp r hr
    have h0 : s.allocation p r = 0 := by omega
    have hw : wrap_int (s.max_need p r - s.allocation p r) = s.max_need p r := by
      rw [h0, sub_zero]
      exact wrap_int_of_isInt _ (hint.2 p hp r hr).2
    have h2 := hcap p hp r hr
    rw [hw] at hlt
    have hrest : 0 < ∑ q in Finset.range s.num_processes.toNat \ fin.safe_sequence.toFinset,
        s.allocation q r := by omega
    obtain ⟨q, hq, hqpos⟩ :
        ∃ q, q ∈ Finset.range s.num_processes.toNat \ fin.safe_sequence.toFinset
          ∧ 0 < s.allocation q r := by
      by_contra hno
      push_neg at hno
      exact absurd (Finset.sum_nonpos hno) (not_le.2 hrest)
    rw [Finset.mem_sdiff, Finset.mem_range, List.mem_toFinset] at hq
    have hqfin : fin.finish q = false := by
      cases hf : fin.finish q with
      | false => rfl
      | true => exact absurd ((hshape.mem_iff q).2 hf) hq.2
    have e2 : rag_edge (build_rag (calculate_need_matrix s) rag)
        (s.num_processes.toNat + r) q :=
      (rag_edge_iff s rag _ _).2 (Or.inl ⟨q, r, hq.1, hr, hqpos, rfl, rfl⟩)
    exact ⟨q, ⟨hq.1, hqfin⟩, Relation.TransGen.tail (Relation.TransGen.single e1) e2⟩

/-- With one unit per resource, a process of a discharge order in which every stored
need fits the work vector, that still needs a resource, comes after the holder of
that resource. -/
theorem single_instance_holder_before (s : SystemState) (order : List Nat) (hnd : order.Nodup)
    (hlt : ∀ x, x ∈ order → x < s.num_processes.toNat)
    (hfits : ∀ l1 p l2, order = l1 ++ p :: l2 → ∀ r, r < s.num_resources.toNat →
      wrap_int (s.max_need p r - s.allocation p r) ≤ replay_work s l1 s.available r)
    (hal : ∀ p, p < s.num_processes.toNat → ∀ r, r < s.num_resources.toNat →
      0 ≤ s.allocation p r)
    (hone : ∀ r, r < s.num_resources.toNat → resource_total s r = 1)
    (p q r : Nat) (hp : p ∈ order) (hq : q < s.num_processes.toNat)
    (hr : r < s.num_resources.toNat)
    (hneed : wrap_int (s.max_need p r - s.allocation p r) > 0) (hhold : s.allocation q r > 0) :
    order.indexOf q < order.indexOf p := by
  obtain ⟨l1, l2, rfl⟩ := List.append_of_mem hp
  have hp1 : p ∉ l1 := by
    intro hmem
    have hdisj := (List.nodup_append.1 hnd).2.2
    exact hdisj hmem (List.mem_cons_self p l2)
  have hnd1 : l1.Nodup := (List.nodup_append.1 hnd).1
  have hfit := hfits l1 p l2 rfl r hr
  rw [replay_work_sum] at hfit
  have hq1 : q ∈ l1 := by
    by_contra hno
    have hsub : l1.toFinset ⊆ (Finset.range s.num_processes.toNat).erase q := by
      intro x hx
      rw [List.mem_toFinset] at hx
      rw [Finset.mem_erase, Finset.mem_range]
      refine ⟨?_, hlt x (List.mem_append_left _ hx)⟩
      rintro rfl
      exact hno hx
    have hle : ∑ x in l1.toFinset, s.allocation x r
        ≤ ∑ x in (Finset.range s.num_processes.toNat).erase q, s.allocation x r :=
      Finset.sum_le_sum_of_subset_of_nonneg hsub
        (fun x hx _ => hal x (Finset.mem_range.1 (Finset.mem_of_mem_erase hx)) r hr)
    have hsum : (l1.map (fun x => s.allocation x r)).sum = ∑ x in l1.toFinset, s.allocation x r :=
      (List.sum_toFinset (fun x => s.allocation x r) hnd1).symm
    have herase : s.allocation q r
        + ∑ x in (Finset.range s.num_processes.toNat).erase q, s.allocation x r
        = ∑ x in Finset.range s.num_processes.toNat, s.allocation x r :=
      Finset.add_sum_erase _ (fun x => s.allocation x r) (Finset.mem_range.2 hq)
    have htot := hone r hr
    unfold resource_total at htot
    omega
  rw [List.indexOf_append_of_mem hq1, List.indexOf_append_of_not_mem hp1,
    List.indexOf_cons_self]
  have := List.indexOf_lt_length.2 hq1
  omega

/-- The rank drops along every edge of the graph when `order` is a discharge order
of all processes of a single-instance state in which every stored need fits the
work vector. -/
theorem discharge_rank_decreases (s : SystemState) (rag : RAG) (order : List Nat)
    (hnd : order.Nodup) (hlt : ∀ x, x ∈ order → x < s.num_processes.toNat)
    (hall : ∀ p, p < s.num_processes.toNat → p ∈ order)
    (hfits : ∀ l1 p l2, order = l1 ++ p :: l2 → ∀ r, r < s.num_resources.toNat →
      wrap_int (s.max_need p r - s.allocation p r) ≤ replay_work s l1 s.available r)
    (hal : ∀ p, p < s.num_processes.toNat → ∀ r, r < s.num_resources.toNat →
      0 ≤ s.allocation p r)
    (hone : ∀ r, r < s.num_resources.toNat → resource_total s r = 1)
    (a b : Nat) (hab : rag_edge (build_rag (calculate_need_matrix s) rag) a b) :
    discharge_rank s order b < discharge_rank s order a := by
  rcases (rag_edge_iff s rag a b).1 hab with
    ⟨p, r, hp, hr, hpos, ha, hb⟩ | ⟨p, r, hp, hr, hpos, ha, hb⟩
  · rw [ha, hb]
    unfold discharge_rank
    rw [if_pos hp, if_neg (by omega), Nat.add_sub_cancel_left]
    have hmem : p ∈ (Finset.range s.num_processes.toNat).filter
        (fun q => s.allocation q r > 0) :=
      Finset.mem_filter.2 ⟨Finset.mem_range.2 hp, hpos⟩
    have hle : 2 * order.indexOf p + 2
        ≤ ((Finset.range s.num_processes.toNat).filter (fun q => s.allocation q r > 0)).sup
          (fun q => 2 * order.indexOf q + 2) :=
      Finset.le_sup (f := fun q => 2 * order.indexOf q + 2) hmem
    omega
  · rw [ha, hb]
    unfold discharge_rank
    rw [if_neg (by omega), if_pos hp, Nat.add_sub_cancel_left]
    rw [Finset.sup_lt_iff (by simp)]
    intro q hq
    obtain ⟨hq1, hq2⟩ := Finset.mem_filter.1 hq
    have hbefore := single_instance_holder_before s order hnd hlt hfits hal hone p q r
      (hall p hp) (Finset.mem_range.1 hq1) hr hpos hq2
    omega

/-- Claim C21, counterexample. In a valid state with one unit of its single
resource, free, and a process claiming two units, `detect_deadlock` reports a
deadlock while the graph built from the state has no cycle: `detect_cycle_rag`
returns `false`. -/
theorem single_instance_deadlock_without_cycle :
    (∀ r, r < oversized_claim_state.num_resources.toNat →
      0 ≤ oversized_claim_state.available r) ∧
    (∀ p, p < oversized_claim_state.num_processes.toNat →
      ∀ r, r < oversized_claim_state.num_resources.toNat →
        0 ≤ oversized_claim_state.allocation p r ∧
          oversized_claim_state.allocation p r ≤ oversized_claim_state.max_need p r) ∧
    (∀ r, r < oversized_claim_state.num_resources.toNat →
      resource_total oversized_claim_state r = 1) ∧
    (detect_deadlock oversized_claim_state).map (fun out => out.2.is_deadlocked) = some true ∧
    detect_cycle_rag (build_rag oversized_claim_state empty_rag) = some false ∧
    detect_cycle_rag (build_rag (calculate_need_matrix oversized_claim_state) empty_rag)
      = some false := by
  decide

/-- Claim C21, amended. For every state of the program (its in-range entries are
`int` values) with non-negative `available` and `allocation` in which each resource
type has exactly one instance (`available[r]` plus the allocations of `r` is 1) and
no process claims more than one unit of a resource (`max_need[p][r] <= 1`),
`detect_cycle_rag` on the graph that `build_rag` builds after
`calculate_need_matrix` and `detect_deadlock` on the state both return, and
`detect_cycle_rag` returns `true` if and only if `is_deadlocked` is `true`. -/
theorem single_instance_cycle_iff_deadlock (s : SystemState) (rag : RAG)
    (hint : IntState s)
    (hav : ∀ r, r < s.num_resources.toNat → 0 ≤ s.available r)
    (hal : ∀ p, p < s.num_processes.toNat → ∀ r, r < s.num_resources.toNat →
      0 ≤ s.allocation p r)
    (hone : ∀ r, r < s.num_resources.toNat → resource_total s r = 1)
    (hcap : ∀ p, p < s.num_processes.toNat → ∀ r, r < s.num_resources.toNat →
      s.max_need p r ≤ 1) :
    ∃ b, detect_cycle_rag (build_rag (calculate_need_matrix s) rag) = some b ∧
      (detect_deadlock s).map (fun out => out.2.is_deadlocked) = some b := by
  have hW := workFits_of_single s hav hal hone
  obtain ⟨fin, hinv, hwork, hstuck, hrun⟩ := detect_deadlock_run s
  obtain ⟨hweq, hfits⟩ := scanWork_stored s fin hinv (hwork hW)
  have hdet := hrun _ (le_refl _)
  rw [← detect_deadlock_eq] at hdet
  cases hU : unfinished s fin.finish with
  | nil =>
    refine ⟨false, detect_cycle_rag_of_acyclic _ ?_, ?_⟩
    · rintro ⟨u, hu⟩
      have hall : ∀ p, p < s.num_processes.toNat → p ∈ fin.safe_sequence := fun p hp =>
        (hinv.mem_iff p).2 ((unfinished_eq_nil_iff s fin.finish).1 hU p hp)
      exact lt_irrefl _
        (transGen_rank_lt _ (discharge_rank s fin.safe_sequence)
          (fun a b hab => discharge_rank_decreases s rag fin.safe_sequence hinv.nodup hinv.lt
            hall hfits hal hone a b hab) u u hu)
    · rw [hdet, hU]
      rfl
  | cons p0 rest =>
    refine ⟨true, detect_cycle_rag_of_cycle _ ?_, ?_⟩
    · have hp0 : p0 ∈ (unfinished s fin.finish).toFinset := by
        rw [hU]
        simp
      unfold has_cycle
      apply cycle_of_successors _ (unfinished s fin.finish).toFinset p0 hp0
      intro p hp
      rw [List.mem_toFinset, mem_unfinished] at hp
      obtain ⟨q, hq, hpath⟩ :=
        single_instance_successor s rag fin hinv hweq hstuck hint hav hal hone hcap p hp.1 hp.2
      refine ⟨q, ?_, hpath⟩
      rw [List.mem_toFinset, mem_unfinished]
      exact hq
    · rw [hdet, hU]
      rfl

theorem single_instance_cycle_iff_deadlock_witness :
    (IntState single_instance_state ∧
      (∀ r, r < single_instance_state.num_resources.toNat →
        0 ≤ single_instance_state.available r) ∧
      (∀ p, p < single_instance_state.num_processes.toNat →
        ∀ r, r < single_instance_state.num_resources.toNat →
          0 ≤ single_instance_state.allocation p r) ∧
      (∀ r, r < single_instance_state.num_resources.toNat →
        resource_total single_instance_state r = 1) ∧
      ∀ p, p < single_instance_state.num_processes.toNat →
        ∀ r, r < single_instance_state.num_resources.toNat →
          single_instance_state.max_need p r ≤ 1) ∧
    ∃ b, detect_cycle_rag (build_rag (calculate_need_matrix single_instance_state) empty_rag)
        = some b ∧
      (detect_deadlock single_instance_state).map (fun out => out.2.is_deadlocked) = some b :=
  ⟨by decide, single_instance_cycle_iff_deadlock single_instance_state empty_rag
    (by decide) (by decide) (by decide) (by decide) (by decide)⟩

/-! ## A granted request and the state it was made in -/

theorem tentative_allocation (s : SystemState) (p r : Nat) (amount : Int) (q j : Nat) :
    (tentative s p r amount).allocation q j
      = s.allocation q j + if q = p ∧ j = r then amount else 0 := by
  show upd2 s.allocation p r (s.allocation p r + amount) q j = _
  rw [upd2_apply]
  by_cases h : q = p ∧ j = r
  · rw [if_pos h, if_pos h, h.1, h.2]
  · rw [if_neg h, if_neg h, add_zero]

theorem tentative_available (s : SystemState) (p r : Nat) (amount : Int) (j : Nat) :
    s.available j = (tentative s p r amount).available j + if j = r then amount else 0 := by
  show _ = upd s.available r (s.available r - amount) j + _
  rw [upd_apply]
  by_cases h : j = r
  · rw [if_pos h, if_pos h, h]
    omega
  · rw [if_neg h, if_neg h, add_zero]

/-- A discharge order of the tentative state of a request is a discharge order of
the state the request was made in: before the requester is discharged the work
vector is larger by the amount, and so is the requester's need; afterwards the two
work vectors agree. -/
theorem valid_discharge_of_tentative (s : SystemState) (p r : Nat) (amount : Int)
    (ha : 0 ≤ amount) (l : List Nat) (hnd : l.Nodup) (wt ws : Nat → Int)
    (hw : ∀ j, ws j = wt j + if j = r then amount else 0)
    (h : valid_discharge (tentative s p r amount) l wt) : valid_discharge s l ws := by
  induction l generalizing wt ws with
  | nil => trivial
  | cons q l ih =>
    obtain ⟨hfit, hrest⟩ := h
    obtain ⟨hq, hnd2⟩ := List.nodup_cons.1 hnd
    have hmx : ∀ j, (tentative s p r amount).max_need q j = s.max_need q j := fun _ => rfl
    by_cases hqp : q = p
    · refine ⟨?_, ?_⟩
      · intro j hj
        have h1 := hfit j hj
        rw [hmx, tentative_allocation] at h1
        have h2 := hw j
        by_cases hj2 : j = r
        · rw [if_pos ⟨hqp, hj2⟩] at h1
          rw [if_pos hj2] at h2
          omega
        · rw [if_neg (fun hc => hj2 hc.2)] at h1
          rw [if_neg hj2] at h2
          omega
      · refine valid_discharge_transfer (tentative s p r amount) s p rfl ?_ ?_ l ?_ _ _ ?_ hrest
        · intro a b hab
          rw [tentative_allocation, if_neg (fun hc => hab hc.1), add_zero]
        · intro a b _
          rfl
        · intro a ha2 hc
          exact hq (hqp ▸ hc ▸ ha2)
        · intro j _
          have h2 := hw j
          have h3 := tentative_allocation s p r amount q j
          by_cases hj2 : j = r
          · rw [if_pos ⟨hqp, hj2⟩] at h3
            rw [if_pos hj2] at h2
            omega
          · rw [if_neg (fun hc => hj2 hc.2)] at h3
            rw [if_neg hj2] at h2
            omega
    · have hal : ∀ j, (tentative s p r amount).allocation q j = s.allocation q j := by
        intro j
        rw [tentative_allocation, if_neg (fun hc => hqp hc.1), add_zero]
      refine ⟨?_, ?_⟩
      · intro j hj
        have h1 := hfit j hj
        rw [hmx, hal] at h1
        have h2 := hw j
        by_cases hj2 : j = r
        · rw [if_pos hj2] at h2
          omega
        · rw [if_neg hj2] at h2
          omega
      · refine ih hnd2 _ _ ?_ hrest
        intro j
        have h2 := hw j
        have h3 := hal j
        omega

/-- Claim C31, counterexample. In a state with non-negative allocation,
`available = [INT_MAX]`, allocation rows `[1]` and `[0]` and claims of one unit,
`detect_deadlock` reports process 1 deadlocked (the work vector wraps to `INT_MIN`
when process 0 is discharged), and `cmd_simulate` grants the request of process 1
for one unit. -/
theorem cmd_simulate_grants_in_deadlock :
    (∀ i, i < overflow_work_state.num_processes.toNat →
      ∀ j, j < overflow_work_state.num_resources.toNat →
        0 ≤ overflow_work_state.allocation i j) ∧
    (cmd_simulate overflow_work_state 1 0 1).map (fun out => out.2.granted) = some true ∧
    (detect_deadlock overflow_work_state).map
        (fun out => (out.2.is_deadlocked, out.2.deadlocked_processes))
      = some (true, [1]) := by
  decide

/-- Claim C31, amended. `cmd_simulate` never grants a request in a state that is
already deadlocked, as long as no `int` overflows: for every state of `int`
entries with non-negative `available` and `allocation` whose differences
`max_need - allocation` and resource units fit in an `int`, and every request, if
`cmd_simulate` reports `granted = true` then `detect_deadlock` on the state before
the request returns `is_deadlocked = false`. -/
theorem cmd_simulate_granted_not_deadlocked (s : SystemState) (pi rj amount : Int)
    (hnn : NonNegative s) (hint : IntState s) (hN : NeedFits s) (hW : WorkFits s)
    (hg : (cmd_simulate s pi rj amount).map (fun out => out.2.granted) = some true) :
    (detect_deadlock s).map (fun out => out.2.is_deadlocked) = some false := by
  rcases cmd_simulate_cases s pi rj amount with
    ⟨-, h⟩ | ⟨-, -, h⟩ | ⟨-, -, -, h⟩ | ⟨hin, hle, hneed, res, hres, h⟩
  · rw [h] at hg
    simp at hg
  · rw [h] at hg
    simp at hg
  · rw [h] at hg
    simp at hg
  · rw [h] at hg
    have hfree : res.is_deadlocked = false := by
      by_contra hne
      rw [if_neg hne] at hg
      simp at hg
    have hpos := hnn.2
    have hamount : 0 < amount := by
      by_contra hneg
      exact hin (Or.inl (by omega))
    have hp : pi.toNat < s.num_processes.toNat := by
      have h1 : ¬ pi < 0 := fun hc => hin (Or.inr (Or.inl hc))
      have h2 : ¬ pi ≥ s.num_processes := fun hc => hin (Or.inr (Or.inr (Or.inl hc)))
      omega
    have hr : rj.toNat < s.num_resources.toNat := by
      have h1 : ¬ rj < 0 := fun hc => hin (Or.inr (Or.inr (Or.inr (Or.inl hc))))
      have h2 : ¬ rj ≥ s.num_resources := fun hc => hin (Or.inr (Or.inr (Or.inr (Or.inr hc))))
      omega
    have hnd0 := hN pi.toNat hp rj.toNat hr
    rw [wrap_int_of_isInt _ hnd0] at hneed
    have hav0 := hnn.1 rj.toNat hr
    have hav1 := hint.1 rj.toNat hr
    have hal0 := hnn.2 pi.toNat hp rj.toNat hr
    have hmx1 := (hint.2 pi.toNat hp rj.toNat hr).2
    unfold IsInt INT_MIN INT_MAX at hnd0 hav1 hmx1
    have hle2 : amount ≤ s.available rj.toNat := by
      unfold to_unsigned at hle
      omega
    have htrial : trial s pi.toNat rj.toNat amount = tentative s pi.toNat rj.toNat amount :=
      trial_eq_tentative s pi.toNat rj.toNat amount
        (by unfold IsInt INT_MIN INT_MAX; omega) (by unfold IsInt INT_MIN INT_MAX; omega)
    rw [htrial] at hres
    have hNt : NeedFits (tentative s pi.toNat rj.toNat amount) := by
      intro i hi j hj
      have hmx : (tentative s pi.toNat rj.toNat amount).max_need i j = s.max_need i j := rfl
      rw [hmx, tentative_allocation]
      have hfit := hN i hi j hj
      by_cases hij : i = pi.toNat ∧ j = rj.toNat
      · rw [if_pos hij, hij.1, hij.2]
        unfold IsInt INT_MIN INT_MAX
        omega
      · rw [if_neg hij, add_zero]
        exact hfit
    have hWt : WorkFits (tentative s pi.toNat rj.toNat amount) := by
      intro j hj
      have hnpt : (tentative s pi.toNat rj.toNat amount).num_processes = s.num_processes := rfl
      rw [hnpt]
      have hsum : ∑ q in Finset.range s.num_processes.toNat,
            |(tentative s pi.toNat rj.toNat amount).allocation q j|
          = ∑ q in Finset.range s.num_processes.toNat,
              (|s.allocation q j| + if q = pi.toNat then (if j = rj.toNat then amount else 0)
                else 0) := by
        refine Finset.sum_congr rfl (fun q hq => ?_)
        rw [tentative_allocation]
        have hq0 := hnn.2 q (Finset.mem_range.1 hq) j hj
        by_cases hqp : q = pi.toNat
        · by_cases hjr : j = rj.toNat
          · rw [if_pos ⟨hqp, hjr⟩, if_pos hqp, if_pos hjr, abs_of_nonneg hq0,
              abs_of_nonneg (by omega)]
          · rw [if_neg (fun hc => hjr hc.2), if_pos hqp, if_neg hjr, add_zero, add_zero]
        · rw [if_neg (fun hc => hqp hc.1), if_neg hqp, add_zero, add_zero]
      rw [hsum, Finset.sum_add_distrib, Finset.sum_ite_eq' _ pi.toNat,
        if_pos (Finset.mem_range.2 hp)]
      have hold := hW j hj
      have hava := tentative_available s pi.toNat rj.toNat amount j
      have hj0 := hnn.1 j hj
      by_cases hjr : j = rj.toNat
      · rw [if_pos hjr] at hava ⊢
        rw [hjr] at hava hj0 hold ⊢
        rw [abs_of_nonneg hj0] at hold
        rw [abs_of_nonneg (by omega)]
        omega
      · rw [if_neg hjr, add_zero] at hava
        rw [if_neg hjr, add_zero, ← hava]
        exact hold
    obtain ⟨fint, hinvt, -, hseq, hdl⟩ :=
      detect_deadlock_result (tentative s pi.toNat rj.toNat amount) res hNt hWt hres
    obtain ⟨-, -, -, hflag⟩ :=
      detect_deadlock_shape _ _ res (detect_deadlock_of_result _ res hres)
    have hnil : unfinished (tentative s pi.toNat rj.toNat amount) fint.finish = [] := by
      rw [← hdl]
      by_contra hne
      have := hflag.2 hne
      rw [hfree] at this
      exact absurd this (by decide)
    have hall : ∀ x, x < s.num_processes.toNat → x ∈ fint.safe_sequence := fun x hx =>
      (hinvt.mem_iff x).2 ((unfinished_eq_nil_iff _ fint.finish).1 hnil x hx)
    have hval : valid_discharge s fint.safe_sequence s.available :=
      valid_discharge_of_tentative s pi.toNat rj.toNat amount (le_of_lt hamount)
        fint.safe_sequence
        hinvt.nodup _ _ (tentative_available s pi.toNat rj.toNat amount) hinvt.valid
    obtain ⟨fin, hinv, hstuck, hrun⟩ := detect_deadlock_spec s hN hW
    have hfin := order_finished s fin hinv hstuck hpos fint.safe_sequence ∅ s.available
      (fun q hq => absurd hq (Finset.not_mem_empty q)) (fun r _ => by simp) hinvt.nodup
      (fun x _ => Finset.not_mem_empty x) hinvt.lt hval
    have hnil2 : unfinished s fin.finish = [] :=
      (unfinished_eq_nil_iff s fin.finish).2 (fun x hx => hfin x (hall x hx))
    rw [detect_deadlock_eq, hrun _ (le_refl _), hnil2]
    rfl

theorem cmd_simulate_granted_not_deadlocked_witness :
    ((NonNegative scenario_A ∧ IntState scenario_A ∧ NeedFits scenario_A ∧
        WorkFits scenario_A) ∧
      (cmd_simulate scenario_A 1 0 1).map (fun out => out.2.granted) = some true) ∧
    (detect_deadlock scenario_A).map (fun out => out.2.is_deadlocked) = some false :=
  ⟨⟨⟨⟨by decide, by decide⟩, by decide, by decide, by decide⟩, by decide⟩,
    cmd_simulate_granted_not_deadlocked scenario_A 1 0 1 ⟨by decide, by decide⟩
      (by decide) (by decide) (by decide) (by decide)⟩

end DeadlockDetection
